import Mathlib

/-!
# Verification of the financial-methodologies-kb pipeline core

Shallow embedding of the deterministic core of the repository:
the QA Reviewer verdict (`pipeline/agents/agent_d/reviewer.py`),
the Quality Gate (`pipeline/agents/agent_b/quality_gate.py`),
the Compiler normalization (`pipeline/agents/agent_c_v2/compiler.py`),
the orchestrator run loop (`pipeline/orchestrator_cli/runner.py`), and
the graph publisher upserts (`arangodb/client.py`).

Python dictionaries are embedded as insertion-ordered association lists,
Python strings as `String`, machine integers as `Int`/`Nat` (Python ints are
unbounded, so no wraparound is modelled), floats that only report ratios as
`ℚ`.  Wall-clock timestamps (`utc_now_iso()`) are passed in explicitly as
`String` parameters; a single call site receives a single value.
-/

set_option autoImplicit false

namespace KB

/-! ## Python value model

A minimal model of the Python/JSON values the embedded functions inspect:
`none`, strings, integers, booleans, lists and (insertion-ordered) dicts.
-/

inductive PV where
  | vnone : PV
  | s : String → PV
  | i : Int → PV
  | b : Bool → PV
  | q : ℚ → PV
  | lst : List PV → PV
  | dict : List (String × PV) → PV

/-- Python truthiness for the values above
(`None`, `""`, `0`, `False`, `0.0`, `[]`, `{}` are falsy). -/
def PV.truthy : PV → Bool
  | .vnone => false
  | .s str => str != ""
  | .i n => n != 0
  | .b bv => bv
  | .q x => x != 0
  | .lst l => !l.isEmpty
  | .dict d => !d.isEmpty

/-! ## Decimal rendering (Python `str(int)` and `f"{n:03d}"`)

A fuel-based structural decimal formatter (so it reduces inside the kernel),
together with a value function that recovers the number, giving injectivity
of the zero-padded form used for stable IDs. -/

/-- Little-endian decimal digits of `n`, with enough fuel (`n ≤ fuel`). -/
def decDigitsAux : Nat → Nat → List Nat
  | 0, _ => []
  | fuel + 1, n => if n = 0 then [] else n % 10 :: decDigitsAux fuel (n / 10)

/-- Decimal string of a natural number, as Python `str(n)` renders it. -/
def decRepr (n : Nat) : String :=
  if n = 0 then "0" else ⟨((decDigitsAux (n + 1) n).reverse.map Nat.digitChar)⟩

/-- Decimal string of an integer, as Python `str(n)` renders it. -/
def intRepr (n : Int) : String :=
  if n < 0 then "-" ++ decRepr n.natAbs else decRepr n.natAbs

/-- Python `f"{n:03d}"`: zero-pad the decimal form to a minimum width of 3
(numbers of four or more digits are not shortened). -/
def pad3 (n : Nat) : String :=
  ⟨List.replicate (3 - (decRepr n).length) (Char.ofNat 48) ++ (decRepr n).data⟩

/-- Numeric value of a decimal character string (big-endian fold). -/
def strVal (l : List Char) : Nat :=
  l.foldl (fun a c => 10 * a + (c.toNat - 48)) 0

/-! ## MD5 (`hashlib.md5(...).hexdigest()`)

The publisher derives edge keys from `hashlib.md5`; the algorithm is
embedded in full (RFC 1321) over `Nat` with explicit `% 2^32`, structurally
recursive so concrete digests reduce inside the kernel. -/

def w32 (x : Nat) : Nat := x % 4294967296

def not32 (x : Nat) : Nat := x ^^^ 0xFFFFFFFF

def rotl32 (x s : Nat) : Nat := w32 ((x <<< s) ||| (x >>> (32 - s)))

/-- The per-round left-rotation amounts. -/
def md5ShiftTable : List Nat :=
  [7, 12, 17, 22, 7, 12, 17, 22, 7, 12, 17, 22, 7, 12, 17, 22,
   5, 9, 14, 20, 5, 9, 14, 20, 5, 9, 14, 20, 5, 9, 14, 20,
   4, 11, 16, 23, 4, 11, 16, 23, 4, 11, 16, 23, 4, 11, 16, 23,
   6, 10, 15, 21, 6, 10, 15, 21, 6, 10, 15, 21, 6, 10, 15, 21]

/-- `K[i] = floor(|sin(i+1)| * 2^32)`. -/
def md5SineTable : List Nat :=
  [0xd76aa478, 0xe8c7b756, 0x242070db, 0xc1bdceee,
   0xf57c0faf, 0x4787c62a, 0xa8304613, 0xfd469501,
   0x698098d8, 0x8b44f7af, 0xffff5bb1, 0x895cd7be,
   0x6b901122, 0xfd987193, 0xa679438e, 0x49b40821,
   0xf61e2562, 0xc040b340, 0x265e5a51, 0xe9b6c7aa,
   0xd62f105d, 0x02441453, 0xd8a1e681, 0xe7d3fbc8,
   0x21e1cde6, 0xc33707d6, 0xf4d50d87, 0x455a14ed,
   0xa9e3e905, 0xfcefa3f8, 0x676f02d9, 0x8d2a4c8a,
   0xfffa3942, 0x8771f681, 0x6d9d6122, 0xfde5380c,
   0xa4beea44, 0x4bdecfa9, 0xf6bb4b60, 0xbebfbc70,
   0x289b7ec6, 0xeaa127fa, 0xd4ef3085, 0x04881d05,
   0xd9d4d039, 0xe6db99e5, 0x1fa27cf8, 0xc4ac5665,
   0xf4292244, 0x432aff97, 0xab9423a7, 0xfc93a039,
   0x655b59c3, 0x8f0ccc92, 0xffeff47d, 0x85845dd1,
   0x6fa87e4f, 0xfe2ce6e0, 0xa3014314, 0x4e0811a1,
   0xf7537e82, 0xbd3af235, 0x2ad7d2bb, 0xeb86d391]

/-- UTF-8 encoding of one character (Python `str.encode()`). -/
def utf8EncodeCharNat (c : Char) : List Nat :=
  let n := c.toNat
  if n < 0x80 then [n]
  else if n < 0x800 then
    [0xC0 ||| (n >>> 6), 0x80 ||| (n &&& 0x3F)]
  else if n < 0x10000 then
    [0xE0 ||| (n >>> 12), 0x80 ||| ((n >>> 6) &&& 0x3F), 0x80 ||| (n &&& 0x3F)]
  else
    [0xF0 ||| (n >>> 18), 0x80 ||| ((n >>> 12) &&& 0x3F),
     0x80 ||| ((n >>> 6) &&& 0x3F), 0x80 ||| (n &&& 0x3F)]

def utf8Bytes (s : String) : List Nat := s.data.flatMap utf8EncodeCharNat

/-- `k` little-endian bytes of `n`. -/
def leBytes : Nat → Nat → List Nat
  | 0, _ => []
  | k + 1, n => (n % 256) :: leBytes k (n / 256)

/-- MD5 padding: `0x80`, zeros to 56 mod 64, 8-byte little-endian bit
length. -/
def md5Pad (msg : List Nat) : List Nat :=
  let padLen := (119 - (msg.length % 64)) % 64
  msg ++ [0x80] ++ List.replicate padLen 0 ++ leBytes 8 (8 * msg.length)

/-- Split a 64-byte chunk into 16 little-endian 32-bit words. -/
def toWords : List Nat → List Nat
  | b0 :: b1 :: b2 :: b3 :: rest =>
    (b0 + 256 * (b1 + 256 * (b2 + 256 * b3))) :: toWords rest
  | _ => []

/-- One of the 64 MD5 rounds. -/
def md5Step (M : List Nat) (st : Nat × Nat × Nat × Nat) (i : Nat) :
    Nat × Nat × Nat × Nat :=
  let A := st.1
  let B := st.2.1
  let C := st.2.2.1
  let D := st.2.2.2
  let FG : Nat × Nat :=
    if i < 16 then ((B &&& C) ||| (not32 B &&& D), i)
    else if i < 32 then ((D &&& B) ||| (not32 D &&& C), (5 * i + 1) % 16)
    else if i < 48 then (B ^^^ C ^^^ D, (3 * i + 5) % 16)
    else (C ^^^ (B ||| not32 D), (7 * i) % 16)
  let F2 := w32 (FG.1 + A + md5SineTable.getD i 0 + M.getD FG.2 0)
  (D, w32 (B + rotl32 F2 (md5ShiftTable.getD i 0)), B, C)

def md5ProcessChunk (st : Nat × Nat × Nat × Nat) (chunk : List Nat) :
    Nat × Nat × Nat × Nat :=
  let M := toWords chunk
  let r := (List.range 64).foldl (md5Step M) st
  (w32 (st.1 + r.1), w32 (st.2.1 + r.2.1),
   w32 (st.2.2.1 + r.2.2.1), w32 (st.2.2.2 + r.2.2.2))

/-- Process the padded message 64 bytes at a time (fuel-structural so it
reduces in the kernel; `fuel = bytes.length` suffices). -/
def md5Chunks : Nat → List Nat → Nat × Nat × Nat × Nat → Nat × Nat × Nat × Nat
  | 0, _, st => st
  | _ + 1, [], st => st
  | fuel + 1, bytes, st =>
    md5Chunks fuel (bytes.drop 64) (md5ProcessChunk st (bytes.take 64))

def hexDigit (n : Nat) : Char :=
  if n < 10 then Char.ofNat (48 + n) else Char.ofNat (87 + n)

def byteHex (b : Nat) : List Char := [hexDigit (b / 16), hexDigit (b % 16)]

def wordLEB (w : Nat) : List Nat :=
  [w % 256, w / 256 % 256, w / 65536 % 256, w / 16777216 % 256]

/-- `hashlib.md5(s.encode()).hexdigest()`: 32 lowercase hex characters. -/
def md5_hexdigest (s : String) : String :=
  let padded := md5Pad (utf8Bytes s)
  let r := md5Chunks padded.length padded
    (0x67452301, 0xefcdab89, 0x98badcfe, 0x10325476)
  ⟨([r.1, r.2.1, r.2.2.1, r.2.2.2].flatMap wordLEB).flatMap byteHex⟩

/-- A lowercase hexadecimal character (0-9, a-f). -/
def isHexLower (c : Char) : Bool :=
  (48 ≤ c.toNat && c.toNat ≤ 57) || (97 ≤ c.toNat && c.toNat ≤ 102)

/-! ## Rendering of Python values (`str(v)` / `repr(v)`)

Only the scalar cases are exercised by the claims; container rendering
follows Python list/dict repr shape (string escaping inside `repr` is not
modelled, no claim inspects it). -/

mutual

/-- Python `repr(v)` (shape only; `'`-quoting of strings uses the raw
apostrophe character). -/
def pyRepr : PV → String
  | .vnone => "None"
  | .s str => String.singleton (Char.ofNat 39) ++ str ++ String.singleton (Char.ofNat 39)
  | .i n => intRepr n
  | .b true => "True"
  | .b false => "False"
  -- Python float repr is not modelled; no claim renders a float value.
  | .q x => intRepr x.num ++ "/" ++ decRepr x.den
  | .lst l => "[" ++ pyReprList l ++ "]"
  | .dict d => "\x7b" ++ pyReprDict d ++ "\x7d"

def pyReprList : List PV → String
  | [] => ""
  | [x] => pyRepr x
  | x :: rest => pyRepr x ++ ", " ++ pyReprList rest

def pyReprDict : List (String × PV) → String
  | [] => ""
  | [(k, v)] =>
    String.singleton (Char.ofNat 39) ++ k ++ String.singleton (Char.ofNat 39) ++
      ": " ++ pyRepr v
  | (k, v) :: rest =>
    String.singleton (Char.ofNat 39) ++ k ++ String.singleton (Char.ofNat 39) ++
      ": " ++ pyRepr v ++ ", " ++ pyReprDict rest

end

/-- Python `str(v)`: like `repr` but a top-level string stays unquoted. -/
def pyStr : PV → String
  | .s str => str
  | v => pyRepr v

/-- `v or dflt` in Python: the left value when truthy, else the default. -/
def pyOrPV (v dflt : PV) : PV := if v.truthy then v else dflt

/-- Python ASCII whitespace (`str.strip()` with no argument): tab, newline,
vertical tab, form feed, carriage return, space.  (Python also strips some
Unicode spaces; no claim exercises those.) -/
def isPySpace (c : Char) : Bool := c.toNat = 32 || (9 ≤ c.toNat && c.toNat ≤ 13)

/-- Python `str.strip()`: remove leading and trailing whitespace.
(Implemented on the character list so it reduces inside the kernel.) -/
def pyStrip (s : String) : String :=
  ⟨((s.data.dropWhile isPySpace).reverse.dropWhile isPySpace).reverse⟩

/-- Python `str.lower()` (ASCII case mapping; every value the embedded code
compares against is ASCII). -/
def pyLower (s : String) : String := ⟨s.data.map Char.toLower⟩

/-! ## QA Reviewer: issues, decision (reviewer.py) -/

namespace Reviewer

/-- `Issue` dataclass of `reviewer.py` (lines 112-119): severity is one of
`BLOCKER | MAJOR | MINOR`, evidence is a small dict. -/
structure Issue where
  id : String
  severity : String
  category : String
  message : String
  evidence : List (String × PV)
  fix_hint : String

/-- `decide` of `reviewer.py` (lines 1015-1022): count BLOCKER and MAJOR
severities; refuse when any BLOCKER or at least three MAJORs. -/
def decide (issues : List Issue) : Bool :=
  let blockers := (issues.filter (fun i => i.severity = "BLOCKER")).length
  let majors := (issues.filter (fun i => i.severity = "MAJOR")).length
  if blockers ≥ 1 then false
  else if majors ≥ 3 then false
  else true

end Reviewer

/-! ## Quality Gate allowed severities and Compiler severity normalization -/

namespace QualityGate

/-- `ALLOWED_SEVERITY` of `quality_gate.py` (line 24). -/
def ALLOWED_SEVERITY : List String := ["critical", "warning", "info", "low"]

/-- `_is_empty` (quality_gate.py lines 27-32): `None` or a blank string. -/
def IsEmptyV (v : PV) : Bool :=
  match v with
  | .vnone => true
  | .s str => pyStrip str == ""
  | _ => false

/-- `re.sub(r"\s+", " ", s)`: map every whitespace character to a space,
then squeeze adjacent spaces. -/
def squeezeSpaces : List Char → List Char
  | [] => []
  | [c] => [c]
  | c :: d :: rest =>
    if c = ' ' ∧ d = ' ' then squeezeSpaces (d :: rest)
    else c :: squeezeSpaces (d :: rest)

def collapseWs (s : String) : String :=
  ⟨squeezeSpaces (s.data.map (fun c => if isPySpace c then ' ' else c))⟩

/-- `_normalize_name` (quality_gate.py lines 35-38): `(name or "").strip().
lower()` with whitespace runs collapsed.  The outline data model types
indicator names as strings, so the field is `Option String` (absent and
`None` coincide under `dict.get`). -/
def gateNormalizeName (name : Option String) : String :=
  collapseWs (pyLower (pyStrip (name.getD "")))

/-- A stage as the gate reads it: `description` and `order` may be any YAML
value. -/
structure GStage where
  description : PV
  order : PV

/-- An indicator as the gate reads it. -/
structure GIndicator where
  name : Option String
  description : PV
  formula : PV

/-- A rule as the gate reads it; the severity is absent/`None` or a string
(the outline data model types it as a string). -/
structure GRule where
  severity : Option String

/-- The gate's input: the four sequences under `structure` (the
`(doc or {}).get("structure") or {}` indirection collapsed; tools are never
inspected beyond being a list). -/
structure GateDoc where
  stages : List GStage
  tools : List PV
  indicators : List GIndicator
  rules : List GRule

structure GateError where
  code : String
  message : String

/-- The `metrics` dict of `run_gate`; ratios are exact rationals (Python
uses floats, which only feed the report). -/
structure GateMetrics where
  n_stages : Nat
  empty_stage_desc_ratio : Option ℚ
  order_ok : Option Bool
  n_indicators : Nat
  empty_indicator_desc_ratio : Option ℚ
  formula_non_empty_ratio : Option ℚ
  n_rules : Nat
  severity_ok : Option Bool
  duplicate_indicators : Option Nat

structure GateReport where
  status : String
  metrics : GateMetrics
  errors : List GateError

/-- `isinstance(o, int)` on a YAML value (Python booleans are ints:
`int(True) = 1`). -/
def asPyInt (v : PV) : Option Int :=
  match v with
  | .i n => some n
  | .b bv => some (if bv then 1 else 0)
  | _ => none

/-- Python `min` of a non-empty int list (the gate only calls it with at
least one element; `0` is returned for `[]` only to make the model total). -/
def pyMin : List Int → Int
  | [] => 0
  | x :: xs => xs.foldl min x

def pyMax : List Int → Int
  | [] => 0
  | x :: xs => xs.foldl max x

/-- The duplicate count of the `seen`-set loop (quality_gate.py lines
135-141): the number of occurrences whose normalized name appeared
earlier. -/
def countDups (seen : List String) : List String → Nat
  | [] => 0
  | n :: rest =>
    if n ∈ seen then 1 + countDups seen rest else countDups (n :: seen) rest

/-- Rendering of `f"invalid severity values: {sorted(set(bad))}"`.  The
model renders the deduplicated values in sorted order with `None` first;
(Python's `sorted` would raise a `TypeError` when `bad` mixes `None` with
strings, aborting the gate — that pathological message path is rendered
totally here and is not exercised by any claim). -/
def renderBadSeverities (bad : List (Option String)) : String :=
  let strs := (bad.filterMap id).dedup.mergeSort (· ≤ ·)
  let noneFirst := if (bad.contains none) then "None" ::
    strs.map (fun s => String.singleton (Char.ofNat 39) ++ s ++ String.singleton (Char.ofNat 39))
    else strs.map (fun s => String.singleton (Char.ofNat 39) ++ s ++ String.singleton (Char.ofNat 39))
  "invalid severity values: [" ++ String.intercalate ", " noneFirst ++ "]"

/-! `run_gate` (quality_gate.py lines 41-147) is embedded check by check;
`gateErrors` concatenates the error lists in the order the Python function
appends them, and `run_gate` assembles the report. -/

/-- Check 1 (lines 62-65): at least one stage. -/
def stageCountErrs (doc : GateDoc) : List GateError :=
  if doc.stages.length < 1 then
    [⟨"BQG_STAGE_COUNT", "stages must contain at least 1 item"⟩] else []

/-- Empty-description stage count (line 69). -/
def emptyStageDesc (doc : GateDoc) : Nat :=
  (doc.stages.filter (fun s => IsEmptyV s.description)).length

/-- Check 2 (lines 68-72): no stage description is empty. -/
def stageDescErrs (doc : GateDoc) : List GateError :=
  if doc.stages.length > 0 ∧ emptyStageDesc doc > 0 then
    [⟨"BQG_STAGE_DESC_EMPTY",
      decRepr (emptyStageDesc doc) ++ " stage descriptions are empty"⟩]
  else []

/-- The integer `order` values, in stage order (lines 76-83). -/
def stageOrders (doc : GateDoc) : List Int :=
  doc.stages.filterMap (fun s => asPyInt s.order)

/-- Some stage has a non-integer order (lines 79-81). -/
def badOrder (doc : GateDoc) : Bool :=
  doc.stages.any (fun s => (asPyInt s.order).isNone)

/-- The `ok` condition of lines 89-94: as many distinct orders as stages,
minimum 1 and maximum N. -/
def orderOk (doc : GateDoc) : Prop :=
  (stageOrders doc).toFinset.card = doc.stages.length ∧
    pyMin (stageOrders doc) = 1 ∧
    pyMax (stageOrders doc) = (doc.stages.length : Int)

instance (doc : GateDoc) : Decidable (orderOk doc) := by
  unfold orderOk; infer_instance

/-- Check 3 (lines 75-97): order type, then uniqueness/range. -/
def stageOrderErrs (doc : GateDoc) : List GateError :=
  if doc.stages.length > 0 then
    if badOrder doc then
      [⟨"BQG_STAGE_ORDER_TYPE", "stage.order must be int for all stages"⟩]
    else if ¬ orderOk doc then
      [⟨"BQG_STAGE_ORDER_RANGE",
        "stage.order must be unique and cover 1..N without gaps"⟩]
    else []
  else []

/-- The `order_ok` metric (lines 86, 95). -/
def orderOkMetric (doc : GateDoc) : Option Bool :=
  if doc.stages.length > 0 then
    if badOrder doc then some false else some (decide (orderOk doc))
  else none

/-- Empty-description indicator count (line 103). -/
def emptyIndDesc (doc : GateDoc) : Nat :=
  (doc.indicators.filter (fun i => IsEmptyV i.description)).length

/-- Check 4 (lines 100-106): at most 10% of indicator descriptions empty. -/
def indDescErrs (doc : GateDoc) : List GateError :=
  if doc.indicators.length > 0 ∧
      (emptyIndDesc doc : ℚ) / (doc.indicators.length : ℚ) > 1 / 10 then
    [⟨"BQG_IND_DESC_COVERAGE", "indicator description coverage below 90%"⟩]
  else []

/-- Non-empty formula count (line 113); feeds a metric only — the
formula-emptiness FAIL is deliberately commented out (lines 115-117). -/
def nonEmptyFormula (doc : GateDoc) : Nat :=
  (doc.indicators.filter (fun i => ¬ IsEmptyV i.formula)).length

/-- The invalid severity values, in rule order (lines 122-127). -/
def badSeverities (doc : GateDoc) : List (Option String) :=
  (doc.rules.filter (fun r =>
    match r.severity with
    | some sev => decide (sev ∉ ALLOWED_SEVERITY)
    | none => true)).map (fun r => r.severity)

/-- Check 6 (lines 119-130): every severity in the allowed enumeration. -/
def severityErrs (doc : GateDoc) : List GateError :=
  if doc.rules.length > 0 ∧ badSeverities doc ≠ [] then
    [⟨"BQG_SEVERITY_ENUM", renderBadSeverities (badSeverities doc)⟩] else []

/-- Normalized indicator names, in order (line 134). -/
def indNames (doc : GateDoc) : List String :=
  doc.indicators.map (fun i => gateNormalizeName i.name)

/-- Check 7 (lines 132-144): no duplicate normalized indicator names. -/
def dupErrs (doc : GateDoc) : List GateError :=
  if doc.indicators.length > 0 ∧ countDups [] (indNames doc) > 0 then
    [⟨"BQG_IND_DUPES", "duplicate indicators by normalized name: " ++
      decRepr (countDups [] (indNames doc))⟩]
  else []

/-- All errors, in the order `run_gate` appends them. -/
def gateErrors (doc : GateDoc) : List GateError :=
  stageCountErrs doc ++ stageDescErrs doc ++ stageOrderErrs doc ++
    indDescErrs doc ++ severityErrs doc ++ dupErrs doc

/-- `run_gate` (quality_gate.py lines 41-147): `status = PASS` iff the
error list is empty, plus the metrics dict. -/
def run_gate (doc : GateDoc) : GateReport :=
  { status := if (gateErrors doc).isEmpty then "PASS" else "FAIL"
    metrics :=
      { n_stages := doc.stages.length
        empty_stage_desc_ratio :=
          if doc.stages.length > 0 then
            some ((emptyStageDesc doc : ℚ) / (doc.stages.length : ℚ)) else none
        order_ok := orderOkMetric doc
        n_indicators := doc.indicators.length
        empty_indicator_desc_ratio :=
          if doc.indicators.length > 0 then
            some ((emptyIndDesc doc : ℚ) / (doc.indicators.length : ℚ)) else none
        formula_non_empty_ratio :=
          if doc.indicators.length > 0 then
            some ((nonEmptyFormula doc : ℚ) / (doc.indicators.length : ℚ)) else none
        n_rules := doc.rules.length
        severity_ok :=
          if doc.rules.length > 0 then
            some ((badSeverities doc).length = 0 : Bool) else none
        duplicate_indicators :=
          if doc.indicators.length > 0 then
            some (countDups [] (indNames doc)) else none }
    errors := gateErrors doc }

/-- The report carries an error with the given code. -/
def hasErrorCode (rep : GateReport) (code : String) : Prop :=
  code ∈ rep.errors.map GateError.code

instance (rep : GateReport) (code : String) : Decidable (hasErrorCode rep code) := by
  unfold hasErrorCode; infer_instance

/-- A concrete gate input: two stages with orders 1 and 3, nothing else. -/
def demoGateDoc : GateDoc :=
  { stages := [⟨PV.s "step one", PV.i 1⟩, ⟨PV.s "step two", PV.i 3⟩]
    tools := []
    indicators := []
    rules := [] }

end QualityGate

namespace Compiler

/-- An element of one of the outline sequences: either a dict (whose relevant
entries are collected in `α`, with `PV.vnone` for absent keys — `dict.get`
does not distinguish a missing key from an explicit `None`) or some other
YAML value, which `normalize_outline` skips (`if not isinstance(s, dict):
continue`, compiler.py lines 256-257 etc.). -/
inductive Raw (α : Type) where
  | dict : α → Raw α
  | nondict : Raw α

/-- Relevant entries of a raw stage dict (compiler.py lines 258-260). -/
structure RawStage where
  title : PV
  description : PV
  order : PV

/-- Relevant entries of a raw tool dict (compiler.py lines 276-281). -/
structure RawTool where
  title : PV
  type : PV
  description : PV

/-- Relevant entries of a raw indicator dict (compiler.py lines 288-293). -/
structure RawInd where
  name : PV
  title : PV
  description : PV
  formula : PV

/-- Relevant entries of a raw rule dict (compiler.py lines 300-305). -/
structure RawRule where
  condition : PV
  action : PV
  severity : PV

/-- Compiled stage record (compiler.py lines 262-269). -/
structure CompiledStage where
  id : String
  title : String
  description : String
  order : Option Int
  order_display : String
  source : PV

/-- Compiled tool record (compiler.py lines 276-281). -/
structure CompiledTool where
  id : String
  title : String
  type : String
  description : String

/-- Compiled indicator record (compiler.py lines 288-293). -/
structure CompiledInd where
  id : String
  name : String
  description : String
  formula : String

/-- Compiled rule record (compiler.py lines 300-305). -/
structure CompiledRule where
  id : String
  condition : String
  action : String
  severity : String

/-- `normalize_tool_type` (compiler.py lines 90-105): non-strings map to
`"other"`, strings go through a fixed map with fallback `"other"`. -/
def normalize_tool_type (t : PV) : String :=
  match t with
  | .s str =>
    let t0 := pyLower (pyStrip str)
    let mapping : List (String × String) :=
      [("table", "table"), ("template", "template"), ("checklist", "checklist"),
       ("calculator", "calculator"), ("document", "document"),
       ("chart", "chart"), ("graph", "chart"), ("map", "other")]
    match mapping.lookup t0 with
    | some v => v
    | none => "other"
  | _ => "other"

/-- Stage loop body (compiler.py lines 258-269); `idx` is the 1-based
`enumerate` counter.  `isinstance(order_val, int)` also accepts Python
booleans (`int(True) = 1`). -/
def compileStage (idx : Nat) (s : RawStage) : CompiledStage :=
  let order_val := s.order
  { id := "stage_" ++ pad3 idx
    title := pyStrip (pyStr (pyOrPV s.title (.s ("Stage " ++ decRepr idx))))
    description := pyStrip (pyStr (pyOrPV s.description (.s "")))
    order := match order_val with
      | .i n => some n
      | .b bv => some (if bv then 1 else 0)
      | _ => none
    order_display := match order_val with
      | .vnone => decRepr idx
      | ov => decRepr idx ++ " (source order: " ++ pyStr ov ++ ")"
    source := .vnone }

/-- Tool loop body (compiler.py lines 273-281). -/
def compileTool (idx : Nat) (t : RawTool) : CompiledTool :=
  { id := "tool_" ++ pad3 idx
    title := pyStrip (pyStr (pyOrPV t.title (.s ("Tool " ++ decRepr idx))))
    type := normalize_tool_type t.type
    description := pyStrip (pyStr (pyOrPV t.description (.s ""))) }

/-- Indicator loop body (compiler.py lines 285-293): the name falls back
from `name` to legacy `title` to `"Indicator {idx}"`; the formula is the
trimmed `str()` of a truthy `formula` value, else `""`. -/
def compileInd (idx : Nat) (ind : RawInd) : CompiledInd :=
  { id := "ind_" ++ pad3 idx
    name := pyStrip (pyStr (pyOrPV ind.name
      (pyOrPV ind.title (.s ("Indicator " ++ decRepr idx)))))
    description := pyStrip (pyStr (pyOrPV ind.description (.s "")))
    formula := if ind.formula.truthy then pyStrip (pyStr ind.formula) else "" }

/-- Rule loop body (compiler.py lines 297-305):
`severity = str(r.get("severity") or "medium").strip().lower()` —
a falsy severity (absent, `None`, `""`, …) becomes `"medium"`, any other
value is only rendered, trimmed and lowercased, never validated.
(`.lower()` is modelled by the ASCII `pyLower`.) -/
def compileRule (idx : Nat) (r : RawRule) : CompiledRule :=
  { id := "rule_" ++ pad3 idx
    condition := pyStrip (pyStr (pyOrPV r.condition (.s "")))
    action := pyStrip (pyStr (pyOrPV r.action (.s "")))
    severity := pyLower (pyStrip (pyStr (pyOrPV r.severity (.s "medium")))) }

/-- The shared loop shape of all four `normalize_outline` sequences
(compiler.py lines 255, 273, 285, 297): `for idx, x in enumerate(raw,
start=k)` where a non-dict element is skipped but still consumes its
index. -/
def compileSeq {α β : Type} (mk : Nat → α → β) : Nat → List (Raw α) → List β
  | _, [] => []
  | idx, .nondict :: rest => compileSeq mk (idx + 1) rest
  | idx, .dict a :: rest => mk idx a :: compileSeq mk (idx + 1) rest

/-- The four normalized sequences of `normalize_outline`
(compiler.py lines 253-305), with `enumerate(..., start=1)`. -/
def normalizeStages (raw : List (Raw RawStage)) : List CompiledStage :=
  compileSeq compileStage 1 raw

def normalizeTools (raw : List (Raw RawTool)) : List CompiledTool :=
  compileSeq compileTool 1 raw

def normalizeInds (raw : List (Raw RawInd)) : List CompiledInd :=
  compileSeq compileInd 1 raw

def normalizeRules (raw : List (Raw RawRule)) : List CompiledRule :=
  compileSeq compileRule 1 raw

/-- The ID regexes of reviewer.py lines 197-202 (`^stage_\d{3}$` etc.):
the string is the prefix followed by exactly three decimal digits.
(`\d` is modelled as ASCII digits; all generated IDs are ASCII.) -/
def matchesKindId (pre s : String) : Bool :=
  (s.data.take pre.length == pre.data) &&
    ((s.data.drop pre.length).length == 3) &&
    (s.data.drop pre.length).all Char.isDigit

/-- The stable-ID property of one normalized sequence: every output element's
id is the kind prefix followed by the zero-padded 1-based position of its
originating item in the outline sequence, ids are pairwise distinct, and —
whenever the sequence has at most 999 items — every id matches the
three-digit regex exactly. -/
def stableIdSpec {α β : Type} (norm : List (Raw α) → List β)
    (idOf : β → String) (pre : String) : Prop :=
  ∀ raw : List (Raw α),
    (∀ c ∈ norm raw, ∃ i a, ∃ h : i < raw.length,
      raw.get ⟨i, h⟩ = Raw.dict a ∧ idOf c = pre ++ pad3 (i + 1)) ∧
    ((norm raw).map idOf).Pairwise (· ≠ ·) ∧
    (raw.length ≤ 999 → ∀ c ∈ norm raw, matchesKindId pre (idOf c) = true)

/-- A concrete raw stage used by witnesses. -/
def demoStage1 : RawStage := ⟨PV.s "Analysis", PV.s "First step", PV.i 1⟩

/-- A second concrete raw stage with source order 3. -/
def demoStage2 : RawStage := ⟨PV.s "Planning", PV.s "Second step", PV.i 3⟩

/-- A concrete outline stage sequence: two dicts separated by a non-dict
element (which `normalize_outline` skips while consuming its index). -/
def demoStages : List (Raw RawStage) :=
  [Raw.dict demoStage1, Raw.nondict, Raw.dict demoStage2]

end Compiler

namespace Reviewer

/-! ### `precheck_formulas` (reviewer.py lines 368-449) -/

/-- Python `s[:n]` on strings (by characters). -/
def pyTake (s : String) (n : Nat) : String := ⟨s.data.take n⟩

/-- The control/garbage characters of the `forbidden` regex
(line 383): `[\x00-\x08\x0B\x0C\x0E-\x1F]` (tab, LF and CR excluded). -/
def hasControlChar (s : String) : Bool :=
  s.data.any (fun c =>
    c.toNat ≤ 8 || c.toNat = 11 || c.toNat = 12 ||
      (14 ≤ c.toNat && c.toNat ≤ 31))

/-- The parenthesis scan of lines 408-417: depth goes negative → unbalanced;
non-zero final depth → unbalanced. -/
def parenScan : List Char → Int → Bool
  | [], bal => bal == 0
  | c :: rest, bal =>
    if c = '(' then parenScan rest (bal + 1)
    else if c = ')' then
      if bal - 1 < 0 then false else parenScan rest (bal - 1)
    else parenScan rest bal

def parenBalanced (s : String) : Bool := parenScan s.data 0

/-- A word character for the `\b` boundaries of the heuristic regex.
Python `\w` is Unicode; ASCII alphanumerics and `_` plus all non-ASCII
characters count as word characters here (the keywords themselves are
ASCII). -/
def isWordChar (c : Char) : Bool := c.isAlphanum || c == '_' || c.toNat ≥ 128

/-- The keyword `w` occurs in `l` starting at position `i` with `\b`
boundaries on both sides. -/
def hasWordAt (l : List Char) (i : Nat) (w : List Char) : Bool :=
  ((l.drop i).take w.length == w) &&
    (i == 0 || !isWordChar (l.getD (i - 1) ' ')) &&
    (i + w.length == l.length || !isWordChar (l.getD (i + w.length) ' '))

/-- The alternatives of `r"\b(ratio|margin|roi|roa|roe|turnover|ratio)\b"`
(line 432; `ratio` is repeated in the source regex). -/
def formulaKeywordAlts : List String :=
  ["ratio", "margin", "roi", "roa", "roe", "turnover", "ratio"]

/-- `re.search(r"\b(...)\b", s.lower())` as a Boolean. -/
def hasRatioKeyword (s : String) : Bool :=
  formulaKeywordAlts.any (fun w =>
    (List.range (s.length + 1)).any (fun i => hasWordAt (pyLower s).data i w.data))

/-- `Modelled from the spec:` the claim's phrase "the indicator's name looks
like a ratio/margin/ROI-style indicator", read as the same keyword test the
code owns, applied to the *name*.  (The source applies the test to the
formula text; this definition exists only to state the discrepancy.) -/
def nameLooksRatioLike (name : String) : Bool := hasRatioKeyword name

/-- An indicator as `precheck_formulas` reads it (only `formula` is ever
accessed; `name` is carried to state the claim). -/
structure RevInd where
  name : PV
  formula : PV

/-- `str(ind.get("formula") or "").strip()` (line 387). -/
def indFormula (ind : RevInd) : String :=
  pyStrip (pyStr (pyOrPV ind.formula (.s "")))

/-- The loop body for one indicator (lines 384-446): a skipped non-dict or
empty formula contributes nothing; otherwise exactly one of the three issue
kinds (control MAJOR, paren MAJOR, `=`-heuristic MINOR) or no issue, with
`(checked, passed)` increments. -/
def checkFormulaItem (idx : Nat) (item : Compiler.Raw RevInd) :
    Option Issue × Nat × Nat :=
  match item with
  | .nondict => (none, 0, 0)
  | .dict ind =>
    let q := String.singleton (Char.ofNat 39)
    let formula := indFormula ind
    let ptr := "/structure/indicators/" ++ decRepr idx ++ "/formula"
    if formula = "" then (none, 0, 0)
    else if hasControlChar formula then
      (some ⟨"FORM-" ++ pad3 (idx + 1), "MAJOR", "formula",
        "Formula contains control/garbage characters.",
        [("pointer", PV.s ptr), ("snippet", PV.s (pyTake formula 120))],
        "Clean extraction / normalize formula text."⟩, 1, 0)
    else if ¬ parenBalanced formula then
      (some ⟨"FORM-PAREN-" ++ pad3 (idx + 1), "MAJOR", "formula",
        "Unbalanced parentheses in formula.",
        [("pointer", PV.s ptr), ("snippet", PV.s (pyTake formula 120))],
        "Fix parentheses or extraction errors."⟩, 1, 0)
    else if hasRatioKeyword formula ∧ ¬ formula.data.contains '=' then
      (some ⟨"FORM-EQ-" ++ pad3 (idx + 1), "MINOR", "formula",
        "Formula looks like a definition but " ++ q ++ "=" ++ q ++ " is missing.",
        [("pointer", PV.s ptr), ("snippet", PV.s (pyTake formula 120))],
        "If it is a definition, write as " ++ q ++ "X = ..." ++ q ++
          ". Otherwise ignore."⟩, 1, 1)
    else (none, 1, 1)

/-- The `enumerate` fold of `precheck_formulas`, accumulating
`(issues, checked, passed)`. -/
def formulasLoop : Nat → List (Compiler.Raw RevInd) → List Issue × Nat × Nat
  | _, [] => ([], 0, 0)
  | idx, item :: rest =>
    let r := checkFormulaItem idx item
    let rec' := formulasLoop (idx + 1) rest
    (r.1.toList ++ rec'.1, r.2.1 + rec'.2.1, r.2.2 + rec'.2.2)

/-- `precheck_formulas` (lines 368-449): the issue list and the pass ratio
(`passed/checked`, or `1.0` when nothing was checked). -/
def precheck_formulas (inds : List (Compiler.Raw RevInd)) : List Issue × ℚ :=
  let r := formulasLoop 0 inds
  (r.1, if r.2.1 = 0 then 1 else (r.2.2 : ℚ) / (r.2.1 : ℚ))

/-- An indicator whose formula contains the `margin` keyword and no `=`. -/
def demoInd : RevInd := ⟨PV.s "Coverage", PV.s "Gross margin over sales"⟩

/-- A concrete BLOCKER issue (the shape `precheck_glossary` emits). -/
def demoBlockerIssue : Issue :=
  ⟨"GLOSS-001", "BLOCKER", "glossary", "Glossary term_id not found",
    [("pointer", PV.s "/glossary_references/found_terms/0/term_id")],
    "Add term to glossary or replace with existing term_id."⟩

/-- An indicator whose *name* looks ratio-like but whose formula contains no
keyword (and no `=`). -/
def demoNameInd : RevInd := ⟨PV.s "Profit Margin", PV.s "Revenue / Cost"⟩

end Reviewer

namespace Reviewer

/-! ### `qa_result.json` construction (reviewer.py `main`, lines 1260-1295)
and `compute_score` (lines 994-1012) -/

/-- Python `int()` truncation toward zero of a float/rational. -/
def pyTruncInt (x : ℚ) : Int :=
  if x ≥ 0 then ⌊x⌋ else -⌊-x⌋

/-- `compute_score` (lines 994-1012): start at 100, subtract 40 for schema,
25/10/3 per BLOCKER/MAJOR/MINOR, the scaled coverage penalties, clamp to
[0, 100]. -/
def compute_score (issues : List Issue) (glossary_coverage formula_frac : ℚ)
    (schema_ok : Bool) : Int :=
  let s0 : Int := 100
  let s1 := if schema_ok then s0 else s0 - 40
  let s2 := s1 - 25 * ((issues.filter (fun i => i.severity = "BLOCKER")).length : Int)
      - 10 * ((issues.filter (fun i => i.severity = "MAJOR")).length : Int)
      - 3 * ((issues.filter (fun i => i.severity = "MINOR")).length : Int)
  let s3 := s2 - pyTruncInt ((1 - glossary_coverage) * 20)
      - pyTruncInt ((1 - formula_frac) * 15)
  max 0 (min 100 s3)

/-- `Issue.to_dict` (lines 121-129). -/
def issueToDict (i : Issue) : PV :=
  PV.dict [("id", PV.s i.id), ("severity", PV.s i.severity),
    ("category", PV.s i.category), ("message", PV.s i.message),
    ("evidence", PV.dict i.evidence), ("fix_hint", PV.s i.fix_hint)]

/-- Python `round(x, 4)` (banker's rounding on the rational value; binary
float representation effects are not modelled). -/
def pyRound4 (x : ℚ) : ℚ :=
  let y := x * 10000
  let n := ⌊y⌋
  let f := y - n
  let r : Int :=
    if f > 1 / 2 then n + 1
    else if f < 1 / 2 then n
    else if Even n then n else n + 1
  (r : ℚ) / 10000

/-- The `qa_result` dict written by `main` (lines 1261-1288), with its exact
top-level key layout: the BLOCKER/MAJOR/MINOR counts live under `summary`,
and there is no top-level `blockers` or `warnings` key. -/
def build_qa_result (book_id : String) (issues : List Issue)
    (glossary_cov formula_frac : ℚ) (schema_ok : Bool) (use_llm : Bool)
    (llm_issues llm_strengths : Nat) (generated_at : String) :
    List (String × PV) :=
  [("book_id", PV.s book_id),
   ("approved", PV.b (decide issues)),
   ("score", PV.i (compute_score issues glossary_cov formula_frac schema_ok)),
   ("summary", PV.dict
     [("blockers", PV.i ((issues.filter (fun i => i.severity = "BLOCKER")).length : Int)),
      ("majors", PV.i ((issues.filter (fun i => i.severity = "MAJOR")).length : Int)),
      ("minors", PV.i ((issues.filter (fun i => i.severity = "MINOR")).length : Int))]),
   ("issues", PV.lst (issues.map issueToDict)),
   ("metrics", PV.dict
     [("schema_valid", PV.b schema_ok),
      ("glossary_coverage", PV.q (pyRound4 glossary_cov)),
      ("formula_checks_passed", PV.q (pyRound4 formula_frac))]),
   ("llm_findings", PV.dict
     [("enabled", PV.b use_llm),
      ("issues_found", PV.i (if use_llm then (llm_issues : Int) else 0)),
      ("strengths_found", PV.i (if use_llm then (llm_strengths : Int) else 0)),
      ("model", if use_llm then PV.s "claude-sonnet-4.5" else PV.vnone)]),
   ("generated_at", PV.s generated_at),
   ("reviewer", PV.dict
     [("agent", PV.s "Agent D"),
      ("model", PV.s (if use_llm then "claude-sonnet-4.5" else "none (precheck-only)")),
      ("prompt_version", PV.s "v1.0")])]

end Reviewer

namespace Runner

/-- Python `dict.get(k)`: the stored value, or `None` when the key is
missing. -/
def pyGet (d : List (String × PV)) (k : String) : PV :=
  match d.lookup k with
  | some v => v
  | none => PV.vnone

/-- `QARecord` of `orchestrator_cli/manifest.py` (lines 38-43).  The Python
dataclass annotates `Optional[bool]`/`Optional[int]` but nothing enforces
the annotation at runtime; the fields hold whatever `step_D` assigns, so
they are modelled as raw values with `PV.vnone` for `None`. -/
structure QARecord where
  approved : PV := PV.vnone
  blockers : PV := PV.vnone
  warnings : PV := PV.vnone
  gate_status : PV := PV.vnone

/-- The manifest-QA update of `step_D` (runner.py lines 214-221): copy the
*top-level* `approved`, `blockers` and `warnings` entries of
`qa_result.json` into the manifest. -/
def stepDQaUpdate (qa : QARecord) (data : List (String × PV)) : QARecord :=
  { qa with
    approved := pyGet data "approved"
    blockers := pyGet data "blockers"
    warnings := pyGet data "warnings" }

/-! ### The run loop (`OrchestratorRunner.run`, runner.py lines 324-410)

Step bodies perform subprocess and filesystem work; each is abstracted as
its observable outcome: an exception message or a list of artifact paths.
The quality-gate subprocess is abstracted as its exit code plus the parsed
report it writes (`none` when `read_json` would raise).  Wall-clock timing
fields of `StepRecord` are not modelled. -/

inductive StepName where
  | B | C | D | Gate | G | E | F
  deriving DecidableEq, Repr

def nameStr : StepName → String
  | .B => "B"
  | .C => "C"
  | .D => "D"
  | .Gate => "Gate"
  | .G => "G"
  | .E => "E"
  | .F => "F"

/-- `StepRecord` of manifest.py (lines 25-35), without the timing fields. -/
structure StepRecord where
  name : String
  status : String
  artifacts : List String
  error : Option String

/-- The observable behaviour of the environment for one run. -/
structure StepEnv where
  stepB : Except String (List String)
  stepC : Except String (List String)
  stepD : Except String (List String)
  gateExit : Int
  gateReport : Option (List (String × PV))
  stepG : Except String (List String)
  stepE : Except String (List String)
  stepF : Except String (List String)

structure Config where
  require_gate_pass : Bool

/-- The run-visible state: the manifest's step records, the gate status
stored in `manifest.qa`, the reason written to `final.json`, and the list of
step bodies that actually ran. -/
structure RunState where
  steps : List StepRecord
  qa_gate_status : PV
  finalReason : Option String
  executed : List StepName

/-- Python `v != "PASS"` fails exactly when `v` is the string `"PASS"`. -/
def pvIsStr (v : PV) (s : String) : Bool :=
  match v with
  | .s t => t == s
  | _ => false

/-- One step body (runner.py lines 146-320): `step_Gate` raises on an exit
code other than 0/2 (line 253-254) or on an unreadable report (line 256);
its artifact list is the report path when the parsed dict is truthy
(line 356).  The other steps are opaque in-process/subprocess calls. -/
def processStep (env : StepEnv) : StepName → Except String (List String)
  | .B => env.stepB
  | .C => env.stepC
  | .D => env.stepD
  | .Gate =>
    if env.gateExit ≠ 0 ∧ env.gateExit ≠ 2 then
      .error ("Gate command failed with unexpected code (" ++
        intRepr env.gateExit ++ ")")
    else
      match env.gateReport with
      | none => .error "read_json failed"
      | some rep => .ok (if rep.isEmpty then [] else ["b_quality_gate.json"])
  | .G => env.stepG
  | .E => env.stepE
  | .F => env.stepF

/-- The artifact list a succeeding step returns (meaningful only under the
hypothesis that the step succeeds). -/
def artsOf (env : StepEnv) (s : StepName) : List String :=
  match processStep env s with
  | .ok a => a
  | .error _ => []

def okRecord (env : StepEnv) (s : StepName) : StepRecord :=
  ⟨nameStr s, "ok", artsOf env s, none⟩

def failRecord (s : StepName) (msg : String) : StepRecord :=
  ⟨nameStr s, "fail", [], some msg⟩

/-- The skip record of runner.py lines 377-387. -/
def skipRecord (s : StepName) : StepRecord :=
  ⟨nameStr s, "skipped", [], some "Skipped due to Gate FAIL"⟩

def stepFailReason : StepName → String
  | .B => "Step B failed"
  | .C => "Step C failed"
  | .D => "Step D failed"
  | .Gate => "Gate step failed"
  | .G => "Step G failed"
  | .E => "Step E failed"
  | .F => "Step F failed"

/-- `manifest.qa.gate_status = gate.get("status")` (line 257), performed
inside `step_Gate` when the report was read. -/
def updateGateStatus (env : StepEnv) (st : RunState) : RunState :=
  match env.gateReport with
  | some rep => { st with qa_gate_status := pyGet rep "status" }
  | none => st

/-- Append the skip records for the remaining steps among `{G, E}`
(runner.py lines 373-387). -/
def addSkips (st : RunState) (remaining : List StepName) : RunState :=
  { st with steps := st.steps ++
      (remaining.filter (fun s => s = .G ∨ s = .E)).map skipRecord }

/-- The `for s in steps` loop (lines 336-410).  `allSteps` is the full
requested list — the skip path slices it from `steps.index(s) + 1` (first
occurrence, line 373) as the Python does. -/
def runLoop (cfg : Config) (env : StepEnv) (allSteps : List StepName) :
    List StepName → RunState → Int × RunState
  | [], st => (0, { st with finalReason := some "Completed" })
  | s :: rest, st =>
    let st := { st with executed := st.executed ++ [s] }
    match processStep env s with
    | .error msg =>
      (1, { st with
        steps := st.steps ++ [failRecord s msg]
        finalReason := some (stepFailReason s) })
    | .ok arts =>
      let st := if s = .Gate then updateGateStatus env st else st
      let st := { st with steps := st.steps ++ [⟨nameStr s, "ok", arts, none⟩] }
      if s = .Gate then
        match env.gateReport with
        | some rep =>
          if cfg.require_gate_pass ∧ pvIsStr (pyGet rep "status") "PASS" = false then
            (2, { addSkips st (allSteps.drop (allSteps.indexOf .Gate + 1)) with
              finalReason := some "Gate FAIL" })
          else runLoop cfg env allSteps rest st
        | none => runLoop cfg env allSteps rest st
      else runLoop cfg env allSteps rest st

/-- `OrchestratorRunner.run`: loop over the requested steps from the empty
manifest state. -/
def run (cfg : Config) (env : StepEnv) (steps : List StepName) :
    Int × RunState :=
  runLoop cfg env steps steps ⟨[], PV.vnone, none, []⟩

end Runner

namespace Arango

/-! ## ArangoDB client upserts (`arangodb/client.py`)

Documents are insertion-ordered field lists, collections are
insertion-ordered key-to-document lists, the database maps collection names
to collections.  `col.update(doc, merge=True, keep_none=False)` is the
python-arango/ArangoDB update: incoming fields overwrite, `None` fields are
removed, nested objects are merged recursively. -/

abbrev Doc : Type := List (String × PV)

abbrev Collection : Type := List (String × Doc)

abbrev DBState : Type := List (String × Collection)

def getField (d : Doc) (k : String) : Option PV := List.lookup k d

/-- Set a field: replace in place, or append when absent (Python dict
assignment). -/
def setField : Doc → String → PV → Doc
  | [], k, v => [(k, v)]
  | (k', v') :: rest, k, v =>
    if k' = k then (k, v) :: rest else (k', v') :: setField rest k v

/-- Remove a field (ArangoDB `keepNull=False` dropping a `null`). -/
def removeField : Doc → String → Doc
  | [], _ => []
  | (k', v') :: rest, k =>
    if k' = k then rest else (k', v') :: removeField rest k

/-- `dict.setdefault(k, v)`. -/
def setDefault (d : Doc) (k : String) (v : PV) : Doc :=
  match getField d k with
  | some _ => d
  | none => d ++ [(k, v)]

mutual

/-- Merge the `new` fields into `old` (ArangoDB update with
`mergeObjects=true`, `keepNull=false`). -/
def mergeDicts (old : List (String × PV)) : List (String × PV) → List (String × PV)
  | [] => old
  | (k, v) :: rest => mergeDicts (mergeEntry old k v) rest

def mergeEntry (old : List (String × PV)) (k : String) (v : PV) :
    List (String × PV) :=
  match v with
  | .vnone => removeField old k
  | .dict dv =>
    match List.lookup k old with
    | some (.dict ov) => setField old k (.dict (mergeDicts ov dv))
    | _ => setField old k (.dict dv)
  | _ => setField old k v

end

def colHas (c : Collection) (k : String) : Bool := (List.lookup k c).isSome

def colGet (c : Collection) (k : String) : Option Doc := List.lookup k c

def colInsert (c : Collection) (k : String) (d : Doc) : Collection :=
  c ++ [(k, d)]

/-- Replace the stored document at `k` in place. -/
def colSet : Collection → String → Doc → Collection
  | [], k, d => [(k, d)]
  | (k', d') :: rest, k, d =>
    if k' = k then (k, d) :: rest else (k', d') :: colSet rest k d

/-- `col.update(doc, merge=True, keep_none=False)` for an existing key. -/
def colUpdate (c : Collection) (k : String) (d : Doc) : Collection :=
  match colGet c k with
  | some old => colSet c k (mergeDicts old d)
  | none => c

def dbGetCol (db : DBState) (name : String) : Collection :=
  (List.lookup name db).getD []

def dbHasCol (db : DBState) (name : String) : Bool :=
  (List.lookup name db).isSome

def dbSetCol : DBState → String → Collection → DBState
  | [], name, c => [(name, c)]
  | (n', c') :: rest, name, c =>
    if n' = name then (name, c) :: rest else (n', c') :: dbSetCol rest name c

/-- `create_collection` when missing (client.py lines 511-512, 593-594,
608-609). -/
def dbEnsureCol (db : DBState) (name : String) : DBState :=
  if dbHasCol db name then db else db ++ [(name, [])]

/-- `_infer_entity_type` (client.py lines 701-713). -/
def inferEntityType (collection_name : String) : String :=
  let mapping : List (String × String) :=
    [("methodologies", "methodology"), ("stages", "stage"), ("tools", "tool"),
     ("indicators", "indicator"), ("rules", "rule"),
     ("glossary_terms", "term"), ("chunks", "chunk"),
     ("embeddings", "embedding")]
  match mapping.lookup collection_name with
  | some v => v
  | none => "entity"

structure EntityStats where
  upserted : Nat := 0
  inserted : Nat := 0
  updated : Nat := 0
  errors : Nat := 0

structure EdgeStats where
  upserted : Nat := 0
  inserted : Nat := 0
  updated : Nat := 0
  errors : Nat := 0
  created_glossary_stubs : Nat := 0

/-- The standard-field enrichment of one entity document
(client.py lines 528-531). -/
def enrichEntity (now colName : String) (doc : Doc) : Doc :=
  setDefault (setDefault (setDefault doc "updated_at" (.s now))
    "created_at" (.s now)) "entity_type" (.s (inferEntityType colName))

/-- One entity document upsert (client.py lines 523-556): missing or
non-string `_key` takes the exception path (error count + warning);
an existing key is merge-updated with the original `created_at` restored;
a fresh key is inserted. -/
def upsertEntityDoc (now colName : String)
    (acc : Collection × EntityStats × List Doc) (doc : Doc) :
    Collection × EntityStats × List Doc :=
  let col := acc.1
  let stats := acc.2.1
  let warnings := acc.2.2
  match getField doc "_key" with
  | none =>
    (col, { stats with errors := stats.errors + 1 },
      warnings ++ [[("type", PV.s "entity_upsert_failed"),
        ("collection", PV.s colName), ("doc_key", PV.vnone),
        ("message", PV.s ("Missing _key in " ++ colName ++ " doc")),
        ("at", PV.s now)]])
  | some keyv =>
    match keyv with
    | .s key =>
      let doc := enrichEntity now colName doc
      if colHas col key then
        let doc := match colGet col key with
          | some existing =>
            match getField existing "created_at" with
            | some c => setField doc "created_at" c
            | none => doc
          | none => doc
        (colUpdate col key doc,
          { stats with updated := stats.updated + 1,
                       upserted := stats.upserted + 1 }, warnings)
      else
        (colInsert col key doc,
          { stats with inserted := stats.inserted + 1,
                       upserted := stats.upserted + 1 }, warnings)
    | _ =>
      -- `col.has(key)` raises for a non-string key; caught at line 548.
      (col, { stats with errors := stats.errors + 1 },
        warnings ++ [[("type", PV.s "entity_upsert_failed"),
          ("collection", PV.s colName), ("doc_key", keyv),
          ("message", PV.s "invalid _key type"), ("at", PV.s now)]])

def upsertEntityList (now colName : String) (col : Collection)
    (stats : EntityStats) (warnings : List Doc) (docs : List Doc) :
    Collection × EntityStats × List Doc :=
  docs.foldl (upsertEntityDoc now colName) (col, stats, warnings)

/-- One iteration of the `upsert_entities` collection loop: skip an empty
document list, create the collection when missing, fold the documents with
fresh stats, append the stats row. -/
def upsertEntitiesStep (now : String)
    (acc : DBState × List (String × EntityStats) × List Doc)
    (p : String × List Doc) :
    DBState × List (String × EntityStats) × List Doc :=
  if p.2.isEmpty then acc
  else
    let db := dbEnsureCol acc.1 p.1
    let r := upsertEntityList now p.1 (dbGetCol db p.1) {} acc.2.2 p.2
    (dbSetCol db p.1 r.1, acc.2.1 ++ [(p.1, r.2.1)], r.2.2)

/-- `upsert_entities` (client.py lines 478-564): per collection, skip empty
document lists, create the collection when missing, fold the documents. -/
def upsert_entities (now : String) (db : DBState)
    (entities : List (String × List Doc)) (qaw : List Doc) :
    DBState × List (String × EntityStats) × List Doc :=
  entities.foldl (upsertEntitiesStep now) (db, [], qaw)

def stringStartsWith (pre s : String) : Bool :=
  s.data.take pre.length == pre.data

/-- Python `s[:n]` on the character list. -/
def strTake (s : String) (n : Nat) : String := ⟨s.data.take n⟩

/-- Python `s[n:]` on the character list. -/
def strDrop (s : String) (n : Nat) : String := ⟨s.data.drop n⟩

/-- The glossary stub document (client.py lines 635-646). -/
def glossaryStub (now term_key : String) (edge : Doc) : Doc :=
  [("_key", PV.s term_key), ("term_id", PV.s term_key),
   ("name", match getField edge "term_name" with
     | some v => if v.truthy then v else PV.s term_key
     | none => PV.s term_key),
   ("definition", PV.s ""), ("aliases", PV.lst []), ("tags", PV.lst []),
   ("status", PV.s "needs_definition"), ("entity_type", PV.s "term"),
   ("created_at", PV.s now), ("updated_at", PV.s now)]

/-- The stub-creation QA warning (client.py lines 649-657). -/
def stubWarning (now term_key ecolName : String) (edge : Doc) : Doc :=
  let q := String.singleton (Char.ofNat 39)
  [("type", PV.s "glossary_term_stub_created"),
   ("term_key", PV.s term_key), ("edge_collection", PV.s ecolName),
   ("from", match getField edge "_from" with | some v => v | none => PV.vnone),
   ("relation_type", match getField edge "relation_type" with
     | some v => v | none => PV.vnone),
   ("message", PV.s ("Glossary term " ++ q ++ term_key ++ q ++
     " missing; created stub with status=" ++ q ++ "needs_definition" ++ q)),
   ("at", PV.s now)]

/-- The deterministic edge signature
`f"{edge['_from']}|{edge['_to']}|{rel_type}"` with
`rel_type = edge.get("relation_type", edge.get("relation", "related"))`
(client.py lines 661-662). -/
def edgeSig (edge : Doc) (to_id : String) : String :=
  let rel_type : PV :=
    match getField edge "relation_type" with
    | some v => v
    | none =>
      match getField edge "relation" with
      | some v => v
      | none => PV.s "related"
  (match getField edge "_from" with | some v => pyStr v | none => "") ++
    "|" ++ to_id ++ "|" ++ pyStr rel_type

def edgeFailWarning (now ecolName msg : String) (edge : Doc) : Doc :=
  [("type", PV.s "edge_upsert_failed"), ("collection", PV.s ecolName),
   ("edge_key", match getField edge "_key" with | some v => v | none => PV.vnone),
   ("from", match getField edge "_from" with | some v => v | none => PV.vnone),
   ("to", match getField edge "_to" with | some v => v | none => PV.vnone),
   ("message", PV.s msg), ("at", PV.s now)]

/-- One edge upsert (client.py lines 621-688): missing `_from`/`_to` or a
non-string `_to`/`_key` takes the exception path; a `glossary_terms/<key>`
target without an existing term inserts a stub and appends a QA warning;
the deterministic `_key` is the truncated MD5 of
`_from|_to|relation_type`; existing keys are merge-updated (the incoming
`created_at` — set by `setdefault` — overwrites), fresh keys inserted. -/
def upsertEdgeDoc (now ecolName : String)
    (acc : DBState × EdgeStats × List Doc) (edge : Doc) :
    DBState × EdgeStats × List Doc :=
  let db := acc.1
  let stats := acc.2.1
  let warnings := acc.2.2
  if (getField edge "_from").isNone ∨ (getField edge "_to").isNone then
    (db, { stats with errors := stats.errors + 1 },
      warnings ++ [edgeFailWarning now ecolName
        ("Edge missing _from/_to in " ++ ecolName) edge])
  else
    let edge := setDefault edge "created_at" (.s now)
    match getField edge "_to" with
    | some (.s to_id) =>
      -- glossary stub rule
      let stub : DBState × EdgeStats × List Doc :=
        if stringStartsWith "glossary_terms/" to_id then
          let term_key := strDrop to_id 15
          if colHas (dbGetCol db "glossary_terms") term_key then
            (db, stats, warnings)
          else
            (dbSetCol db "glossary_terms"
              (colInsert (dbGetCol db "glossary_terms") term_key
                (glossaryStub now term_key edge)),
              { stats with created_glossary_stubs :=
                  stats.created_glossary_stubs + 1 },
              warnings ++ [stubWarning now term_key ecolName edge])
        else (db, stats, warnings)
      let db := stub.1
      let stats := stub.2.1
      let warnings := stub.2.2
      let edge_key := strTake (md5_hexdigest (edgeSig edge to_id)) 32
      let edge := setDefault edge "_key" (.s edge_key)
      match getField edge "_key" with
      | some (.s key) =>
        let ecol := dbGetCol db ecolName
        if colHas ecol key then
          (dbSetCol db ecolName (colUpdate ecol key edge),
            { stats with updated := stats.updated + 1,
                         upserted := stats.upserted + 1 }, warnings)
        else
          (dbSetCol db ecolName (colInsert ecol key edge),
            { stats with inserted := stats.inserted + 1,
                         upserted := stats.upserted + 1 }, warnings)
      | _ =>
        (db, { stats with errors := stats.errors + 1 },
          warnings ++ [edgeFailWarning now ecolName "invalid _key type" edge])
    | _ =>
      -- `to_id.startswith(...)` raises on a non-string `_to`; caught at 678.
      (db, { stats with errors := stats.errors + 1 },
        warnings ++ [edgeFailWarning now ecolName "invalid _to type" edge])

def upsertEdgeList (now ecolName : String) (db : DBState) (stats : EdgeStats)
    (warnings : List Doc) (edocs : List Doc) : DBState × EdgeStats × List Doc :=
  edocs.foldl (upsertEdgeDoc now ecolName) (db, stats, warnings)

/-- One iteration of the `upsert_edges` collection loop: skip an empty
edge list, create the collection when missing, fold the edges with fresh
stats, append the stats row. -/
def upsertEdgesStep (now : String)
    (acc : DBState × List (String × EdgeStats) × List Doc)
    (p : String × List Doc) :
    DBState × List (String × EdgeStats) × List Doc :=
  if p.2.isEmpty then acc
  else
    let db := dbEnsureCol acc.1 p.1
    let r := upsertEdgeList now p.1 db {} acc.2.2 p.2
    (r.1, acc.2.1 ++ [(p.1, r.2.1)], r.2.2)

/-- `upsert_edges` (client.py lines 566-699): ensure `glossary_terms`
exists, then per edge collection skip empty lists, create the collection
when missing, fold the edges. -/
def upsert_edges (now : String) (db : DBState)
    (edges : List (String × List Doc)) (qaw : List Doc) :
    DBState × List (String × EdgeStats) × List Doc :=
  let db := dbEnsureCol db "glossary_terms"
  edges.foldl (upsertEdgesStep now) (db, [], qaw)

/-- One publish (agent_e.py lines 430-439): entity upserts with a fresh
warning list, then edge upserts with a fresh warning list. -/
def publishBundle (now : String) (db : DBState)
    (entities edges : List (String × List Doc)) :
    DBState × List (String × EntityStats) × List (String × EdgeStats) ×
      List Doc × List Doc :=
  let e := upsert_entities now db entities []
  let g := upsert_edges now e.1 edges []
  (g.1, e.2.1, g.2.1, e.2.2, g.2.2)

/-- The stored `_key` of an entity document (meaningful when present and a
string). -/
def keyOf (doc : Doc) : String :=
  match getField doc "_key" with
  | some (.s k) => k
  | _ => ""

/-- The deterministic key an edge without a preexisting `_key` receives. -/
def edgeKeyOf (e : Doc) : String :=
  match getField e "_to" with
  | some (.s t) => strTake (md5_hexdigest (edgeSig e t)) 32
  | _ => ""

mutual

/-- Well-formedness of a stored/incoming document: no duplicate keys and no
`None` values, recursively through nested objects (list elements are
replaced wholesale by a merge, so their contents are unconstrained). -/
def wfDoc : List (String × PV) → Bool
  | [] => true
  | (k, v) :: rest =>
    !((rest.map Prod.fst).contains k) && wfVal v && wfDoc rest

def wfVal : PV → Bool
  | .vnone => false
  | .dict dd => wfDoc dd
  | _ => true

end

/-- The document carries a string `_key` (the only upsert path that does
not raise). -/
def hasStrKey (d : Doc) : Bool :=
  match getField d "_key" with
  | some (.s _) => true
  | _ => false

/-- An edge document that takes the plain (non-glossary, non-error) upsert
path: `_from` present, `_to` a string not targeting `glossary_terms`, and
no preexisting `_key`. -/
def edgeOkNonGloss (e : Doc) : Bool :=
  (getField e "_from").isSome &&
  (match getField e "_to" with
   | some (.s t) => !stringStartsWith "glossary_terms/" t
   | _ => false) &&
  (getField e "_key").isNone

/-- The document actually stored for an edge without a preexisting `_key`:
`created_at` defaulted to the publish time, then the deterministic `_key`. -/
def edgeStored (now : String) (e : Doc) : Doc :=
  let e1 := setDefault e "created_at" (.s now)
  setDefault e1 "_key" (.s (edgeKeyOf e1))

/-- Entity stats after `n` fresh inserts into one collection. -/
def insStats (n : Nat) : EntityStats :=
  { upserted := n, inserted := n, updated := 0, errors := 0 }

/-- Entity stats after `n` merge updates into one collection. -/
def updStats (n : Nat) : EntityStats :=
  { upserted := n, inserted := 0, updated := n, errors := 0 }

/-- Edge stats after `n` fresh inserts into one collection. -/
def insEdgeStats (n : Nat) : EdgeStats :=
  { upserted := n, inserted := n, updated := 0, errors := 0,
    created_glossary_stubs := 0 }

/-- Edge stats after `n` merge updates into one collection. -/
def updEdgeStats (n : Nat) : EdgeStats :=
  { upserted := n, inserted := 0, updated := n, errors := 0,
    created_glossary_stubs := 0 }

/-- Well-formedness of one entity collection payload: distinct string
keys, every enriched document well-formed. -/
abbrev EntPairOk (now : String) (p : String × List Doc) : Prop :=
  (p.2.map keyOf).Nodup ∧
  ∀ d ∈ p.2, hasStrKey d = true ∧ wfDoc (enrichEntity now p.1 d) = true

/-- Well-formedness of one edge collection payload: distinct derived keys,
every edge on the plain path with a well-formed stored form. -/
abbrev EdgePairOk (now : String) (p : String × List Doc) : Prop :=
  (p.2.map edgeKeyOf).Nodup ∧
  ∀ e ∈ p.2, edgeOkNonGloss e = true ∧ wfDoc (edgeStored now e) = true

/-- Well-formedness of a publish bundle: all collection names (entity,
`glossary_terms`, edge) pairwise distinct and every payload well-formed. -/
abbrev BundleOk (now : String)
    (entities edges : List (String × List Doc)) : Prop :=
  (entities.map Prod.fst ++ "glossary_terms" :: edges.map Prod.fst).Nodup ∧
  (∀ p ∈ entities, EntPairOk now p) ∧ (∀ p ∈ edges, EdgePairOk now p)

end Arango

namespace Runner

/-- A concrete environment: B succeeds, the gate exits 2 with a FAIL
report, everything else would succeed. -/
def demoEnv : StepEnv :=
  { stepB := .ok ["outline.yaml"]
    stepC := .ok []
    stepD := .ok []
    gateExit := 2
    gateReport := some [("status", PV.s "FAIL")]
    stepG := .ok []
    stepE := .ok []
    stepF := .ok [] }

end Runner

namespace Arango

/-- Demo publish bundle: one stage entity. -/
def demoPubEnts : List (String × List Doc) :=
  [("stages", [[("_key", PV.s "stage_001"), ("title", PV.s "Start")]])]

/-- Demo publish bundle: one `stage_uses_tool` edge without `_key` or
`created_at`. -/
def demoPubEdges : List (String × List Doc) :=
  [("stage_uses_tool",
    [[("_from", PV.s "stages/stage_001"), ("_to", PV.s "tools/tool_001")]])]

/-- A glossary-targeting edge whose `term_name` is present but empty. -/
def demoGlossEdge : Doc :=
  [("_from", PV.s "methodologies/m1"),
   ("_to", PV.s "glossary_terms/ebitda"), ("term_name", PV.s "")]

end Arango

namespace Compiler

/-- Modelled from the spec: the `slugify` the Compiler imports comes from
the external `python-slugify` package, which is not part of this
repository, so its behaviour is taken from the spec's description —
transliterate Cyrillic to Latin, lowercase, replace each non-alphanumeric
character with the separator, collapse repeated separators.  The table
covers the Russian alphabet in both cases (case folds afterwards). -/
def translitChar (c : Char) : List Char :=
  let table : List (Char × String) :=
    [('а', "a"), ('б', "b"), ('в', "v"), ('г', "g"), ('д', "d"),
     ('е', "e"), ('ё', "e"), ('ж', "zh"), ('з', "z"), ('и', "i"),
     ('й', "j"), ('к', "k"), ('л', "l"), ('м', "m"), ('н', "n"),
     ('о', "o"), ('п', "p"), ('р', "r"), ('с', "s"), ('т', "t"),
     ('у', "u"), ('ф', "f"), ('х', "h"), ('ц', "c"), ('ч', "ch"),
     ('ш', "sh"), ('щ', "shch"), ('ъ', ""), ('ы', "y"), ('ь', ""),
     ('э', "e"), ('ю', "yu"), ('я', "ya"),
     ('А', "a"), ('Б', "b"), ('В', "v"), ('Г', "g"), ('Д', "d"),
     ('Е', "e"), ('Ё', "e"), ('Ж', "zh"), ('З', "z"), ('И', "i"),
     ('Й', "j"), ('К', "k"), ('Л', "l"), ('М', "m"), ('Н', "n"),
     ('О', "o"), ('П', "p"), ('Р', "r"), ('С', "s"), ('Т', "t"),
     ('У', "u"), ('Ф', "f"), ('Х', "h"), ('Ц', "c"), ('Ч', "ch"),
     ('Ш', "sh"), ('Щ', "shch"), ('Ъ', ""), ('Ы', "y"), ('Ь', ""),
     ('Э', "e"), ('Ю', "yu"), ('Я', "ya")]
  match table.lookup c with
  | some s => s.data
  | none => [c]

/-- A character the slug keeps: lowercase ASCII letter or digit. -/
def isSlugChar (c : Char) : Bool :=
  (97 ≤ c.toNat && c.toNat ≤ 122) || (48 ≤ c.toNat && c.toNat ≤ 57)

/-- Collapse runs of the separator to a single occurrence. -/
def collapseSeps : List Char → List Char
  | [] => []
  | [c] => [c]
  | c :: d :: rest =>
    if c = Char.ofNat 95 && d = Char.ofNat 95 then collapseSeps (d :: rest)
    else c :: collapseSeps (d :: rest)

/-- Modelled from the spec: `slugify(text, lowercase=True)` — transliterate
Cyrillic, lowercase, replace non-alphanumeric characters with the
separator, collapse repeated separators. -/
def slugify (text : String) : String :=
  let t1 := text.data.flatMap translitChar
  let t2 := (pyLower ⟨t1⟩).data
  ⟨collapseSeps (t2.map (fun c => if isSlugChar c then c else Char.ofNat 95))⟩

/-- `safe_slug` (compiler.py lines 54-59): empty input and empty slug fall
back to `"item"`; a slug longer than 60 characters is truncated to 60. -/
def safe_slug (text : String) : String :=
  if text = "" then "item"
  else
    let s := slugify text
    let s2 := if s.data.length > 60 then (⟨s.data.take 60⟩ : String) else s
    if s2 = "" then "item" else s2

end Compiler

end KB

open KB

/-! ## Theorems -/

namespace KB

theorem ofDigits_decDigitsAux :
    ∀ fuel n, n ≤ fuel → Nat.ofDigits 10 (decDigitsAux fuel n) = n := by
  intro fuel
  induction fuel with
  | zero => intro n h; interval_cases n; simp [decDigitsAux]
  | succ fuel ih =>
    intro n h
    by_cases h0 : n = 0
    · simp [decDigitsAux, h0]
    · have hdiv : n / 10 ≤ fuel := by
        have : n / 10 < n := Nat.div_lt_self (Nat.pos_of_ne_zero h0) (by norm_num)
        omega
      simp only [decDigitsAux, h0, if_false, Nat.ofDigits_cons, ih _ hdiv]
      omega

theorem decDigitsAux_lt :
    ∀ fuel n d, d ∈ decDigitsAux fuel n → d < 10 := by
  intro fuel
  induction fuel with
  | zero => intro n d h; simp [decDigitsAux] at h
  | succ fuel ih =>
    intro n d h
    by_cases h0 : n = 0
    · simp [decDigitsAux, h0] at h
    · simp only [decDigitsAux, h0, if_false, List.mem_cons] at h
      rcases h with h | h
      · omega
      · exact ih _ _ h

theorem strVal_go (l : List Char) :
    ∀ a, l.foldl (fun a c => 10 * a + (c.toNat - 48)) a =
      a * 10 ^ l.length + strVal l := by
  induction l with
  | nil => intro a; simp [strVal]
  | cons c rest ih =>
    intro a
    have h1 : strVal (c :: rest) = (c.toNat - 48) * 10 ^ rest.length + strVal rest := by
      show List.foldl _ (10 * 0 + (c.toNat - 48)) rest = _
      simpa using ih (10 * 0 + (c.toNat - 48))
    show List.foldl _ (10 * a + (c.toNat - 48)) rest = _
    rw [ih (10 * a + (c.toNat - 48)), h1, List.length_cons]
    ring

theorem strVal_append (l₁ l₂ : List Char) :
    strVal (l₁ ++ l₂) = strVal l₁ * 10 ^ l₂.length + strVal l₂ := by
  simp only [strVal, List.foldl_append]
  exact strVal_go l₂ _

theorem digitChar_val {d : Nat} (hd : d < 10) :
    (Nat.digitChar d).toNat - 48 = d := by
  interval_cases d <;> rfl

theorem strVal_reverse_map (l : List Nat) (h : ∀ d ∈ l, d < 10) :
    strVal (l.reverse.map Nat.digitChar) = Nat.ofDigits 10 l := by
  induction l with
  | nil => simp [strVal]
  | cons d rest ih =>
    have hd : d < 10 := h d (List.mem_cons_self _ _)
    have hrest : ∀ x ∈ rest, x < 10 := fun x hx => h x (List.mem_cons_of_mem _ hx)
    simp only [List.reverse_cons, List.map_append, List.map_cons, List.map_nil,
      strVal_append, ih hrest, Nat.ofDigits_cons, List.length_cons, List.length_nil]
    simp [strVal, digitChar_val hd]
    ring

theorem strVal_decRepr (n : Nat) : strVal (decRepr n).data = n := by
  by_cases h0 : n = 0
  · subst h0; rfl
  · have h1 : Nat.ofDigits 10 (decDigitsAux (n + 1) n) = n :=
      ofDigits_decDigitsAux (n + 1) n (by omega)
    have h2 := strVal_reverse_map (decDigitsAux (n + 1) n)
      (fun d hd => decDigitsAux_lt _ _ _ hd)
    simp only [decRepr, h0, if_false]
    rw [h2, h1]

theorem strVal_replicate_zero_append (k : Nat) (l : List Char) :
    strVal (List.replicate k (Char.ofNat 48) ++ l) = strVal l := by
  induction k with
  | zero => simp
  | succ k ih =>
    simpa [List.replicate_succ, strVal, List.foldl_cons] using ih

theorem strVal_pad3 (n : Nat) : strVal (pad3 n).data = n := by
  show strVal (List.replicate _ (Char.ofNat 48) ++ (decRepr n).data) = n
  rw [strVal_replicate_zero_append, strVal_decRepr]

theorem pad3_injective : Function.Injective pad3 := by
  intro m n h
  have := congrArg (fun s => strVal s.data) h
  simpa [strVal_pad3] using this

end KB

namespace KB.QualityGate

theorem foldl_min_le (xs : List Int) :
    ∀ (x y : Int), y ∈ x :: xs → xs.foldl min x ≤ y := by
  induction xs with
  | nil => intro x y hy; simp at hy; simp [hy]
  | cons z zs ih =>
    intro x y hy
    have hinit : zs.foldl min (min x z) ≤ min x z :=
      ih (min x z) (min x z) (List.mem_cons_self _ _)
    rcases List.mem_cons.mp hy with rfl | hy'
    · exact le_trans hinit (min_le_left _ _)
    · rcases List.mem_cons.mp hy' with rfl | hy''
      · exact le_trans hinit (min_le_right _ _)
      · exact ih (min x z) y (List.mem_cons_of_mem _ hy'')

theorem foldl_min_mem (xs : List Int) :
    ∀ x, xs.foldl min x ∈ x :: xs := by
  induction xs with
  | nil => intro x; simp
  | cons z zs ih =>
    intro x
    have := ih (min x z)
    rcases List.mem_cons.mp this with heq | hmem
    · show zs.foldl min (min x z) ∈ _
      rw [heq]
      rcases min_choice x z with h | h <;> rw [h]
      · exact List.mem_cons_self _ _
      · exact List.mem_cons_of_mem _ (List.mem_cons_self _ _)
    · exact List.mem_cons_of_mem _ (List.mem_cons_of_mem _ hmem)

theorem foldl_max_ge (xs : List Int) :
    ∀ (x y : Int), y ∈ x :: xs → y ≤ xs.foldl max x := by
  induction xs with
  | nil => intro x y hy; simp at hy; simp [hy]
  | cons z zs ih =>
    intro x y hy
    have hinit : max x z ≤ zs.foldl max (max x z) :=
      ih (max x z) (max x z) (List.mem_cons_self _ _)
    rcases List.mem_cons.mp hy with rfl | hy'
    · exact le_trans (le_max_left _ _) hinit
    · rcases List.mem_cons.mp hy' with rfl | hy''
      · exact le_trans (le_max_right _ _) hinit
      · exact ih (max x z) y (List.mem_cons_of_mem _ hy'')

theorem foldl_max_mem (xs : List Int) :
    ∀ x, xs.foldl max x ∈ x :: xs := by
  induction xs with
  | nil => intro x; simp
  | cons z zs ih =>
    intro x
    have := ih (max x z)
    rcases List.mem_cons.mp this with heq | hmem
    · show zs.foldl max (max x z) ∈ _
      rw [heq]
      rcases max_choice x z with h | h <;> rw [h]
      · exact List.mem_cons_self _ _
      · exact List.mem_cons_of_mem _ (List.mem_cons_self _ _)
    · exact List.mem_cons_of_mem _ (List.mem_cons_of_mem _ hmem)

theorem pyMin_le {l : List Int} (h : l ≠ []) : ∀ y ∈ l, pyMin l ≤ y := by
  cases l with
  | nil => cases h rfl
  | cons x xs => exact fun y hy => foldl_min_le xs x y hy

theorem pyMin_mem {l : List Int} (h : l ≠ []) : pyMin l ∈ l := by
  cases l with
  | nil => cases h rfl
  | cons x xs => exact foldl_min_mem xs x

theorem pyMax_ge {l : List Int} (h : l ≠ []) : ∀ y ∈ l, y ≤ pyMax l := by
  cases l with
  | nil => cases h rfl
  | cons x xs => exact fun y hy => foldl_max_ge xs x y hy

theorem pyMax_mem {l : List Int} (h : l ≠ []) : pyMax l ∈ l := by
  cases l with
  | nil => cases h rfl
  | cons x xs => exact foldl_max_mem xs x

theorem length_filterMap_of_all_some {α β : Type} (f : α → Option β) :
    ∀ l : List α, (∀ a ∈ l, (f a).isSome) → (l.filterMap f).length = l.length := by
  intro l
  induction l with
  | nil => intro _; rfl
  | cons a rest ih =>
    intro h
    have ha := h a (List.mem_cons_self _ _)
    rcases hfa : f a with _ | b
    · rw [hfa] at ha; simp at ha
    · simp only [List.filterMap_cons, hfa, List.length_cons]
      rw [ih (fun x hx => h x (List.mem_cons_of_mem _ hx))]

/-- The code-level `ok` condition is equivalent to the spec formulation:
pairwise-distinct orders forming exactly the set `{1..N}`. -/
theorem orderOk_iff (doc : GateDoc) (hne : doc.stages ≠ [])
    (hlen : (stageOrders doc).length = doc.stages.length) :
    orderOk doc ↔
      ((stageOrders doc).Nodup ∧
        (stageOrders doc).toFinset = Finset.Icc (1 : ℤ) (doc.stages.length : ℤ)) := by
  have hn : 0 < doc.stages.length := List.length_pos.mpr hne
  have hlne : stageOrders doc ≠ [] := by
    intro h
    rw [h] at hlen
    simp at hlen
    omega
  constructor
  · rintro ⟨hcard, hmin, hmax⟩
    have hdl : (stageOrders doc).dedup.length = (stageOrders doc).length := by
      rw [← List.card_toFinset, hcard, hlen]
    have hded : (stageOrders doc).dedup = stageOrders doc :=
      (List.dedup_sublist _).eq_of_length hdl
    have hnodup : (stageOrders doc).Nodup := hded ▸ List.nodup_dedup _
    refine ⟨hnodup, Finset.eq_of_subset_of_card_le ?_ ?_⟩
    · intro x hx
      rw [List.mem_toFinset] at hx
      rw [Finset.mem_Icc]
      exact ⟨hmin ▸ pyMin_le hlne x hx, hmax ▸ pyMax_ge hlne x hx⟩
    · rw [hcard, Int.card_Icc]
      omega
  · rintro ⟨hnodup, hset⟩
    have hcard : (stageOrders doc).toFinset.card = doc.stages.length := by
      rw [hset, Int.card_Icc]
      omega
    have h1mem : (1 : ℤ) ∈ stageOrders doc := by
      rw [← List.mem_toFinset, hset, Finset.mem_Icc]
      constructor <;> omega
    have hnmem : ((doc.stages.length : ℤ)) ∈ stageOrders doc := by
      rw [← List.mem_toFinset, hset, Finset.mem_Icc]
      constructor <;> omega
    have hminmem := pyMin_mem hlne
    rw [← List.mem_toFinset, hset, Finset.mem_Icc] at hminmem
    have hmaxmem := pyMax_mem hlne
    rw [← List.mem_toFinset, hset, Finset.mem_Icc] at hmaxmem
    exact ⟨hcard, le_antisymm (pyMin_le hlne 1 h1mem) hminmem.1,
      le_antisymm hmaxmem.2 (pyMax_ge hlne _ hnmem)⟩

/-- Membership of a code in a one-error conditional list. -/
theorem mem_code_ite {cnd : Prop} [Decidable cnd] (code msg c : String) :
    (c ∈ (if cnd then ([⟨code, msg⟩] : List GateError) else []).map GateError.code)
      ↔ (cnd ∧ c = code) := by
  split_ifs with h <;> simp [h]

/-- With all orders integral, the range error is present iff the `ok`
condition fails (no other check emits this code). -/
theorem hasRange_iff (doc : GateDoc) (hn : doc.stages.length > 0)
    (hbad : badOrder doc = false) :
    hasErrorCode (run_gate doc) "BQG_STAGE_ORDER_RANGE" ↔ ¬ orderOk doc := by
  by_cases hok : orderOk doc
  · have h3 : stageOrderErrs doc = [] := by
      unfold stageOrderErrs
      rw [if_pos hn, if_neg (by simp [hbad]), if_neg (by simpa using hok)]
    simp [hasErrorCode, run_gate, gateErrors, h3, stageCountErrs, stageDescErrs,
      indDescErrs, severityErrs, dupErrs, mem_code_ite, hok]
    refine ⟨?_, ?_, ?_, ?_⟩ <;> (rintro x - - rfl; simp)
  · have h3 : stageOrderErrs doc =
        [⟨"BQG_STAGE_ORDER_RANGE",
          "stage.order must be unique and cover 1..N without gaps"⟩] := by
      unfold stageOrderErrs
      rw [if_pos hn, if_neg (by simp [hbad]), if_pos hok]
    simp [hasErrorCode, run_gate, gateErrors, h3, stageCountErrs, stageDescErrs,
      indDescErrs, severityErrs, dupErrs, mem_code_ite, hok]

end KB.QualityGate

namespace KB.Compiler

theorem compileSeq_mem {α β : Type} (mk : Nat → α → β) :
    ∀ (k : Nat) (raw : List (Raw α)) (c : β), c ∈ compileSeq mk k raw →
      ∃ i a, ∃ h : i < raw.length, raw.get ⟨i, h⟩ = .dict a ∧ c = mk (k + i) a := by
  intro k raw
  induction raw generalizing k with
  | nil => intro c hc; simp [compileSeq] at hc
  | cons x rest ih =>
    intro c hc
    cases x with
    | nondict =>
      obtain ⟨i, a, h, hget, hc'⟩ := ih (k + 1) c hc
      exact ⟨i + 1, a, by simpa using Nat.succ_lt_succ h,
        by simpa using hget, by rw [hc']; congr 1; omega⟩
    | dict a0 =>
      rcases List.mem_cons.mp hc with hc' | hc'
      · exact ⟨0, a0, by simp, rfl, by simpa using hc'⟩
      · obtain ⟨i, a, h, hget, hc''⟩ := ih (k + 1) c hc'
        exact ⟨i + 1, a, by simpa using Nat.succ_lt_succ h,
          by simpa using hget, by rw [hc'']; congr 1; omega⟩

theorem string_append_cancel_left {a b c : String} (h : a ++ b = a ++ c) :
    b = c := by
  have hd := congrArg String.data h
  simp only [String.data_append] at hd
  cases b; cases c
  exact congrArg String.mk (List.append_cancel_left hd)

theorem compileSeq_id_pairwise {α β : Type} (mk : Nat → α → β)
    (idOf : β → String) (pre : String)
    (hmk : ∀ idx a, idOf (mk idx a) = pre ++ pad3 idx) :
    ∀ (k : Nat) (raw : List (Raw α)),
      ((compileSeq mk k raw).map idOf).Pairwise (· ≠ ·) := by
  have hinj : ∀ i j (a b : α), i ≠ j → idOf (mk i a) ≠ idOf (mk j b) := by
    intro i j a b hij heq
    rw [hmk, hmk] at heq
    exact hij (pad3_injective (string_append_cancel_left heq))
  intro k raw
  induction raw generalizing k with
  | nil => simp [compileSeq]
  | cons x rest ih =>
    cases x with
    | nondict => simpa [compileSeq] using ih (k + 1)
    | dict a0 =>
      simp only [compileSeq, List.map_cons, List.pairwise_cons]
      refine ⟨?_, ih (k + 1)⟩
      intro y hy heq
      obtain ⟨c, hc, rfl⟩ := List.mem_map.mp hy
      obtain ⟨i, a, h, _, rfl⟩ := compileSeq_mem mk (k + 1) rest c hc
      exact hinj k (k + 1 + i) a0 a (by omega) heq

theorem compileSeq_replicate {α β : Type} (mk : Nat → α → β) (a : α) :
    ∀ (m k : Nat), compileSeq mk k (List.replicate m (.dict a)) =
      (List.range m).map (fun j => mk (k + j) a) := by
  intro m
  induction m with
  | zero => intro k; simp [compileSeq]
  | succ m ih =>
    intro k
    rw [List.replicate_succ, List.range_succ_eq_map]
    simp only [compileSeq, ih (k + 1), List.map_cons, List.map_map]
    refine congrArg₂ List.cons (by norm_num) ?_
    refine List.map_congr_left (fun j _ => ?_)
    simp only [Function.comp_apply]
    congr 1
    omega

theorem digitChar_isDigit {d : Nat} (hd : d < 10) :
    (Nat.digitChar d).isDigit = true := by
  interval_cases d <;> rfl

theorem decRepr_all_digit (n : Nat) :
    ∀ c ∈ (decRepr n).data, c.isDigit = true := by
  by_cases h0 : n = 0
  · subst h0; intro c hc; simp [decRepr] at hc; subst hc; rfl
  · intro c hc
    simp only [decRepr, h0, if_false, List.mem_map, List.mem_reverse] at hc
    obtain ⟨d, hd, rfl⟩ := hc
    exact digitChar_isDigit (decDigitsAux_lt _ _ _ hd)

theorem decDigitsAux_length :
    ∀ fuel n k, n < 10 ^ k → (decDigitsAux fuel n).length ≤ k := by
  intro fuel
  induction fuel with
  | zero => intro n k _; simp [decDigitsAux]
  | succ fuel ih =>
    intro n k hk
    by_cases h0 : n = 0
    · simp [decDigitsAux, h0]
    · have hkpos : 0 < k := by
        rcases Nat.eq_zero_or_pos k with hk0 | hk0
        · subst hk0; simp at hk; omega
        · exact hk0
      have hdiv : n / 10 < 10 ^ (k - 1) := by
        have h10 : (10 : Nat) ^ k = 10 ^ (k - 1) * 10 := by
          rw [← pow_succ]
          congr 1
          omega
        rw [Nat.div_lt_iff_lt_mul (by norm_num)]
        omega
      simp only [decDigitsAux, h0, if_false, List.length_cons]
      have := ih (n / 10) (k - 1) hdiv
      omega

theorem decRepr_length_le {n : Nat} (h : n ≤ 999) : (decRepr n).length ≤ 3 := by
  by_cases h0 : n = 0
  · subst h0; decide
  · simp only [decRepr, h0, if_false, String.length, List.length_map,
      List.length_reverse]
    exact decDigitsAux_length (n + 1) n 3 (by omega)

theorem pad3_data (n : Nat) : (pad3 n).data =
    List.replicate (3 - (decRepr n).length) (Char.ofNat 48) ++ (decRepr n).data :=
  rfl

theorem pad3_all_digit (n : Nat) : ∀ c ∈ (pad3 n).data, c.isDigit = true := by
  rw [pad3_data]
  intro c hc
  rcases List.mem_append.mp hc with hc' | hc'
  · rw [List.eq_of_mem_replicate hc']; rfl
  · exact decRepr_all_digit n c hc'

theorem pad3_length {n : Nat} (h : n ≤ 999) : (pad3 n).data.length = 3 := by
  rw [pad3_data, List.length_append, List.length_replicate]
  have h3 := decRepr_length_le h
  have : (decRepr n).length = (decRepr n).data.length := rfl
  omega

theorem pad3_matchesKindId (pre : String) {n : Nat} (h : n ≤ 999) :
    matchesKindId pre (pre ++ pad3 n) = true := by
  have hdata : (pre ++ pad3 n).data = pre.data ++ (pad3 n).data := by
    cases pre; cases pad3 n; rfl
  have hlen : pre.length = pre.data.length := rfl
  simp only [matchesKindId, hdata, hlen, Bool.and_eq_true, beq_iff_eq,
    List.all_eq_true, List.take_left, List.drop_left]
  exact ⟨⟨trivial, pad3_length h⟩, fun c hc => pad3_all_digit n c hc⟩

theorem compileSeq_stableIdSpec {α β : Type} (mk : Nat → α → β)
    (idOf : β → String) (pre : String)
    (hmk : ∀ idx a, idOf (mk idx a) = pre ++ pad3 idx) :
    stableIdSpec (compileSeq mk 1) idOf pre := by
  intro raw
  refine ⟨?_, compileSeq_id_pairwise mk idOf pre hmk 1 raw, ?_⟩
  · intro c hc
    obtain ⟨i, a, h, hget, rfl⟩ := compileSeq_mem mk 1 raw c hc
    refine ⟨i, a, h, hget, ?_⟩
    rw [hmk]
    congr 2
    omega
  · intro hlen c hc
    obtain ⟨i, a, h, hget, rfl⟩ := compileSeq_mem mk 1 raw c hc
    rw [hmk]
    exact pad3_matchesKindId pre (by omega)

end KB.Compiler

namespace KB.Reviewer

theorem string_data_append (a b : String) : (a ++ b).data = a.data ++ b.data := by
  cases a; cases b; rfl

theorem formulasLoop_mem (inds : List (Compiler.Raw RevInd)) :
    ∀ (k : Nat) (iss : Issue), iss ∈ (formulasLoop k inds).1 ↔
      ∃ i, ∃ h : i < inds.length,
        (checkFormulaItem (k + i) (inds.get ⟨i, h⟩)).1 = some iss := by
  induction inds with
  | nil => intro k iss; simp [formulasLoop]
  | cons x rest ih =>
    intro k iss
    show iss ∈ (checkFormulaItem k x).1.toList ++ (formulasLoop (k + 1) rest).1 ↔ _
    rw [List.mem_append]
    constructor
    · rintro (hl | hr)
      · refine ⟨0, by simp, ?_⟩
        simp only [List.get]
        rcases hcx : (checkFormulaItem k x).1 with _ | v
        · rw [hcx] at hl; simp at hl
        · rw [hcx] at hl
          simp at hl
          subst hl
          simpa using hcx
      · obtain ⟨i, h, heq⟩ := (ih (k + 1) iss).mp hr
        refine ⟨i + 1, by simpa using Nat.succ_lt_succ h, ?_⟩
        simp only [List.get]
        rw [show k + (i + 1) = k + 1 + i by omega]
        exact heq
    · rintro ⟨i, h, heq⟩
      cases i with
      | zero =>
        left
        simp only [List.get] at heq
        rw [show k + 0 = k by omega] at heq
        rw [heq]
        simp
      | succ i' =>
        right
        refine (ih (k + 1) iss).mpr ⟨i', by simp at h; omega, ?_⟩
        simp only [List.get] at heq
        rw [show k + (i' + 1) = k + 1 + i' by omega] at heq
        exact heq

theorem checkFormulaItem_cases (idx : Nat) (item : Compiler.Raw RevInd)
    (iss : Issue) (h : (checkFormulaItem idx item).1 = some iss) :
    ∃ ind, item = .dict ind ∧
      (iss.id = "FORM-" ++ pad3 (idx + 1) ∨
       iss.id = "FORM-PAREN-" ++ pad3 (idx + 1) ∨
       (iss.id = "FORM-EQ-" ++ pad3 (idx + 1) ∧ iss.severity = "MINOR" ∧
        hasRatioKeyword (indFormula ind) = true ∧
        (indFormula ind).data.contains '=' = false)) := by
  cases item with
  | nondict => simp [checkFormulaItem] at h
  | dict ind =>
    refine ⟨ind, rfl, ?_⟩
    unfold checkFormulaItem at h
    dsimp only at h
    split_ifs at h with h1 h2 h3 h4 <;> dsimp only at h <;>
      first
        | exact Option.noConfusion h
        | (replace h := Option.some_inj.mp h; subst h;
           first
             | exact Or.inl rfl
             | exact Or.inr (Or.inl rfl)
             | exact Or.inr (Or.inr ⟨rfl, rfl, h4.1, by simpa using h4.2⟩))

theorem formEq_id_ne_form_id (i j : Nat) :
    "FORM-EQ-" ++ pad3 i ≠ "FORM-" ++ pad3 j := by
  intro h
  have hd := congrArg String.data h
  rw [string_data_append, string_data_append] at hd
  rw [show ("FORM-EQ-" : String).data =
      ['F', 'O', 'R', 'M', '-', 'E', 'Q', '-'] from rfl,
    show ("FORM-" : String).data = ['F', 'O', 'R', 'M', '-'] from rfl] at hd
  simp only [List.cons_append, List.nil_append, List.cons.injEq, true_and] at hd
  have hE : 'E' ∈ (pad3 j).data := by
    rw [← hd]
    exact List.mem_cons_self _ _
  have := Compiler.pad3_all_digit j 'E' hE
  simp at this

theorem formEq_id_ne_paren_id (i j : Nat) :
    "FORM-EQ-" ++ pad3 i ≠ "FORM-PAREN-" ++ pad3 j := by
  intro h
  have hd := congrArg String.data h
  rw [string_data_append, string_data_append] at hd
  rw [show ("FORM-EQ-" : String).data =
      ['F', 'O', 'R', 'M', '-', 'E', 'Q', '-'] from rfl,
    show ("FORM-PAREN-" : String).data =
      ['F', 'O', 'R', 'M', '-', 'P', 'A', 'R', 'E', 'N', '-'] from rfl] at hd
  simp at hd

end KB.Reviewer

namespace KB.Arango

theorem getField_setField_same : ∀ (d : Doc) (k : String) (v : PV),
    getField (setField d k v) k = some v
  | [], k, v => by simp [setField, getField, List.lookup]
  | (k1, v1) :: rest, k, v => by
    by_cases hk : k1 = k
    · subst hk; simp [setField, getField, List.lookup]
    · simp only [setField, if_neg hk, getField, List.lookup,
        beq_false_of_ne (Ne.symm hk)]
      exact getField_setField_same rest k v

theorem getField_setField_other : ∀ (d : Doc) (k k2 : String) (v : PV),
    k2 ≠ k → getField (setField d k v) k2 = getField d k2
  | [], k, k2, v, h => by
    simp [setField, getField, List.lookup, beq_false_of_ne h]
  | (k1, v1) :: rest, k, k2, v, h => by
    by_cases hk : k1 = k
    · subst hk
      simp [setField, getField, List.lookup, beq_false_of_ne h]
    · simp only [setField, if_neg hk, getField, List.lookup]
      cases hb : k2 == k1
      · exact getField_setField_other rest k k2 v h
      · rfl

theorem getField_removeField_other : ∀ (d : Doc) (k k2 : String),
    k2 ≠ k → getField (removeField d k) k2 = getField d k2
  | [], _, _, _ => rfl
  | (k1, v1) :: rest, k, k2, h => by
    by_cases hk : k1 = k
    · subst hk
      simp [removeField, getField, List.lookup, beq_false_of_ne h]
    · simp only [removeField, if_neg hk, getField, List.lookup]
      cases hb : k2 == k1
      · exact getField_removeField_other rest k k2 h
      · rfl

theorem lookup_append_none {β : Type} :
    ∀ (l1 l2 : List (String × β)) (k : String),
    List.lookup k l1 = none → List.lookup k (l1 ++ l2) = List.lookup k l2
  | [], _, _, _ => rfl
  | (k1, v1) :: rest, l2, k, h => by
    simp only [List.lookup, List.cons_append] at h ⊢
    cases hb : k == k1
    · rw [hb] at h; exact lookup_append_none rest l2 k h
    · rw [hb] at h; exact absurd h (by simp)

theorem lookup_append_some {β : Type} :
    ∀ (l1 l2 : List (String × β)) (k : String) (v : β),
    List.lookup k l1 = some v → List.lookup k (l1 ++ l2) = some v
  | [], _, _, _, h => by cases h
  | (k1, v1) :: rest, l2, k, v, h => by
    simp only [List.lookup, List.cons_append] at h ⊢
    cases hb : k == k1
    · rw [hb] at h; exact lookup_append_some rest l2 k v h
    · rw [hb] at h; exact h

theorem getField_setDefault_same (d : Doc) (k : String) (v : PV) :
    getField (setDefault d k v) k = some ((getField d k).getD v) := by
  unfold setDefault
  cases h : getField d k with
  | some w => simp [h]
  | none =>
    simp only [Option.getD_none]
    have := lookup_append_none d [(k, v)] k h
    simp only [getField] at h ⊢
    rw [this]
    simp [List.lookup]

theorem getField_setDefault_other (d : Doc) (k k2 : String) (v : PV)
    (h : k2 ≠ k) : getField (setDefault d k v) k2 = getField d k2 := by
  unfold setDefault
  cases hl : getField d k with
  | some w => rfl
  | none =>
    cases hl2 : getField d k2 with
    | some w =>
      exact lookup_append_some d [(k, v)] k2 w hl2
    | none =>
      have := lookup_append_none d [(k, v)] k2 hl2
      simp only [getField] at this ⊢
      rw [this]
      simp [List.lookup, beq_false_of_ne h]

theorem setField_id : ∀ (d : Doc) (k : String) (v : PV),
    getField d k = some v → setField d k v = d
  | [], _, _, h => by cases h
  | (k1, v1) :: rest, k, v, h => by
    by_cases hk : k1 = k
    · subst hk
      simp only [getField, List.lookup, beq_self_eq_true] at h
      simp only [setField, if_pos rfl]
      exact congrArg (· :: rest) (congrArg _ (Option.some_inj.mp h).symm)
    · simp only [getField, List.lookup, beq_false_of_ne (Ne.symm hk)] at h
      simp only [setField, if_neg hk]
      rw [setField_id rest k v h]

theorem wfDoc_cons {k : String} {v : PV} {rest : Doc}
    (h : wfDoc ((k, v) :: rest) = true) :
    k ∉ rest.map Prod.fst ∧ wfVal v = true ∧ wfDoc rest = true := by
  simp only [wfDoc, Bool.and_eq_true, Bool.not_eq_true'] at h
  exact ⟨by simpa using h.1.1, h.1.2, h.2⟩

theorem wfDoc_lookup_mem : ∀ (d : Doc) (k : String) (v : PV),
    wfDoc d = true → (k, v) ∈ d → getField d k = some v
  | [], _, _, _, hm => absurd hm (List.not_mem_nil _)
  | (k1, v1) :: rest, k, v, hwf, hm => by
    obtain ⟨hk1, _, hrest⟩ := wfDoc_cons hwf
    rcases List.mem_cons.mp hm with h | h
    · obtain ⟨rfl, rfl⟩ := Prod.mk.injEq .. ▸ h
      simp [getField, List.lookup]
    · have hk : k ≠ k1 := by
        rintro rfl
        exact hk1 (List.mem_map.mpr ⟨(k, v), h, rfl⟩)
      simp only [getField, List.lookup, beq_false_of_ne hk]
      exact wfDoc_lookup_mem rest k v hrest h

theorem getField_mergeEntry_other (old : Doc) (k k2 : String) (v : PV)
    (h : k2 ≠ k) : getField (mergeEntry old k v) k2 = getField old k2 := by
  unfold mergeEntry
  cases v with
  | vnone => exact getField_removeField_other old k k2 h
  | dict dv =>
    cases hl : List.lookup k old with
    | some w =>
      cases w <;>
        simp only [] <;> exact getField_setField_other old k k2 _ h
    | none => exact getField_setField_other old k k2 _ h
  | s t => exact getField_setField_other old k k2 _ h
  | i n => exact getField_setField_other old k k2 _ h
  | b x => exact getField_setField_other old k k2 _ h
  | q x => exact getField_setField_other old k k2 _ h
  | lst l => exact getField_setField_other old k k2 _ h

theorem getField_mergeDicts_not_mem : ∀ (new old : Doc) (k : String),
    k ∉ new.map Prod.fst → getField (mergeDicts old new) k = getField old k
  | [], _, _, _ => rfl
  | (k1, v1) :: rest, old, k, h => by
    simp only [List.map_cons, List.mem_cons, not_or] at h
    show getField (mergeDicts (mergeEntry old k1 v1) rest) k = _
    rw [getField_mergeDicts_not_mem rest _ k h.2,
        getField_mergeEntry_other old k1 k v1 h.1]

theorem getField_mergeDicts_mem_s : ∀ (new old : Doc) (k str : String),
    (new.map Prod.fst).Nodup → (k, PV.s str) ∈ new →
    getField (mergeDicts old new) k = some (PV.s str)
  | [], _, _, _, _, hm => absurd hm (List.not_mem_nil _)
  | (k1, v1) :: rest, old, k, str, hnd, hm => by
    have hnd2 : k1 ∉ rest.map Prod.fst ∧ (rest.map Prod.fst).Nodup := by
      simp only [List.map_cons, List.nodup_cons] at hnd
      exact hnd
    rcases List.mem_cons.mp hm with h | h
    · obtain ⟨rfl, rfl⟩ := Prod.mk.injEq .. ▸ h
      show getField (mergeDicts (mergeEntry old k (PV.s str)) rest) k = _
      rw [getField_mergeDicts_not_mem rest _ k hnd2.1]
      exact getField_setField_same old k (PV.s str)
    · exact getField_mergeDicts_mem_s rest (mergeEntry old k1 v1) k str
        hnd2.2 h

/-- Merging a document into a state that already holds every one of its
fields (with well-formed values) is the identity. -/
theorem mergeDicts_id_of_sub : ∀ (new old : Doc), wfDoc new = true →
    (∀ k v, (k, v) ∈ new → getField old k = some v) → mergeDicts old new = old
  | [], _, _, _ => rfl
  | (k1, PV.vnone) :: _, _, hwf, _ => by
    obtain ⟨_, hv1, _⟩ := wfDoc_cons hwf
    exact absurd hv1 (by simp [wfVal])
  | (k1, PV.dict dv) :: rest, old, hwf, hsub => by
    obtain ⟨_, hv1, hrest⟩ := wfDoc_cons hwf
    have hl : getField old k1 = some (PV.dict dv) :=
      hsub k1 _ (List.mem_cons_self _ _)
    have hdv : wfDoc dv = true := hv1
    have hself : mergeDicts dv dv = dv :=
      mergeDicts_id_of_sub dv dv hdv
        (fun k v hm => wfDoc_lookup_mem dv k v hdv hm)
    have hme : mergeEntry old k1 (PV.dict dv) = old := by
      unfold mergeEntry
      simp only [getField] at hl
      rw [hl]
      show setField old k1 (PV.dict (mergeDicts dv dv)) = old
      rw [hself]
      exact setField_id old k1 (PV.dict dv) hl
    show mergeDicts (mergeEntry old k1 (PV.dict dv)) rest = old
    rw [hme]
    exact mergeDicts_id_of_sub rest old hrest
      (fun k v hm => hsub k v (List.mem_cons_of_mem _ hm))
  | (k1, PV.s t) :: rest, old, hwf, hsub => by
    obtain ⟨_, _, hrest⟩ := wfDoc_cons hwf
    have hl := hsub k1 (PV.s t) (List.mem_cons_self _ _)
    show mergeDicts (setField old k1 (PV.s t)) rest = old
    rw [setField_id old k1 _ hl]
    exact mergeDicts_id_of_sub rest old hrest
      (fun k v hm => hsub k v (List.mem_cons_of_mem _ hm))
  | (k1, PV.i n) :: rest, old, hwf, hsub => by
    obtain ⟨_, _, hrest⟩ := wfDoc_cons hwf
    have hl := hsub k1 (PV.i n) (List.mem_cons_self _ _)
    show mergeDicts (setField old k1 (PV.i n)) rest = old
    rw [setField_id old k1 _ hl]
    exact mergeDicts_id_of_sub rest old hrest
      (fun k v hm => hsub k v (List.mem_cons_of_mem _ hm))
  | (k1, PV.b x) :: rest, old, hwf, hsub => by
    obtain ⟨_, _, hrest⟩ := wfDoc_cons hwf
    have hl := hsub k1 (PV.b x) (List.mem_cons_self _ _)
    show mergeDicts (setField old k1 (PV.b x)) rest = old
    rw [setField_id old k1 _ hl]
    exact mergeDicts_id_of_sub rest old hrest
      (fun k v hm => hsub k v (List.mem_cons_of_mem _ hm))
  | (k1, PV.q x) :: rest, old, hwf, hsub => by
    obtain ⟨_, _, hrest⟩ := wfDoc_cons hwf
    have hl := hsub k1 (PV.q x) (List.mem_cons_self _ _)
    show mergeDicts (setField old k1 (PV.q x)) rest = old
    rw [setField_id old k1 _ hl]
    exact mergeDicts_id_of_sub rest old hrest
      (fun k v hm => hsub k v (List.mem_cons_of_mem _ hm))
  | (k1, PV.lst l) :: rest, old, hwf, hsub => by
    obtain ⟨_, _, hrest⟩ := wfDoc_cons hwf
    have hl := hsub k1 (PV.lst l) (List.mem_cons_self _ _)
    show mergeDicts (setField old k1 (PV.lst l)) rest = old
    rw [setField_id old k1 _ hl]
    exact mergeDicts_id_of_sub rest old hrest
      (fun k v hm => hsub k v (List.mem_cons_of_mem _ hm))
termination_by new _ _ _ => sizeOf new
decreasing_by
  all_goals simp_wf
  all_goals omega

/-- Re-merging a well-formed document into itself changes nothing. -/
theorem mergeDicts_self (d : Doc) (h : wfDoc d = true) : mergeDicts d d = d :=
  mergeDicts_id_of_sub d d h (fun k v hm => wfDoc_lookup_mem d k v h hm)

theorem lookup_isSome_iff_mem {β : Type} :
    ∀ (l : List (String × β)) (k : String),
    (List.lookup k l).isSome = true ↔ k ∈ l.map Prod.fst
  | [], k => by simp [List.lookup]
  | (k1, v1) :: rest, k => by
    by_cases hk : k = k1
    · subst hk; simp [List.lookup]
    · simp only [List.lookup, beq_false_of_ne hk, List.map_cons,
        List.mem_cons]
      rw [lookup_isSome_iff_mem rest k]
      simp [hk]

theorem colGet_colSet_same : ∀ (c : Collection) (k : String) (d : Doc),
    colGet (colSet c k d) k = some d
  | [], k, d => by simp [colSet, colGet, List.lookup]
  | (k1, d1) :: rest, k, d => by
    by_cases hk : k1 = k
    · subst hk; simp [colSet, colGet, List.lookup]
    · simp only [colSet, if_neg hk, colGet, List.lookup,
        beq_false_of_ne (Ne.symm hk)]
      exact colGet_colSet_same rest k d

theorem colGet_colSet_other : ∀ (c : Collection) (k k2 : String) (d : Doc),
    k2 ≠ k → colGet (colSet c k d) k2 = colGet c k2
  | [], k, k2, d, h => by
    simp [colSet, colGet, List.lookup, beq_false_of_ne h]
  | (k1, d1) :: rest, k, k2, d, h => by
    by_cases hk : k1 = k
    · subst hk
      simp [colSet, colGet, List.lookup, beq_false_of_ne h]
    · simp only [colSet, if_neg hk, colGet, List.lookup]
      cases hb : k2 == k1
      · exact colGet_colSet_other rest k k2 d h
      · rfl

theorem colSet_id : ∀ (c : Collection) (k : String) (d : Doc),
    colGet c k = some d → colSet c k d = c
  | [], _, _, h => by cases h
  | (k1, d1) :: rest, k, d, h => by
    by_cases hk : k1 = k
    · subst hk
      simp only [colGet, List.lookup, beq_self_eq_true] at h
      simp only [colSet, if_pos rfl]
      exact congrArg (· :: rest) (congrArg _ (Option.some_inj.mp h).symm)
    · simp only [colGet, List.lookup, beq_false_of_ne (Ne.symm hk)] at h
      simp only [colSet, if_neg hk]
      rw [colSet_id rest k d h]

theorem colGet_colInsert_self (c : Collection) (k : String) (d : Doc)
    (h : colHas c k = false) : colGet (colInsert c k d) k = some d := by
  unfold colInsert colGet
  have hn : List.lookup k c = none := by
    unfold colHas at h
    cases hl : List.lookup k c with
    | none => rfl
    | some x => rw [hl] at h; cases h
  rw [lookup_append_none c [(k, d)] k hn]
  simp [List.lookup]

theorem colGet_colInsert_of_get (c : Collection) (k k2 : String)
    (d d2 : Doc) (h : colGet c k2 = some d2) :
    colGet (colInsert c k d) k2 = some d2 :=
  lookup_append_some c [(k, d)] k2 d2 h

theorem colGet_colUpdate_of_get (c : Collection) (k : String) (d old : Doc)
    (h : colGet c k = some old) :
    colGet (colUpdate c k d) k = some (mergeDicts old d) := by
  unfold colUpdate
  rw [h]
  exact colGet_colSet_same c k _

theorem colUpdate_id (c : Collection) (k : String) (d old : Doc)
    (h : colGet c k = some old) (hm : mergeDicts old d = old) :
    colUpdate c k d = c := by
  unfold colUpdate
  rw [h]
  show colSet c k (mergeDicts old d) = c
  rw [hm]
  exact colSet_id c k old h

theorem dbGetCol_dbSetCol_same : ∀ (db : DBState) (n : String)
    (c : Collection), dbGetCol (dbSetCol db n c) n = c
  | [], n, c => by simp [dbSetCol, dbGetCol, List.lookup]
  | (n1, c1) :: rest, n, c => by
    by_cases hn : n1 = n
    · subst hn; simp [dbSetCol, dbGetCol, List.lookup]
    · simp only [dbSetCol, if_neg hn, dbGetCol, List.lookup,
        beq_false_of_ne (Ne.symm hn)]
      exact dbGetCol_dbSetCol_same rest n c

theorem dbGetCol_dbSetCol_other : ∀ (db : DBState) (n n2 : String)
    (c : Collection), n2 ≠ n → dbGetCol (dbSetCol db n c) n2 = dbGetCol db n2
  | [], n, n2, c, h => by
    simp [dbSetCol, dbGetCol, List.lookup, beq_false_of_ne h]
  | (n1, c1) :: rest, n, n2, c, h => by
    by_cases hn : n1 = n
    · subst hn
      simp [dbSetCol, dbGetCol, List.lookup, beq_false_of_ne h]
    · simp only [dbSetCol, if_neg hn, dbGetCol, List.lookup]
      cases hb : n2 == n1
      · exact dbGetCol_dbSetCol_other rest n n2 c h
      · rfl

theorem dbHasCol_dbSetCol_same : ∀ (db : DBState) (n : String)
    (c : Collection), dbHasCol (dbSetCol db n c) n = true
  | [], n, c => by simp [dbSetCol, dbHasCol, List.lookup]
  | (n1, c1) :: rest, n, c => by
    by_cases hn : n1 = n
    · subst hn; simp [dbSetCol, dbHasCol, List.lookup]
    · simp only [dbSetCol, if_neg hn, dbHasCol, List.lookup,
        beq_false_of_ne (Ne.symm hn)]
      exact dbHasCol_dbSetCol_same rest n c

theorem dbHasCol_dbSetCol_other : ∀ (db : DBState) (n n2 : String)
    (c : Collection), n2 ≠ n → dbHasCol (dbSetCol db n c) n2 = dbHasCol db n2
  | [], n, n2, c, h => by
    simp [dbSetCol, dbHasCol, List.lookup, beq_false_of_ne h]
  | (n1, c1) :: rest, n, n2, c, h => by
    by_cases hn : n1 = n
    · subst hn
      simp [dbSetCol, dbHasCol, List.lookup, beq_false_of_ne h]
    · simp only [dbSetCol, if_neg hn, dbHasCol, List.lookup]
      cases hb : n2 == n1
      · exact dbHasCol_dbSetCol_other rest n n2 c h
      · rfl

theorem dbSetCol_id : ∀ (db : DBState) (n : String) (c : Collection),
    List.lookup n db = some c → dbSetCol db n c = db
  | [], _, _, h => by cases h
  | (n1, c1) :: rest, n, c, h => by
    by_cases hn : n1 = n
    · subst hn
      simp only [List.lookup, beq_self_eq_true] at h
      simp only [dbSetCol, if_pos rfl]
      exact congrArg (· :: rest) (congrArg _ (Option.some_inj.mp h).symm)
    · simp only [List.lookup, beq_false_of_ne (Ne.symm hn)] at h
      simp only [dbSetCol, if_neg hn]
      rw [dbSetCol_id rest n c h]

theorem dbEnsureCol_of_has (db : DBState) (n : String)
    (h : dbHasCol db n = true) : dbEnsureCol db n = db := by
  unfold dbEnsureCol
  rw [h]
  rfl

theorem dbGetCol_dbEnsureCol (db : DBState) (m n : String) :
    dbGetCol (dbEnsureCol db m) n = dbGetCol db n := by
  unfold dbEnsureCol
  split_ifs with h
  · rfl
  · unfold dbGetCol
    cases hl : List.lookup n db with
    | some c => rw [lookup_append_some db [(m, [])] n c hl]
    | none =>
      rw [lookup_append_none db [(m, [])] n hl]
      simp only [List.lookup]
      cases n == m <;> rfl

theorem dbHasCol_dbEnsureCol_self (db : DBState) (n : String) :
    dbHasCol (dbEnsureCol db n) n = true := by
  unfold dbEnsureCol
  split_ifs with h
  · exact h
  · have hn : List.lookup n db = none := by
      unfold dbHasCol at h
      cases hl : List.lookup n db with
      | none => rfl
      | some x => rw [hl] at h; simp at h
    unfold dbHasCol
    rw [lookup_append_none db [(n, [])] n hn]
    simp [List.lookup]

theorem dbHasCol_dbEnsureCol_other (db : DBState) (m n : String)
    (h : n ≠ m) : dbHasCol (dbEnsureCol db m) n = dbHasCol db n := by
  unfold dbEnsureCol
  split_ifs with h2
  · rfl
  · unfold dbHasCol
    cases hl : List.lookup n db with
    | some c => rw [lookup_append_some db [(m, [])] n c hl]
    | none =>
      rw [lookup_append_none db [(m, [])] n hl]
      simp [List.lookup, beq_false_of_ne h]

theorem dbHasCol_dbEnsureCol_mono (db : DBState) (m n : String)
    (h : dbHasCol db n = true) : dbHasCol (dbEnsureCol db m) n = true := by
  unfold dbEnsureCol
  split_ifs with h2
  · exact h
  · unfold dbHasCol at h ⊢
    cases hl : List.lookup n db with
    | some c => rw [lookup_append_some db [(m, [])] n c hl]; rfl
    | none => rw [hl] at h; cases h

theorem dbSetCol_getCol_id (db : DBState) (n : String)
    (h : dbHasCol db n = true) : dbSetCol db n (dbGetCol db n) = db := by
  unfold dbHasCol at h
  cases hl : List.lookup n db with
  | none => rw [hl] at h; cases h
  | some c =>
    have : dbGetCol db n = c := by unfold dbGetCol; rw [hl]; rfl
    rw [this]
    exact dbSetCol_id db n c hl

theorem dbSetCol_dbSetCol : ∀ (db : DBState) (n : String)
    (c1 c2 : Collection), dbSetCol (dbSetCol db n c1) n c2 = dbSetCol db n c2
  | [], n, c1, c2 => by simp [dbSetCol]
  | (n1, c) :: rest, n, c1, c2 => by
    by_cases hn : n1 = n
    · subst hn; simp [dbSetCol]
    · simp only [dbSetCol, if_neg hn]
      rw [dbSetCol_dbSetCol rest n c1 c2]

theorem colHas_colInsert (c : Collection) (k k2 : String) (d : Doc) :
    colHas (colInsert c k d) k2 = (colHas c k2 || (k2 == k)) := by
  unfold colHas colInsert
  cases hl : List.lookup k2 c with
  | some x => rw [lookup_append_some c [(k, d)] k2 x hl]; rfl
  | none =>
    rw [lookup_append_none c [(k, d)] k2 hl]
    simp only [List.lookup, Option.isSome_none, Bool.false_or]
    cases k2 == k <;> rfl

theorem colHas_of_get (c : Collection) (k : String) (d : Doc)
    (h : colGet c k = some d) : colHas c k = true := by
  unfold colHas
  unfold colGet at h
  rw [h]
  rfl

theorem lookup_mem {β : Type} : ∀ (l : List (String × β)) (k : String)
    (v : β), List.lookup k l = some v → (k, v) ∈ l
  | [], _, _, h => by cases h
  | (k1, v1) :: rest, k, v, h => by
    simp only [List.lookup] at h
    cases hb : k == k1 with
    | true =>
      rw [hb] at h
      obtain rfl : k = k1 := by simpa using hb
      obtain rfl : v1 = v := by simpa using h
      exact List.mem_cons_self _ _
    | false =>
      rw [hb] at h
      exact List.mem_cons_of_mem _ (lookup_mem rest k v h)

theorem setField_map_fst_of_mem : ∀ (d : Doc) (k : String) (v w : PV),
    getField d k = some w → (setField d k v).map Prod.fst = d.map Prod.fst
  | [], _, _, _, h => by cases h
  | (k1, v1) :: rest, k, v, w, h => by
    by_cases hk : k1 = k
    · subst hk; simp [setField]
    · simp only [getField, List.lookup, beq_false_of_ne (Ne.symm hk)] at h
      simp only [setField, if_neg hk, List.map_cons]
      rw [setField_map_fst_of_mem rest k v w h]

theorem wfDoc_map_fst_nodup : ∀ (d : Doc), wfDoc d = true →
    (d.map Prod.fst).Nodup
  | [], _ => List.nodup_nil
  | (k1, v1) :: rest, hwf => by
    obtain ⟨hk1, _, hrest⟩ := wfDoc_cons hwf
    simp only [List.map_cons, List.nodup_cons]
    exact ⟨hk1, wfDoc_map_fst_nodup rest hrest⟩

theorem string_mk_data (s : String) : String.mk s.data = s := by
  cases s; rfl

theorem strTake_of_length_le (s : String) (n : Nat)
    (h : s.data.length ≤ n) : strTake s n = s := by
  unfold strTake
  rw [List.take_of_length_le h]

theorem hexDigit_isHexLower (n : Nat) (h : n < 16) :
    isHexLower (hexDigit n) = true := by
  interval_cases n <;> decide

theorem byteHex_all_hex (b : Nat) (h : b < 256) :
    (byteHex b).all isHexLower = true := by
  simp only [byteHex, List.all_cons, List.all_nil, Bool.and_true,
    Bool.and_eq_true]
  exact ⟨hexDigit_isHexLower _ (by omega),
    hexDigit_isHexLower _ (Nat.mod_lt _ (by norm_num))⟩

theorem flatMap_byteHex_all : ∀ (l : List Nat), (∀ b ∈ l, b < 256) →
    ((l.flatMap byteHex).all isHexLower) = true
  | [], _ => rfl
  | b :: rest, h => by
    simp only [List.flatMap_cons, List.all_append, Bool.and_eq_true]
    exact ⟨byteHex_all_hex b (h b (List.mem_cons_self _ _)),
      flatMap_byteHex_all rest (fun x hx => h x (List.mem_cons_of_mem _ hx))⟩

theorem wordLEB_lt (w : Nat) : ∀ b ∈ wordLEB w, b < 256 := by
  intro b hb
  simp only [wordLEB, List.mem_cons, List.not_mem_nil, or_false] at hb
  rcases hb with rfl | rfl | rfl | rfl <;> omega

theorem md5_hexdigest_hex (s : String) :
    (md5_hexdigest s).data.all isHexLower = true := by
  unfold md5_hexdigest
  apply flatMap_byteHex_all
  intro b hb
  rcases List.mem_flatMap.mp hb with ⟨w, _, hw⟩
  exact wordLEB_lt w b hw

theorem md5_hexdigest_length (s : String) :
    (md5_hexdigest s).data.length = 32 := by
  unfold md5_hexdigest
  simp [wordLEB, byteHex]

theorem keyOf_eq (d : Doc) (k : String)
    (h : getField d "_key" = some (PV.s k)) : keyOf d = k := by
  unfold keyOf
  rw [h]

theorem hasStrKey_getField (d : Doc) (h : hasStrKey d = true) :
    getField d "_key" = some (PV.s (keyOf d)) := by
  unfold hasStrKey at h
  cases hg : getField d "_key" with
  | none => rw [hg] at h; cases h
  | some v =>
    cases v with
    | s k => rw [keyOf_eq d k hg]
    | vnone => rw [hg] at h; cases h
    | i n => rw [hg] at h; cases h
    | b x => rw [hg] at h; cases h
    | q x => rw [hg] at h; cases h
    | lst l => rw [hg] at h; cases h
    | dict dd => rw [hg] at h; cases h

theorem getField_enrich_of_ne (now cn : String) (d : Doc) (k : String)
    (h1 : k ≠ "updated_at") (h2 : k ≠ "created_at")
    (h3 : k ≠ "entity_type") :
    getField (enrichEntity now cn d) k = getField d k := by
  unfold enrichEntity
  rw [getField_setDefault_other _ _ _ _ h3,
      getField_setDefault_other _ _ _ _ h2,
      getField_setDefault_other _ _ _ _ h1]

theorem getField_enrich_created (now cn : String) (d : Doc) :
    getField (enrichEntity now cn d) "created_at" =
      some ((getField d "created_at").getD (PV.s now)) := by
  unfold enrichEntity
  rw [getField_setDefault_other _ _ _ _ (by decide),
      getField_setDefault_same,
      getField_setDefault_other _ _ _ _ (by decide)]

theorem edgeSig_setDefault_created (e : Doc) (v : PV) (t : String) :
    edgeSig (setDefault e "created_at" v) t = edgeSig e t := by
  unfold edgeSig
  rw [getField_setDefault_other _ _ _ _ (by decide),
      getField_setDefault_other _ _ _ _ (by decide),
      getField_setDefault_other _ _ _ _ (by decide)]

theorem edgeKeyOf_setDefault_created (e : Doc) (v : PV) :
    edgeKeyOf (setDefault e "created_at" v) = edgeKeyOf e := by
  unfold edgeKeyOf
  rw [getField_setDefault_other _ _ _ _ (by decide)]
  cases getField e "_to" with
  | none => rfl
  | some w =>
    cases w with
    | s t =>
      show strTake (md5_hexdigest (edgeSig (setDefault e "created_at" v) t))
        32 = _
      rw [edgeSig_setDefault_created]
    | vnone => rfl
    | i n => rfl
    | b x => rfl
    | q x => rfl
    | lst l => rfl
    | dict dd => rfl

theorem getField_edgeStored_key (now : String) (e : Doc)
    (h : getField e "_key" = none) :
    getField (edgeStored now e) "_key" = some (PV.s (edgeKeyOf e)) := by
  unfold edgeStored
  dsimp only
  rw [getField_setDefault_same]
  have h1 : getField (setDefault e "created_at" (PV.s now)) "_key" = none := by
    rw [getField_setDefault_other _ _ _ _ (by decide)]
    exact h
  rw [h1, edgeKeyOf_setDefault_created]
  rfl

theorem upsertEntityDoc_fresh (now cn : String) (col : Collection)
    (stats : EntityStats) (w : List Doc) (d : Doc)
    (hk : hasStrKey d = true)
    (hfresh : colHas col (keyOf d) = false) :
    upsertEntityDoc now cn (col, stats, w) d =
      (colInsert col (keyOf d) (enrichEntity now cn d),
       { stats with inserted := stats.inserted + 1,
                    upserted := stats.upserted + 1 }, w) := by
  unfold upsertEntityDoc
  rw [hasStrKey_getField d hk]
  dsimp only
  rw [if_neg (by rw [hfresh]; exact Bool.false_ne_true)]

theorem upsertEntityDoc_update (now cn : String) (col : Collection)
    (stats : EntityStats) (w : List Doc) (d : Doc)
    (hk : hasStrKey d = true)
    (hget : colGet col (keyOf d) = some (enrichEntity now cn d))
    (hwf : wfDoc (enrichEntity now cn d) = true) :
    upsertEntityDoc now cn (col, stats, w) d =
      (col, { stats with updated := stats.updated + 1,
                         upserted := stats.upserted + 1 }, w) := by
  unfold upsertEntityDoc
  rw [hasStrKey_getField d hk]
  dsimp only
  rw [if_pos (colHas_of_get _ _ _ hget), hget]
  dsimp only
  rw [getField_enrich_created]
  dsimp only
  rw [setField_id _ _ _ (getField_enrich_created now cn d),
      colUpdate_id _ _ _ _ hget (mergeDicts_self _ hwf)]

theorem edgeOk_parts (e : Doc) (h : edgeOkNonGloss e = true) :
    (getField e "_from").isSome = true ∧
    (∃ t, getField e "_to" = some (PV.s t) ∧
      stringStartsWith "glossary_terms/" t = false) ∧
    getField e "_key" = none := by
  unfold edgeOkNonGloss at h
  simp only [Bool.and_eq_true] at h
  obtain ⟨⟨h1, h2⟩, h3⟩ := h
  refine ⟨h1, ?_, ?_⟩
  · cases hg : getField e "_to" with
    | none => rw [hg] at h2; cases h2
    | some v =>
      cases v with
      | s t =>
        rw [hg] at h2
        exact ⟨t, rfl, by simpa using h2⟩
      | vnone => rw [hg] at h2; cases h2
      | i n => rw [hg] at h2; cases h2
      | b x => rw [hg] at h2; cases h2
      | q x => rw [hg] at h2; cases h2
      | lst l => rw [hg] at h2; cases h2
      | dict dd => rw [hg] at h2; cases h2
  · cases hg : getField e "_key" with
    | none => rfl
    | some v => rw [hg] at h3; simp at h3

theorem dbHasCol_of_colGet (db : DBState) (n k : String) (d : Doc)
    (h : colGet (dbGetCol db n) k = some d) : dbHasCol db n = true := by
  unfold dbHasCol
  cases hl : List.lookup n db with
  | some c => rfl
  | none =>
    unfold dbGetCol at h
    rw [hl] at h
    simp [colGet, List.lookup] at h

theorem stringStartsWith_append (p s : String) :
    stringStartsWith p (p ++ s) = true := by
  unfold stringStartsWith
  rw [Reviewer.string_data_append]
  rw [show p.length = p.data.length from rfl, List.take_left]
  simp

theorem strDrop_glossary (X : String) :
    strDrop ("glossary_terms/" ++ X) 15 = X := by
  unfold strDrop
  rw [Reviewer.string_data_append,
      show (15 : Nat) = ("glossary_terms/" : String).data.length from rfl,
      List.drop_left]

theorem upsertEdgeDoc_fresh (now ecn : String) (db : DBState)
    (stats : EdgeStats) (w : List Doc) (e : Doc)
    (hok : edgeOkNonGloss e = true)
    (hfresh : colHas (dbGetCol db ecn) (edgeKeyOf e) = false) :
    upsertEdgeDoc now ecn (db, stats, w) e =
      (dbSetCol db ecn
        (colInsert (dbGetCol db ecn) (edgeKeyOf e) (edgeStored now e)),
       { stats with inserted := stats.inserted + 1,
                    upserted := stats.upserted + 1 }, w) := by
  obtain ⟨hfrom, ⟨t, hto, hng⟩, hkey⟩ := edgeOk_parts e hok
  have hfrom2 : (getField e "_from").isNone = false := by
    cases hg : getField e "_from"
    · rw [hg] at hfrom; cases hfrom
    · rfl
  have hto1 : getField (setDefault e "created_at" (PV.s now)) "_to" =
      some (PV.s t) := by
    rw [getField_setDefault_other _ _ _ _ (by decide)]; exact hto
  have hkeyeq :
      strTake (md5_hexdigest
        (edgeSig (setDefault e "created_at" (PV.s now)) t)) 32 =
      edgeKeyOf e := by
    rw [edgeSig_setDefault_created]
    unfold edgeKeyOf
    rw [hto]
  have hstored : setDefault (setDefault e "created_at" (PV.s now)) "_key"
      (PV.s (strTake (md5_hexdigest
        (edgeSig (setDefault e "created_at" (PV.s now)) t)) 32)) =
      edgeStored now e := by
    unfold edgeStored
    dsimp only
    rw [hkeyeq, edgeKeyOf_setDefault_created]
  have hkey2 : getField (edgeStored now e) "_key" =
      some (PV.s (edgeKeyOf e)) := getField_edgeStored_key now e hkey
  unfold upsertEdgeDoc
  rw [if_neg (by
    intro hor
    rcases hor with h | h
    · rw [hfrom2] at h; cases h
    · rw [hto] at h; cases h)]
  dsimp only
  rw [hto1]
  dsimp only
  rw [if_neg (by rw [hng]; exact Bool.false_ne_true)]
  dsimp only
  rw [hstored, hkey2]
  dsimp only
  rw [if_neg (by rw [hfresh]; exact Bool.false_ne_true)]

theorem upsertEdgeDoc_update (now ecn : String) (db : DBState)
    (stats : EdgeStats) (w : List Doc) (e : Doc)
    (hok : edgeOkNonGloss e = true)
    (hget : colGet (dbGetCol db ecn) (edgeKeyOf e) =
      some (edgeStored now e))
    (hwf : wfDoc (edgeStored now e) = true) :
    upsertEdgeDoc now ecn (db, stats, w) e =
      (db, { stats with updated := stats.updated + 1,
                        upserted := stats.upserted + 1 }, w) := by
  obtain ⟨hfrom, ⟨t, hto, hng⟩, hkey⟩ := edgeOk_parts e hok
  have hfrom2 : (getField e "_from").isNone = false := by
    cases hg : getField e "_from"
    · rw [hg] at hfrom; cases hfrom
    · rfl
  have hto1 : getField (setDefault e "created_at" (PV.s now)) "_to" =
      some (PV.s t) := by
    rw [getField_setDefault_other _ _ _ _ (by decide)]; exact hto
  have hkeyeq :
      strTake (md5_hexdigest
        (edgeSig (setDefault e "created_at" (PV.s now)) t)) 32 =
      edgeKeyOf e := by
    rw [edgeSig_setDefault_created]
    unfold edgeKeyOf
    rw [hto]
  have hstored : setDefault (setDefault e "created_at" (PV.s now)) "_key"
      (PV.s (strTake (md5_hexdigest
        (edgeSig (setDefault e "created_at" (PV.s now)) t)) 32)) =
      edgeStored now e := by
    unfold edgeStored
    dsimp only
    rw [hkeyeq, edgeKeyOf_setDefault_created]
  have hkey2 : getField (edgeStored now e) "_key" =
      some (PV.s (edgeKeyOf e)) := getField_edgeStored_key now e hkey
  unfold upsertEdgeDoc
  rw [if_neg (by
    intro hor
    rcases hor with h | h
    · rw [hfrom2] at h; cases h
    · rw [hto] at h; cases h)]
  dsimp only
  rw [hto1]
  dsimp only
  rw [if_neg (by rw [hng]; exact Bool.false_ne_true)]
  dsimp only
  rw [hstored, hkey2]
  dsimp only
  rw [if_pos (colHas_of_get _ _ _ hget),
      colUpdate_id _ _ _ _ hget (mergeDicts_self _ hwf),
      dbSetCol_getCol_id db ecn (dbHasCol_of_colGet db ecn _ _ hget)]

/-- The glossary stub rule of one edge upsert: a `glossary_terms/X` target
creates exactly the stub and exactly the warning when `X` is missing, and
leaves the glossary collection and the warning list untouched when `X`
exists. -/
theorem upsertEdgeDoc_stub (now ecn X : String) (db : DBState)
    (stats : EdgeStats) (w : List Doc) (e : Doc)
    (hfrom : (getField e "_from").isSome = true)
    (hto : getField e "_to" = some (PV.s ("glossary_terms/" ++ X)))
    (hkey : getField e "_key" = none)
    (hecn : ecn ≠ "glossary_terms") :
    (colHas (dbGetCol db "glossary_terms") X = false →
      dbGetCol (upsertEdgeDoc now ecn (db, stats, w) e).1 "glossary_terms" =
        colInsert (dbGetCol db "glossary_terms") X
          (glossaryStub now X (setDefault e "created_at" (PV.s now))) ∧
      (upsertEdgeDoc now ecn (db, stats, w) e).2.2 =
        w ++ [stubWarning now X ecn (setDefault e "created_at" (PV.s now))] ∧
      (upsertEdgeDoc now ecn (db, stats, w) e).2.1.created_glossary_stubs =
        stats.created_glossary_stubs + 1) ∧
    (colHas (dbGetCol db "glossary_terms") X = true →
      dbGetCol (upsertEdgeDoc now ecn (db, stats, w) e).1 "glossary_terms" =
        dbGetCol db "glossary_terms" ∧
      (upsertEdgeDoc now ecn (db, stats, w) e).2.2 = w ∧
      (upsertEdgeDoc now ecn (db, stats, w) e).2.1.created_glossary_stubs =
        stats.created_glossary_stubs) := by
  have hfrom2 : (getField e "_from").isNone = false := by
    cases hg : getField e "_from"
    · rw [hg] at hfrom; cases hfrom
    · rfl
  have hto1 : getField (setDefault e "created_at" (PV.s now)) "_to" =
      some (PV.s ("glossary_terms/" ++ X)) := by
    rw [getField_setDefault_other _ _ _ _ (by decide)]; exact hto
  have hkey1 : getField (setDefault e "created_at" (PV.s now)) "_key" =
      none := by
    rw [getField_setDefault_other _ _ _ _ (by decide)]; exact hkey
  have hmain : ¬((getField e "_from").isNone = true ∨
      (getField e "_to").isNone = true) := by
    intro hor
    rcases hor with h | h
    · rw [hfrom2] at h; cases h
    · rw [hto] at h; cases h
  constructor
  · intro hmiss
    unfold upsertEdgeDoc
    rw [if_neg hmain]
    dsimp only
    rw [hto1]
    dsimp only
    rw [if_pos (stringStartsWith_append _ X), strDrop_glossary,
        if_neg (by rw [hmiss]; exact Bool.false_ne_true)]
    dsimp only
    rw [getField_setDefault_same, hkey1]
    simp only [Option.getD]
    refine ⟨?_, ?_, ?_⟩ <;> split_ifs with hc
    · rw [dbGetCol_dbSetCol_other _ _ _ _ (Ne.symm hecn),
          dbGetCol_dbSetCol_same]
    · rw [dbGetCol_dbSetCol_other _ _ _ _ (Ne.symm hecn),
          dbGetCol_dbSetCol_same]
    · rfl
    · rfl
    · rfl
    · rfl
  · intro hep
    unfold upsertEdgeDoc
    rw [if_neg hmain]
    dsimp only
    rw [hto1]
    dsimp only
    rw [if_pos (stringStartsWith_append _ X), strDrop_glossary,
        if_pos hep]
    dsimp only
    rw [getField_setDefault_same, hkey1]
    simp only [Option.getD]
    refine ⟨?_, ?_, ?_⟩ <;> split_ifs with hc
    · rw [dbGetCol_dbSetCol_other _ _ _ _ (Ne.symm hecn)]
    · rw [dbGetCol_dbSetCol_other _ _ _ _ (Ne.symm hecn)]
    · rfl
    · rfl
    · rfl
    · rfl

theorem lookup_map_keyFn {α : Type} (kf : Doc → String) (g : Doc → α) :
    ∀ (docs : List Doc) (d : Doc), (docs.map kf).Nodup → d ∈ docs →
    List.lookup (kf d) (docs.map (fun x => (kf x, g x))) = some (g d)
  | [], _, _, hm => absurd hm (List.not_mem_nil _)
  | x :: rest, d, hnd, hm => by
    have hnd2 : kf x ∉ rest.map kf ∧ (rest.map kf).Nodup := by
      simp only [List.map_cons, List.nodup_cons] at hnd
      exact hnd
    rcases List.mem_cons.mp hm with h | h
    · subst h
      simp [List.lookup]
    · have hne : kf d ≠ kf x := by
        intro he
        exact hnd2.1 (he ▸ List.mem_map.mpr ⟨d, h, rfl⟩)
      simp only [List.map_cons, List.lookup, beq_false_of_ne hne]
      exact lookup_map_keyFn kf g rest d hnd2.2 h

theorem upsertEntityList_fresh :
    ∀ (docs : List Doc) (now cn : String) (col : Collection)
      (stats : EntityStats) (w : List Doc),
    (∀ d ∈ docs, hasStrKey d = true) →
    (docs.map keyOf).Nodup →
    (∀ d ∈ docs, colHas col (keyOf d) = false) →
    upsertEntityList now cn col stats w docs =
      (col ++ docs.map (fun d => (keyOf d, enrichEntity now cn d)),
       { upserted := stats.upserted + docs.length,
         inserted := stats.inserted + docs.length,
         updated := stats.updated, errors := stats.errors }, w)
  | [], now, cn, col, stats, w, _, _, _ => by
    simp [upsertEntityList]
  | d :: rest, now, cn, col, stats, w, hk, hnd, hfresh => by
    have hnd2 : keyOf d ∉ rest.map keyOf ∧ (rest.map keyOf).Nodup := by
      simp only [List.map_cons, List.nodup_cons] at hnd
      exact hnd
    have hfresh2 : ∀ d2 ∈ rest,
        colHas (colInsert col (keyOf d) (enrichEntity now cn d))
          (keyOf d2) = false := by
      intro d2 h2
      rw [colHas_colInsert, hfresh d2 (List.mem_cons_of_mem _ h2),
        beq_false_of_ne (by
          intro he
          exact hnd2.1 (he ▸ List.mem_map.mpr ⟨d2, h2, rfl⟩))]
      rfl
    have ih := upsertEntityList_fresh rest now cn
      (colInsert col (keyOf d) (enrichEntity now cn d))
      { stats with inserted := stats.inserted + 1,
                   upserted := stats.upserted + 1 } w
      (fun x hx => hk x (List.mem_cons_of_mem _ hx)) hnd2.2 hfresh2
    unfold upsertEntityList
    rw [List.foldl_cons,
        upsertEntityDoc_fresh now cn col stats w d
          (hk d (List.mem_cons_self _ _))
          (hfresh d (List.mem_cons_self _ _))]
    unfold upsertEntityList at ih
    rw [ih]
    simp only [Prod.mk.injEq, EntityStats.mk.injEq, List.map_cons,
      List.cons_append, List.length_cons, colInsert, List.append_assoc,
      List.singleton_append]
    and_intros <;> first | rfl | trivial | omega

theorem upsertEntityList_update :
    ∀ (docs : List Doc) (now cn : String) (col : Collection)
      (stats : EntityStats) (w : List Doc),
    (∀ d ∈ docs, hasStrKey d = true ∧
      colGet col (keyOf d) = some (enrichEntity now cn d) ∧
      wfDoc (enrichEntity now cn d) = true) →
    upsertEntityList now cn col stats w docs =
      (col, { upserted := stats.upserted + docs.length,
              inserted := stats.inserted,
              updated := stats.updated + docs.length,
              errors := stats.errors }, w)
  | [], now, cn, col, stats, w, _ => by
    simp [upsertEntityList]
  | d :: rest, now, cn, col, stats, w, h => by
    obtain ⟨hk, hget, hwf⟩ := h d (List.mem_cons_self _ _)
    have ih := upsertEntityList_update rest now cn col
      { stats with updated := stats.updated + 1,
                   upserted := stats.upserted + 1 } w
      (fun x hx => h x (List.mem_cons_of_mem _ hx))
    unfold upsertEntityList
    rw [List.foldl_cons, upsertEntityDoc_update now cn col stats w d hk
      hget hwf]
    unfold upsertEntityList at ih
    rw [ih]
    simp only [Prod.mk.injEq, EntityStats.mk.injEq, List.length_cons]
    and_intros <;> first | rfl | trivial | omega

theorem upsertEdgeList_fresh :
    ∀ (edocs : List Doc) (now ecn : String) (db : DBState)
      (stats : EdgeStats) (w : List Doc),
    dbHasCol db ecn = true →
    (∀ e ∈ edocs, edgeOkNonGloss e = true) →
    (edocs.map edgeKeyOf).Nodup →
    (∀ e ∈ edocs, colHas (dbGetCol db ecn) (edgeKeyOf e) = false) →
    upsertEdgeList now ecn db stats w edocs =
      (dbSetCol db ecn (dbGetCol db ecn ++
        edocs.map (fun e => (edgeKeyOf e, edgeStored now e))),
       { upserted := stats.upserted + edocs.length,
         inserted := stats.inserted + edocs.length,
         updated := stats.updated, errors := stats.errors,
         created_glossary_stubs := stats.created_glossary_stubs }, w)
  | [], now, ecn, db, stats, w, hhas, _, _, _ => by
    simp [upsertEdgeList, dbSetCol_getCol_id db ecn hhas]
  | e :: rest, now, ecn, db, stats, w, hhas, hok, hnd, hfresh => by
    have hnd2 : edgeKeyOf e ∉ rest.map edgeKeyOf ∧
        (rest.map edgeKeyOf).Nodup := by
      simp only [List.map_cons, List.nodup_cons] at hnd
      exact hnd
    have hdb1get : dbGetCol (dbSetCol db ecn
        (colInsert (dbGetCol db ecn) (edgeKeyOf e) (edgeStored now e)))
        ecn = colInsert (dbGetCol db ecn) (edgeKeyOf e)
          (edgeStored now e) := dbGetCol_dbSetCol_same db ecn _
    have hfresh2 : ∀ e2 ∈ rest,
        colHas (dbGetCol (dbSetCol db ecn
          (colInsert (dbGetCol db ecn) (edgeKeyOf e) (edgeStored now e)))
          ecn) (edgeKeyOf e2) = false := by
      intro e2 h2
      rw [hdb1get, colHas_colInsert,
        hfresh e2 (List.mem_cons_of_mem _ h2),
        beq_false_of_ne (by
          intro he
          exact hnd2.1 (he ▸ List.mem_map.mpr ⟨e2, h2, rfl⟩))]
      rfl
    have ih := upsertEdgeList_fresh rest now ecn
      (dbSetCol db ecn
        (colInsert (dbGetCol db ecn) (edgeKeyOf e) (edgeStored now e)))
      { stats with inserted := stats.inserted + 1,
                   upserted := stats.upserted + 1 } w
      (dbHasCol_dbSetCol_same db ecn _)
      (fun x hx => hok x (List.mem_cons_of_mem _ hx)) hnd2.2 hfresh2
    unfold upsertEdgeList
    rw [List.foldl_cons,
        upsertEdgeDoc_fresh now ecn db stats w e
          (hok e (List.mem_cons_self _ _))
          (hfresh e (List.mem_cons_self _ _))]
    unfold upsertEdgeList at ih
    rw [ih, hdb1get, dbSetCol_dbSetCol]
    simp only [Prod.mk.injEq, EdgeStats.mk.injEq, List.map_cons,
      List.cons_append, List.length_cons, colInsert, List.append_assoc,
      List.singleton_append]
    and_intros <;> first | rfl | trivial | omega

theorem upsertEdgeList_update :
    ∀ (edocs : List Doc) (now ecn : String) (db : DBState)
      (stats : EdgeStats) (w : List Doc),
    (∀ e ∈ edocs, edgeOkNonGloss e = true ∧
      colGet (dbGetCol db ecn) (edgeKeyOf e) = some (edgeStored now e) ∧
      wfDoc (edgeStored now e) = true) →
    upsertEdgeList now ecn db stats w edocs =
      (db, { upserted := stats.upserted + edocs.length,
             inserted := stats.inserted,
             updated := stats.updated + edocs.length,
             errors := stats.errors,
             created_glossary_stubs := stats.created_glossary_stubs }, w)
  | [], now, ecn, db, stats, w, _ => by
    simp [upsertEdgeList]
  | e :: rest, now, ecn, db, stats, w, h => by
    obtain ⟨hok, hget, hwf⟩ := h e (List.mem_cons_self _ _)
    have ih := upsertEdgeList_update rest now ecn db
      { stats with updated := stats.updated + 1,
                   upserted := stats.upserted + 1 } w
      (fun x hx => h x (List.mem_cons_of_mem _ hx))
    unfold upsertEdgeList
    rw [List.foldl_cons, upsertEdgeDoc_update now ecn db stats w e hok
      hget hwf]
    unfold upsertEdgeList at ih
    rw [ih]
    simp only [Prod.mk.injEq, EdgeStats.mk.injEq, List.length_cons]
    and_intros <;> first | rfl | trivial | omega

/-- The entity collection loop over previously untouched (empty or absent)
collections: the final state, stats rows and warning list, sharp. -/
theorem entitiesFold_fresh :
    ∀ (pairs : List (String × List Doc)) (now : String) (db : DBState)
      (rows : List (String × EntityStats)) (qaw : List Doc),
    (pairs.map Prod.fst).Nodup →
    (∀ p ∈ pairs, EntPairOk now p) →
    (∀ p ∈ pairs, dbGetCol db p.1 = []) →
    (pairs.foldl (upsertEntitiesStep now) (db, rows, qaw)).2.2 = qaw ∧
    (pairs.foldl (upsertEntitiesStep now) (db, rows, qaw)).2.1 =
      rows ++ (pairs.filter (fun p => !p.2.isEmpty)).map
        (fun p => (p.1, insStats p.2.length)) ∧
    (∀ n, n ∉ pairs.map Prod.fst →
      dbGetCol (pairs.foldl (upsertEntitiesStep now) (db, rows, qaw)).1 n =
        dbGetCol db n ∧
      dbHasCol (pairs.foldl (upsertEntitiesStep now) (db, rows, qaw)).1 n =
        dbHasCol db n) ∧
    (∀ p ∈ pairs,
      dbGetCol (pairs.foldl (upsertEntitiesStep now) (db, rows, qaw)).1
        p.1 = p.2.map (fun d => (keyOf d, enrichEntity now p.1 d))) ∧
    (∀ p ∈ pairs, p.2 ≠ [] →
      dbHasCol (pairs.foldl (upsertEntitiesStep now) (db, rows, qaw)).1
        p.1 = true)
  | [], now, db, rows, qaw, _, _, _ => by
    refine ⟨rfl, by simp, fun n _ => ⟨rfl, rfl⟩, ?_, ?_⟩ <;>
      exact fun p hp => absurd hp (List.not_mem_nil _)
  | (cn, docs) :: rest, now, db, rows, qaw, hnd, hok, hcols => by
    have hnd2 : cn ∉ rest.map Prod.fst ∧ (rest.map Prod.fst).Nodup := by
      simp only [List.map_cons, List.nodup_cons] at hnd
      exact hnd
    have hcn0 : dbGetCol db cn = [] := hcols (cn, docs) (List.mem_cons_self _ _)
    cases docs with
    | nil =>
      have hstep : upsertEntitiesStep now (db, rows, qaw) (cn, []) =
          (db, rows, qaw) := by
        simp [upsertEntitiesStep]
      rw [List.foldl_cons, hstep]
      obtain ⟨ih1, ih2, ih3, ih4, ih5⟩ := entitiesFold_fresh rest now db
        rows qaw hnd2.2
        (fun p hp => hok p (List.mem_cons_of_mem _ hp))
        (fun p hp => hcols p (List.mem_cons_of_mem _ hp))
      refine ⟨ih1, by simpa using ih2, ?_, ?_, ?_⟩
      · intro n hn
        simp only [List.map_cons, List.mem_cons, not_or] at hn
        exact ih3 n hn.2
      · intro p hp
        rcases List.mem_cons.mp hp with h | h
        · subst h
          rw [(ih3 cn hnd2.1).1, hcn0]
          rfl
        · exact ih4 p h
      · intro p hp hne
        rcases List.mem_cons.mp hp with h | h
        · subst h
          exact absurd rfl hne
        · exact ih5 p h hne
    | cons d ds =>
      obtain ⟨hknd, hkall⟩ := hok (cn, d :: ds) (List.mem_cons_self _ _)
      have hens : dbGetCol (dbEnsureCol db cn) cn = [] := by
        rw [dbGetCol_dbEnsureCol]
        exact hcn0
      have hlist := upsertEntityList_fresh (d :: ds) now cn []
        ({} : EntityStats) qaw (fun x hx => (hkall x hx).1) hknd
        (fun x _ => rfl)
      have hstep : upsertEntitiesStep now (db, rows, qaw) (cn, d :: ds) =
          (dbSetCol (dbEnsureCol db cn) cn
            ((d :: ds).map (fun x => (keyOf x, enrichEntity now cn x))),
           rows ++ [(cn, insStats (d :: ds).length)], qaw) := by
        unfold upsertEntitiesStep
        rw [if_neg (by simp)]
        dsimp only
        rw [hens, hlist]
        simp [insStats]
      have hdb1other : ∀ n, n ≠ cn →
          dbGetCol (dbSetCol (dbEnsureCol db cn) cn
            ((d :: ds).map (fun x => (keyOf x, enrichEntity now cn x)))) n =
          dbGetCol db n := by
        intro n hn
        rw [dbGetCol_dbSetCol_other _ _ _ _ hn, dbGetCol_dbEnsureCol]
      have hdb1hasother : ∀ n, n ≠ cn →
          dbHasCol (dbSetCol (dbEnsureCol db cn) cn
            ((d :: ds).map (fun x => (keyOf x, enrichEntity now cn x)))) n =
          dbHasCol db n := by
        intro n hn
        rw [dbHasCol_dbSetCol_other _ _ _ _ hn, dbHasCol_dbEnsureCol_other
          _ _ _ hn]
      obtain ⟨ih1, ih2, ih3, ih4, ih5⟩ := entitiesFold_fresh rest now
        (dbSetCol (dbEnsureCol db cn) cn
          ((d :: ds).map (fun x => (keyOf x, enrichEntity now cn x))))
        (rows ++ [(cn, insStats (d :: ds).length)]) qaw hnd2.2
        (fun p hp => hok p (List.mem_cons_of_mem _ hp))
        (fun p hp => by
          rw [hdb1other p.1 (by
            intro he
            exact hnd2.1 (he ▸ List.mem_map.mpr ⟨p, hp, rfl⟩))]
          exact hcols p (List.mem_cons_of_mem _ hp))
      rw [List.foldl_cons, hstep]
      refine ⟨ih1, ?_, ?_, ?_, ?_⟩
      · rw [ih2]
        simp
      · intro n hn
        simp only [List.map_cons, List.mem_cons, not_or] at hn
        obtain ⟨g1, g2⟩ := ih3 n hn.2
        exact ⟨by rw [g1]; exact hdb1other n hn.1,
               by rw [g2]; exact hdb1hasother n hn.1⟩
      · intro p hp
        rcases List.mem_cons.mp hp with h | h
        · subst h
          rw [(ih3 cn hnd2.1).1, dbGetCol_dbSetCol_same]
        · exact ih4 p h
      · intro p hp hne
        rcases List.mem_cons.mp hp with h | h
        · subst h
          rw [(ih3 cn hnd2.1).2, dbHasCol_dbSetCol_same]
        · exact ih5 p h hne

/-- The edge collection loop over previously untouched collections, with
no edge targeting `glossary_terms`: final state, stats rows, warnings. -/
theorem edgesFold_fresh :
    ∀ (pairs : List (String × List Doc)) (now : String) (db : DBState)
      (rows : List (String × EdgeStats)) (qaw : List Doc),
    (pairs.map Prod.fst).Nodup →
    (∀ p ∈ pairs, EdgePairOk now p) →
    (∀ p ∈ pairs, dbGetCol db p.1 = []) →
    (pairs.foldl (upsertEdgesStep now) (db, rows, qaw)).2.2 = qaw ∧
    (pairs.foldl (upsertEdgesStep now) (db, rows, qaw)).2.1 =
      rows ++ (pairs.filter (fun p => !p.2.isEmpty)).map
        (fun p => (p.1, insEdgeStats p.2.length)) ∧
    (∀ n, n ∉ pairs.map Prod.fst →
      dbGetCol (pairs.foldl (upsertEdgesStep now) (db, rows, qaw)).1 n =
        dbGetCol db n ∧
      dbHasCol (pairs.foldl (upsertEdgesStep now) (db, rows, qaw)).1 n =
        dbHasCol db n) ∧
    (∀ p ∈ pairs,
      dbGetCol (pairs.foldl (upsertEdgesStep now) (db, rows, qaw)).1
        p.1 = p.2.map (fun e => (edgeKeyOf e, edgeStored now e))) ∧
    (∀ p ∈ pairs, p.2 ≠ [] →
      dbHasCol (pairs.foldl (upsertEdgesStep now) (db, rows, qaw)).1
        p.1 = true)
  | [], now, db, rows, qaw, _, _, _ => by
    refine ⟨rfl, by simp, fun n _ => ⟨rfl, rfl⟩, ?_, ?_⟩ <;>
      exact fun p hp => absurd hp (List.not_mem_nil _)
  | (cn, docs) :: rest, now, db, rows, qaw, hnd, hok, hcols => by
    have hnd2 : cn ∉ rest.map Prod.fst ∧ (rest.map Prod.fst).Nodup := by
      simp only [List.map_cons, List.nodup_cons] at hnd
      exact hnd
    have hcn0 : dbGetCol db cn = [] := hcols (cn, docs) (List.mem_cons_self _ _)
    cases docs with
    | nil =>
      have hstep : upsertEdgesStep now (db, rows, qaw) (cn, []) =
          (db, rows, qaw) := by
        simp [upsertEdgesStep]
      rw [List.foldl_cons, hstep]
      obtain ⟨ih1, ih2, ih3, ih4, ih5⟩ := edgesFold_fresh rest now db
        rows qaw hnd2.2
        (fun p hp => hok p (List.mem_cons_of_mem _ hp))
        (fun p hp => hcols p (List.mem_cons_of_mem _ hp))
      refine ⟨ih1, by simpa using ih2, ?_, ?_, ?_⟩
      · intro n hn
        simp only [List.map_cons, List.mem_cons, not_or] at hn
        exact ih3 n hn.2
      · intro p hp
        rcases List.mem_cons.mp hp with h | h
        · subst h
          rw [(ih3 cn hnd2.1).1, hcn0]
          rfl
        · exact ih4 p h
      · intro p hp hne
        rcases List.mem_cons.mp hp with h | h
        · subst h
          exact absurd rfl hne
        · exact ih5 p h hne
    | cons d ds =>
      obtain ⟨hknd, hkall⟩ := hok (cn, d :: ds) (List.mem_cons_self _ _)
      have hens : dbGetCol (dbEnsureCol db cn) cn = [] := by
        rw [dbGetCol_dbEnsureCol]
        exact hcn0
      have hlist := upsertEdgeList_fresh (d :: ds) now cn
        (dbEnsureCol db cn) ({} : EdgeStats) qaw
        (dbHasCol_dbEnsureCol_self db cn)
        (fun x hx => (hkall x hx).1) hknd
        (fun x _ => by rw [hens]; rfl)
      have hstep : upsertEdgesStep now (db, rows, qaw) (cn, d :: ds) =
          (dbSetCol (dbEnsureCol db cn) cn
            ((d :: ds).map (fun x => (edgeKeyOf x, edgeStored now x))),
           rows ++ [(cn, insEdgeStats (d :: ds).length)], qaw) := by
        unfold upsertEdgesStep
        rw [if_neg (by simp)]
        dsimp only
        rw [hlist, hens]
        simp [insEdgeStats]
      have hdb1other : ∀ n, n ≠ cn →
          dbGetCol (dbSetCol (dbEnsureCol db cn) cn
            ((d :: ds).map (fun x => (edgeKeyOf x, edgeStored now x)))) n =
          dbGetCol db n := by
        intro n hn
        rw [dbGetCol_dbSetCol_other _ _ _ _ hn, dbGetCol_dbEnsureCol]
      have hdb1hasother : ∀ n, n ≠ cn →
          dbHasCol (dbSetCol (dbEnsureCol db cn) cn
            ((d :: ds).map (fun x => (edgeKeyOf x, edgeStored now x)))) n =
          dbHasCol db n := by
        intro n hn
        rw [dbHasCol_dbSetCol_other _ _ _ _ hn, dbHasCol_dbEnsureCol_other
          _ _ _ hn]
      obtain ⟨ih1, ih2, ih3, ih4, ih5⟩ := edgesFold_fresh rest now
        (dbSetCol (dbEnsureCol db cn) cn
          ((d :: ds).map (fun x => (edgeKeyOf x, edgeStored now x))))
        (rows ++ [(cn, insEdgeStats (d :: ds).length)]) qaw hnd2.2
        (fun p hp => hok p (List.mem_cons_of_mem _ hp))
        (fun p hp => by
          rw [hdb1other p.1 (by
            intro he
            exact hnd2.1 (he ▸ List.mem_map.mpr ⟨p, hp, rfl⟩))]
          exact hcols p (List.mem_cons_of_mem _ hp))
      rw [List.foldl_cons, hstep]
      refine ⟨ih1, ?_, ?_, ?_, ?_⟩
      · rw [ih2]
        simp
      · intro n hn
        simp only [List.map_cons, List.mem_cons, not_or] at hn
        obtain ⟨g1, g2⟩ := ih3 n hn.2
        exact ⟨by rw [g1]; exact hdb1other n hn.1,
               by rw [g2]; exact hdb1hasother n hn.1⟩
      · intro p hp
        rcases List.mem_cons.mp hp with h | h
        · subst h
          rw [(ih3 cn hnd2.1).1, dbGetCol_dbSetCol_same]
        · exact ih4 p h
      · intro p hp hne
        rcases List.mem_cons.mp hp with h | h
        · subst h
          rw [(ih3 cn hnd2.1).2, dbHasCol_dbSetCol_same]
        · exact ih5 p h hne

/-- The entity collection loop over a state that already stores every
incoming document in enriched form: pure merge updates, nothing changes. -/
theorem entitiesFold_update :
    ∀ (pairs : List (String × List Doc)) (now : String) (db : DBState)
      (rows : List (String × EntityStats)) (qaw : List Doc),
    (∀ p ∈ pairs, EntPairOk now p) →
    (∀ p ∈ pairs, ∀ d ∈ p.2, colGet (dbGetCol db p.1) (keyOf d) =
      some (enrichEntity now p.1 d)) →
    (∀ p ∈ pairs, p.2 ≠ [] → dbHasCol db p.1 = true) →
    pairs.foldl (upsertEntitiesStep now) (db, rows, qaw) =
      (db, rows ++ (pairs.filter (fun p => !p.2.isEmpty)).map
        (fun p => (p.1, updStats p.2.length)), qaw)
  | [], now, db, rows, qaw, _, _, _ => by simp
  | (cn, docs) :: rest, now, db, rows, qaw, hok, hget, hhas => by
    cases docs with
    | nil =>
      have hstep : upsertEntitiesStep now (db, rows, qaw) (cn, []) =
          (db, rows, qaw) := by
        simp [upsertEntitiesStep]
      rw [List.foldl_cons, hstep,
        entitiesFold_update rest now db rows qaw
          (fun p hp => hok p (List.mem_cons_of_mem _ hp))
          (fun p hp => hget p (List.mem_cons_of_mem _ hp))
          (fun p hp => hhas p (List.mem_cons_of_mem _ hp))]
      simp
    | cons d ds =>
      obtain ⟨hknd, hkall⟩ := hok (cn, d :: ds) (List.mem_cons_self _ _)
      have hh : dbHasCol db cn = true :=
        hhas (cn, d :: ds) (List.mem_cons_self _ _) (List.cons_ne_nil _ _)
      have hlist := upsertEntityList_update (d :: ds) now cn
        (dbGetCol db cn) ({} : EntityStats) qaw
        (fun x hx => ⟨(hkall x hx).1,
          hget (cn, d :: ds) (List.mem_cons_self _ _) x hx,
          (hkall x hx).2⟩)
      have hstep : upsertEntitiesStep now (db, rows, qaw) (cn, d :: ds) =
          (db, rows ++ [(cn, updStats (d :: ds).length)], qaw) := by
        unfold upsertEntitiesStep
        rw [if_neg (by simp)]
        dsimp only
        rw [dbEnsureCol_of_has db cn hh, hlist,
          dbSetCol_getCol_id db cn hh]
        simp [updStats]
      rw [List.foldl_cons, hstep,
        entitiesFold_update rest now db
          (rows ++ [(cn, updStats (d :: ds).length)]) qaw
          (fun p hp => hok p (List.mem_cons_of_mem _ hp))
          (fun p hp => hget p (List.mem_cons_of_mem _ hp))
          (fun p hp => hhas p (List.mem_cons_of_mem _ hp))]
      simp

/-- The edge collection loop over a state that already stores every edge
in stored form: pure merge updates, nothing changes. -/
theorem edgesFold_update :
    ∀ (pairs : List (String × List Doc)) (now : String) (db : DBState)
      (rows : List (String × EdgeStats)) (qaw : List Doc),
    (∀ p ∈ pairs, EdgePairOk now p) →
    (∀ p ∈ pairs, ∀ e ∈ p.2, colGet (dbGetCol db p.1) (edgeKeyOf e) =
      some (edgeStored now e)) →
    (∀ p ∈ pairs, p.2 ≠ [] → dbHasCol db p.1 = true) →
    pairs.foldl (upsertEdgesStep now) (db, rows, qaw) =
      (db, rows ++ (pairs.filter (fun p => !p.2.isEmpty)).map
        (fun p => (p.1, updEdgeStats p.2.length)), qaw)
  | [], now, db, rows, qaw, _, _, _ => by simp
  | (cn, docs) :: rest, now, db, rows, qaw, hok, hget, hhas => by
    cases docs with
    | nil =>
      have hstep : upsertEdgesStep now (db, rows, qaw) (cn, []) =
          (db, rows, qaw) := by
        simp [upsertEdgesStep]
      rw [List.foldl_cons, hstep,
        edgesFold_update rest now db rows qaw
          (fun p hp => hok p (List.mem_cons_of_mem _ hp))
          (fun p hp => hget p (List.mem_cons_of_mem _ hp))
          (fun p hp => hhas p (List.mem_cons_of_mem _ hp))]
      simp
    | cons d ds =>
      obtain ⟨hknd, hkall⟩ := hok (cn, d :: ds) (List.mem_cons_self _ _)
      have hh : dbHasCol db cn = true :=
        hhas (cn, d :: ds) (List.mem_cons_self _ _) (List.cons_ne_nil _ _)
      have hlist := upsertEdgeList_update (d :: ds) now cn db
        ({} : EdgeStats) qaw
        (fun x hx => ⟨(hkall x hx).1,
          hget (cn, d :: ds) (List.mem_cons_self _ _) x hx,
          (hkall x hx).2⟩)
      have hstep : upsertEdgesStep now (db, rows, qaw) (cn, d :: ds) =
          (db, rows ++ [(cn, updEdgeStats (d :: ds).length)], qaw) := by
        unfold upsertEdgesStep
        rw [if_neg (by simp)]
        dsimp only
        rw [dbEnsureCol_of_has db cn hh, hlist]
        simp [updEdgeStats]
      rw [List.foldl_cons, hstep,
        edgesFold_update rest now db
          (rows ++ [(cn, updEdgeStats (d :: ds).length)]) qaw
          (fun p hp => hok p (List.mem_cons_of_mem _ hp))
          (fun p hp => hget p (List.mem_cons_of_mem _ hp))
          (fun p hp => hhas p (List.mem_cons_of_mem _ hp))]
      simp

theorem upsert_entities_fresh (now : String) (db : DBState)
    (entities : List (String × List Doc)) (qaw : List Doc)
    (hnod : (entities.map Prod.fst).Nodup)
    (hok : ∀ p ∈ entities, EntPairOk now p)
    (hcols : ∀ p ∈ entities, dbGetCol db p.1 = []) :
    (upsert_entities now db entities qaw).2.2 = qaw ∧
    (upsert_entities now db entities qaw).2.1 =
      (entities.filter (fun p => !p.2.isEmpty)).map
        (fun p => (p.1, insStats p.2.length)) ∧
    (∀ n, n ∉ entities.map Prod.fst →
      dbGetCol (upsert_entities now db entities qaw).1 n = dbGetCol db n ∧
      dbHasCol (upsert_entities now db entities qaw).1 n =
        dbHasCol db n) ∧
    (∀ p ∈ entities, dbGetCol (upsert_entities now db entities qaw).1 p.1 =
      p.2.map (fun d => (keyOf d, enrichEntity now p.1 d))) ∧
    (∀ p ∈ entities, p.2 ≠ [] →
      dbHasCol (upsert_entities now db entities qaw).1 p.1 = true) := by
  obtain ⟨h1, h2, h3, h4, h5⟩ :=
    entitiesFold_fresh entities now db [] qaw hnod hok hcols
  exact ⟨h1, by simpa using h2, h3, h4, h5⟩

theorem upsert_edges_fresh (now : String) (db : DBState)
    (edges : List (String × List Doc)) (qaw : List Doc)
    (hnod : (edges.map Prod.fst).Nodup)
    (hok : ∀ p ∈ edges, EdgePairOk now p)
    (hgl : "glossary_terms" ∉ edges.map Prod.fst)
    (hcols : ∀ p ∈ edges, dbGetCol db p.1 = []) :
    (upsert_edges now db edges qaw).2.2 = qaw ∧
    (upsert_edges now db edges qaw).2.1 =
      (edges.filter (fun p => !p.2.isEmpty)).map
        (fun p => (p.1, insEdgeStats p.2.length)) ∧
    (∀ n, n ∉ edges.map Prod.fst → n ≠ "glossary_terms" →
      dbGetCol (upsert_edges now db edges qaw).1 n = dbGetCol db n ∧
      dbHasCol (upsert_edges now db edges qaw).1 n = dbHasCol db n) ∧
    (∀ p ∈ edges, dbGetCol (upsert_edges now db edges qaw).1 p.1 =
      p.2.map (fun e => (edgeKeyOf e, edgeStored now e))) ∧
    (∀ p ∈ edges, p.2 ≠ [] →
      dbHasCol (upsert_edges now db edges qaw).1 p.1 = true) ∧
    dbGetCol (upsert_edges now db edges qaw).1 "glossary_terms" =
      dbGetCol db "glossary_terms" ∧
    dbHasCol (upsert_edges now db edges qaw).1 "glossary_terms" = true := by
  have hcols2 : ∀ p ∈ edges,
      dbGetCol (dbEnsureCol db "glossary_terms") p.1 = [] := by
    intro p hp
    rw [dbGetCol_dbEnsureCol]
    exact hcols p hp
  obtain ⟨h1, h2, h3, h4, h5⟩ := edgesFold_fresh edges now
    (dbEnsureCol db "glossary_terms") [] qaw hnod hok hcols2
  refine ⟨h1, by simpa using h2, ?_, h4, h5, ?_, ?_⟩
  · intro n hn hngl
    obtain ⟨g1, g2⟩ := h3 n hn
    exact ⟨g1.trans (dbGetCol_dbEnsureCol db _ n),
           g2.trans (dbHasCol_dbEnsureCol_other db _ n hngl)⟩
  · exact (h3 _ hgl).1.trans (dbGetCol_dbEnsureCol db _ _)
  · exact (h3 _ hgl).2.trans (dbHasCol_dbEnsureCol_self db _)

theorem upsert_entities_second (now : String) (db : DBState)
    (entities : List (String × List Doc)) (qaw : List Doc)
    (hok : ∀ p ∈ entities, EntPairOk now p)
    (hget : ∀ p ∈ entities, ∀ d ∈ p.2,
      colGet (dbGetCol db p.1) (keyOf d) = some (enrichEntity now p.1 d))
    (hhas : ∀ p ∈ entities, p.2 ≠ [] → dbHasCol db p.1 = true) :
    upsert_entities now db entities qaw =
      (db, (entities.filter (fun p => !p.2.isEmpty)).map
        (fun p => (p.1, updStats p.2.length)), qaw) := by
  have := entitiesFold_update entities now db [] qaw hok hget hhas
  simpa using this

theorem upsert_edges_second (now : String) (db : DBState)
    (edges : List (String × List Doc)) (qaw : List Doc)
    (hok : ∀ p ∈ edges, EdgePairOk now p)
    (hget : ∀ p ∈ edges, ∀ e ∈ p.2,
      colGet (dbGetCol db p.1) (edgeKeyOf e) = some (edgeStored now e))
    (hhas : ∀ p ∈ edges, p.2 ≠ [] → dbHasCol db p.1 = true)
    (hgl : dbHasCol db "glossary_terms" = true) :
    upsert_edges now db edges qaw =
      (db, (edges.filter (fun p => !p.2.isEmpty)).map
        (fun p => (p.1, updEdgeStats p.2.length)), qaw) := by
  have h := edgesFold_update edges now db [] qaw hok hget hhas
  unfold upsert_edges
  rw [dbEnsureCol_of_has db _ hgl]
  simpa using h

/-- Publishing a well-formed bundle into an empty database and then
publishing it again (with the same timestamp) leaves the state unchanged:
the second publish performs only merge updates, reports `inserted = 0`
(and zero stubs and errors) for every collection, and emits no warnings. -/
theorem publishBundle_idem (now : String)
    (entities edges : List (String × List Doc))
    (hb : BundleOk now entities edges) :
    publishBundle now (publishBundle now [] entities edges).1
      entities edges =
      ((publishBundle now [] entities edges).1,
       (entities.filter (fun p => !p.2.isEmpty)).map
         (fun p => (p.1, updStats p.2.length)),
       (edges.filter (fun p => !p.2.isEmpty)).map
         (fun p => (p.1, updEdgeStats p.2.length)),
       [], []) := by
  obtain ⟨hnodAll, hokE, hokG⟩ := hb
  rw [List.nodup_append] at hnodAll
  obtain ⟨hnodE, hconsG, hdisj⟩ := hnodAll
  rw [List.nodup_cons] at hconsG
  obtain ⟨hglG, hnodG⟩ := hconsG
  have hglE : "glossary_terms" ∉ entities.map Prod.fst := by
    intro hmem
    exact hdisj hmem (List.mem_cons_self _ _)
  obtain ⟨e1, e2, e3, e4, e5⟩ := upsert_entities_fresh now [] entities []
    hnodE hokE (fun p _ => rfl)
  have hcolsG : ∀ p ∈ edges,
      dbGetCol (upsert_entities now [] entities []).1 p.1 = [] := by
    intro p hp
    have hne : p.1 ∉ entities.map Prod.fst := by
      intro hmem
      exact hdisj hmem
        (List.mem_cons_of_mem _ (List.mem_map.mpr ⟨p, hp, rfl⟩))
    exact (e3 p.1 hne).1
  obtain ⟨g1, g2, g3, g4, g5, g6, g7⟩ := upsert_edges_fresh now
    (upsert_entities now [] entities []).1 edges [] hnodG hokG hglG hcolsG
  have he2 : upsert_entities now
      (upsert_edges now (upsert_entities now [] entities []).1 edges []).1
      entities [] =
      ((upsert_edges now (upsert_entities now [] entities []).1
          edges []).1,
       (entities.filter (fun p => !p.2.isEmpty)).map
         (fun p => (p.1, updStats p.2.length)), []) := by
    apply upsert_entities_second now _ entities [] hokE
    · intro p hp d hd
      have hpm : p.1 ∈ entities.map Prod.fst :=
        List.mem_map.mpr ⟨p, hp, rfl⟩
      have hne1 : p.1 ∉ edges.map Prod.fst := by
        intro hmem
        exact hdisj hpm (List.mem_cons_of_mem _ hmem)
      have hne2 : p.1 ≠ "glossary_terms" := by
        intro he
        exact hdisj hpm (he ▸ List.mem_cons_self _ _)
      rw [show colGet (dbGetCol (upsert_edges now
          (upsert_entities now [] entities []).1 edges []).1 p.1)
          (keyOf d) = colGet (p.2.map
            (fun x => (keyOf x, enrichEntity now p.1 x))) (keyOf d) from by
        rw [(g3 p.1 hne1 hne2).1, e4 p hp]]
      exact lookup_map_keyFn keyOf (enrichEntity now p.1) p.2 d
        (hokE p hp).1 hd
    · intro p hp hne
      have hpm : p.1 ∈ entities.map Prod.fst :=
        List.mem_map.mpr ⟨p, hp, rfl⟩
      have hne1 : p.1 ∉ edges.map Prod.fst := by
        intro hmem
        exact hdisj hpm (List.mem_cons_of_mem _ hmem)
      have hne2 : p.1 ≠ "glossary_terms" := by
        intro he
        exact hdisj hpm (he ▸ List.mem_cons_self _ _)
      exact ((g3 p.1 hne1 hne2).2).trans (e5 p hp hne)
  have hg2 : upsert_edges now
      (upsert_edges now (upsert_entities now [] entities []).1 edges []).1
      edges [] =
      ((upsert_edges now (upsert_entities now [] entities []).1
          edges []).1,
       (edges.filter (fun p => !p.2.isEmpty)).map
         (fun p => (p.1, updEdgeStats p.2.length)), []) := by
    apply upsert_edges_second now _ edges [] hokG
    · intro p hp e he
      rw [show colGet (dbGetCol (upsert_edges now
          (upsert_entities now [] entities []).1 edges []).1 p.1)
          (edgeKeyOf e) = colGet (p.2.map
            (fun x => (edgeKeyOf x, edgeStored now x))) (edgeKeyOf e)
          from by rw [g4 p hp]]
      exact lookup_map_keyFn edgeKeyOf (edgeStored now) p.2 e
        (hokG p hp).1 he
    · exact g5
    · exact g7
  show publishBundle now (publishBundle now [] entities edges).1
      entities edges = _
  unfold publishBundle
  dsimp only
  rw [he2]
  dsimp only
  rw [hg2]

theorem filter_eq_nil_of_not_has : ∀ (c : Collection) (X : String),
    colHas c X = false → c.filter (fun q => q.1 == X) = []
  | [], _, _ => rfl
  | (k1, d1) :: rest, X, h => by
    have hne : (X == k1) = false := by
      unfold colHas at h
      cases hb : X == k1
      · rfl
      · simp only [List.lookup, hb] at h
        cases h
    have hne2 : (k1 == X) = false := by
      refine beq_false_of_ne ?_
      intro he
      subst he
      simp at hne
    have hrest : colHas rest X = false := by
      unfold colHas at h ⊢
      simp only [List.lookup, hne] at h
      exact h
    simp only [List.filter_cons, hne2]
    exact filter_eq_nil_of_not_has rest X hrest

theorem colInsert_filter_key (c : Collection) (X : String) (d : Doc)
    (h : colHas c X = false) :
    ((colInsert c X d).filter (fun q => q.1 == X)).length = 1 := by
  unfold colInsert
  rw [List.filter_append, filter_eq_nil_of_not_has c X h]
  simp

end KB.Arango

namespace KB.Runner

theorem indexOf_append_cons {pre post : List StepName}
    (h : StepName.Gate ∉ pre) :
    (pre ++ StepName.Gate :: post).indexOf StepName.Gate = pre.length := by
  induction pre with
  | nil => simp
  | cons a pre ih =>
    have ha : a ≠ StepName.Gate := fun he => h (he ▸ List.mem_cons_self _ _)
    have hnm : StepName.Gate ∉ pre := fun hm => h (List.mem_cons_of_mem _ hm)
    simp only [List.cons_append, List.length_cons]
    rw [List.indexOf_cons_ne _ (by simpa using ha), ih hnm]

theorem drop_append_cons {α : Type} (pre : List α) (a : α) (post : List α) :
    (pre ++ a :: post).drop (pre.length + 1) = post := by
  have h1 : (pre ++ a :: post).drop pre.length = a :: post := List.drop_left _ _
  have h2 := List.drop_drop 1 pre.length (pre ++ a :: post)
  rw [h1] at h2
  rw [← h2]
  rfl

theorem artsOf_eq {env : StepEnv} {s : StepName} {arts : List String}
    (h : processStep env s = .ok arts) : artsOf env s = arts := by
  simp [artsOf, h]

theorem runLoop_ok_prefix (cfg : Config) (env : StepEnv)
    (allSteps rest : List StepName) :
    ∀ (pre : List StepName) (st : RunState),
      (∀ s ∈ pre, s ≠ .Gate) →
      (∀ s ∈ pre, ∃ arts, processStep env s = .ok arts) →
      runLoop cfg env allSteps (pre ++ rest) st =
        runLoop cfg env allSteps rest
          { st with steps := st.steps ++ pre.map (okRecord env)
                    executed := st.executed ++ pre } := by
  intro pre
  induction pre with
  | nil => intro st _ _; simp
  | cons s pre' ih =>
    intro st hng hok
    have hsne : s ≠ .Gate := hng s (List.mem_cons_self _ _)
    obtain ⟨arts, ha⟩ := hok s (List.mem_cons_self _ _)
    show runLoop cfg env allSteps (s :: (pre' ++ rest)) st = _
    simp only [runLoop, ha, hsne, if_false]
    rw [ih _ (fun x hx => hng x (List.mem_cons_of_mem _ hx))
      (fun x hx => hok x (List.mem_cons_of_mem _ hx))]
    congr 1
    simp [okRecord, artsOf_eq ha, List.append_assoc]

end KB.Runner

namespace KB.Compiler

theorem collapseSeps_head : ∀ (d : Char) (rest : List Char),
    (collapseSeps (d :: rest)).head? = some d
  | d, [] => rfl
  | d, e :: rest => by
    unfold collapseSeps
    split_ifs with h
    · simp only [Bool.and_eq_true, decide_eq_true_eq] at h
      rw [collapseSeps_head e rest, h.1, h.2]
    · rfl

theorem collapseSeps_chain : ∀ (l : List Char),
    List.Chain' (fun a b => ¬(a = Char.ofNat 95 ∧ b = Char.ofNat 95))
      (collapseSeps l)
  | [] => List.chain'_nil
  | [c] => by
    unfold collapseSeps
    exact List.chain'_singleton c
  | c :: d :: rest => by
    unfold collapseSeps
    split_ifs with h
    · exact collapseSeps_chain (d :: rest)
    · rw [List.chain'_cons']
      refine ⟨?_, collapseSeps_chain (d :: rest)⟩
      intro y hy
      rw [collapseSeps_head d rest] at hy
      obtain rfl : d = y := by simpa using hy
      simp only [Bool.and_eq_true, decide_eq_true_eq, not_and] at h
      rintro ⟨rfl, rfl⟩
      exact h rfl rfl

theorem collapseSeps_subset : ∀ (l : List Char) (c : Char),
    c ∈ collapseSeps l → c ∈ l
  | [], c, hc => hc
  | [x], c, hc => hc
  | x :: d :: rest, c, hc => by
    unfold collapseSeps at hc
    split_ifs at hc with h
    · exact List.mem_cons_of_mem _ (collapseSeps_subset (d :: rest) c hc)
    · rcases List.mem_cons.mp hc with h2 | h2
      · exact h2 ▸ List.mem_cons_self _ _
      · exact List.mem_cons_of_mem _ (collapseSeps_subset (d :: rest) c h2)

theorem slugify_chars (text : String) : ∀ c ∈ (slugify text).data,
    isSlugChar c = true ∨ c = Char.ofNat 95 := by
  intro c hc
  unfold slugify at hc
  dsimp only at hc
  have hmem := collapseSeps_subset _ c hc
  rcases List.mem_map.mp hmem with ⟨x, _, hx⟩
  by_cases h : isSlugChar x = true
  · left
    rw [← hx, if_pos h]
    exact h
  · right
    rw [← hx, if_neg h]

end KB.Compiler

/-- C1: the QA verdict is `approved = (blockers == 0) ∧ (majors < 3)`,
independent of MINOR issues and of the score: for every issue list,
`decide` returns `true` exactly when the list contains zero `BLOCKER`
issues and fewer than three `MAJOR` issues. -/
theorem C1_decide_iff (issues : List KB.Reviewer.Issue) :
    KB.Reviewer.decide issues = true ↔
      ((issues.filter (fun i => i.severity = "BLOCKER")).length = 0 ∧
       (issues.filter (fun i => i.severity = "MAJOR")).length < 3) := by
  unfold KB.Reviewer.decide
  constructor
  · intro h
    by_cases hb : (issues.filter (fun i => i.severity = "BLOCKER")).length ≥ 1
    · simp [hb] at h
    · by_cases hm : (issues.filter (fun i => i.severity = "MAJOR")).length ≥ 3
      · simp [hb, hm] at h
      · exact ⟨by omega, by omega⟩
  · rintro ⟨hb, hm⟩
    have hb' : ¬ (issues.filter (fun i => i.severity = "BLOCKER")).length ≥ 1 := by omega
    have hm' : ¬ (issues.filter (fun i => i.severity = "MAJOR")).length ≥ 3 := by omega
    simp [hb', hm']

/-- C2: for an outline with a non-empty stage list whose order values are
all integers, the Gate emits `BQG_STAGE_ORDER_RANGE` exactly when the orders
are not pairwise distinct or are not exactly the set `{1..N}`, and the
report status is then `FAIL`. -/
theorem C2_stage_order_range (doc : KB.QualityGate.GateDoc)
    (hne : doc.stages ≠ [])
    (hints : ∀ s ∈ doc.stages, ∃ n : Int, s.order = PV.i n) :
    (KB.QualityGate.hasErrorCode (KB.QualityGate.run_gate doc)
        "BQG_STAGE_ORDER_RANGE" ↔
      ¬ ((KB.QualityGate.stageOrders doc).Pairwise (· ≠ ·) ∧
        (KB.QualityGate.stageOrders doc).toFinset =
          Finset.Icc (1 : ℤ) (doc.stages.length : ℤ))) ∧
    (KB.QualityGate.hasErrorCode (KB.QualityGate.run_gate doc)
        "BQG_STAGE_ORDER_RANGE" →
      (KB.QualityGate.run_gate doc).status = "FAIL") := by
  have hall : ∀ s ∈ doc.stages, (KB.QualityGate.asPyInt s.order).isSome := by
    intro s hs
    obtain ⟨n, hn⟩ := hints s hs
    rw [hn]
    rfl
  have hbad : KB.QualityGate.badOrder doc = false := by
    rw [KB.QualityGate.badOrder, List.any_eq_false]
    intro s hs
    have := hall s hs
    simp only [Option.isNone, Bool.not_eq_true]
    cases h : KB.QualityGate.asPyInt s.order with
    | none => rw [h] at this; simp at this
    | some n => rfl
  have hlen : (KB.QualityGate.stageOrders doc).length = doc.stages.length :=
    KB.QualityGate.length_filterMap_of_all_some _ _ hall
  have hn : doc.stages.length > 0 := List.length_pos.mpr hne
  constructor
  · exact (KB.QualityGate.hasRange_iff doc hn hbad).trans
      (not_congr (KB.QualityGate.orderOk_iff doc hne hlen))
  · intro h
    have hmem : "BQG_STAGE_ORDER_RANGE" ∈
        (KB.QualityGate.gateErrors doc).map KB.QualityGate.GateError.code := h
    have hne' : KB.QualityGate.gateErrors doc ≠ [] := by
      intro hnil
      rw [hnil] at hmem
      simp at hmem
    show (if (KB.QualityGate.gateErrors doc).isEmpty then "PASS" else "FAIL") = "FAIL"
    rw [if_neg]
    simp only [List.isEmpty_eq_true]
    exact hne'

/-- Witness for C2 at the spec scenario: two stages with orders 1 and 3
yield `BQG_STAGE_ORDER_RANGE` and a FAIL report. -/
theorem C2_stage_order_range_witness :
    KB.QualityGate.hasErrorCode (KB.QualityGate.run_gate KB.QualityGate.demoGateDoc)
      "BQG_STAGE_ORDER_RANGE" ∧
    (KB.QualityGate.run_gate KB.QualityGate.demoGateDoc).status = "FAIL" := by
  have h := C2_stage_order_range KB.QualityGate.demoGateDoc
    (List.cons_ne_nil _ _)
    (by
      intro s hs
      rcases List.mem_cons.mp hs with rfl | hs'
      · exact ⟨1, rfl⟩
      · rcases List.mem_cons.mp hs' with rfl | hs''
        · exact ⟨3, rfl⟩
        · simp at hs'')
  have herr := h.1.mpr (by decide)
  exact ⟨herr, h.2 herr⟩

/-- C10: a rule whose severity is missing/None/empty is normalized to
`"medium"`, a value outside the gate-enforced enumeration
`{critical, warning, info, low}`; a present (truthy string) severity is only
trimmed and lowercased, never validated; and every rule of the normalized
output is produced by the rule loop body at its outline position. -/
theorem C10_rule_severity_medium :
    "medium" ∉ KB.QualityGate.ALLOWED_SEVERITY ∧
    (∀ (idx : Nat) (r : KB.Compiler.RawRule),
      (r.severity = PV.vnone ∨ r.severity = PV.s "") →
      (KB.Compiler.compileRule idx r).severity = "medium") ∧
    (∀ (idx : Nat) (r : KB.Compiler.RawRule) (str : String),
      r.severity = PV.s str → str ≠ "" →
      (KB.Compiler.compileRule idx r).severity = KB.pyLower (KB.pyStrip str)) ∧
    (∀ (raw : List (KB.Compiler.Raw KB.Compiler.RawRule))
       (c : KB.Compiler.CompiledRule), c ∈ KB.Compiler.normalizeRules raw →
      ∃ i a, ∃ h : i < raw.length,
        raw.get ⟨i, h⟩ = KB.Compiler.Raw.dict a ∧
        c = KB.Compiler.compileRule (1 + i) a) := by
  refine ⟨by decide, ?_, ?_, ?_⟩
  · rintro idx r (hseq | hseq) <;>
      simp only [KB.Compiler.compileRule, KB.pyOrPV, KB.PV.truthy, hseq, KB.pyStr] <;>
      decide
  · intro idx r str hseq hne
    simp [KB.Compiler.compileRule, KB.pyOrPV, KB.PV.truthy, hseq, hne, KB.pyStr]
  · exact fun raw c hc => KB.Compiler.compileSeq_mem _ 1 raw c hc

/-- Witness for C10 at concrete rules: an absent severity yields `"medium"`,
which the Quality Gate enumeration rejects, and `"CRITICAL "` is only
trimmed/lowercased. -/
theorem C10_rule_severity_medium_witness :
    (KB.Compiler.compileRule 1 ⟨PV.vnone, PV.vnone, PV.vnone⟩).severity = "medium" ∧
    "medium" ∉ KB.QualityGate.ALLOWED_SEVERITY ∧
    (KB.Compiler.compileRule 2 ⟨PV.vnone, PV.vnone, PV.s "CRITICAL "⟩).severity = "critical" := by
  refine ⟨C10_rule_severity_medium.2.1 1 _ (Or.inl rfl), C10_rule_severity_medium.1, ?_⟩
  have h := C10_rule_severity_medium.2.2.1 2 ⟨PV.vnone, PV.vnone, PV.s "CRITICAL "⟩
    "CRITICAL " rfl (by decide)
  rw [h]
  decide

/-- C8 (amended): for an indicator at position `i` whose formula is
non-empty after stripping, has no control characters and balanced
parentheses, `precheck_formulas` reports the MINOR `FORM-EQ` issue for that
position exactly when the *formula text* contains a ratio/margin/ROI-style
keyword (word-bounded, case-insensitive) and contains no `=` character.
(The indicator's name plays no role.) -/
theorem C8_formula_keyword_minor
    (inds : List (KB.Compiler.Raw KB.Reviewer.RevInd)) (i : Nat)
    (h : i < inds.length) (ind : KB.Reviewer.RevInd)
    (hget : inds.get ⟨i, h⟩ = KB.Compiler.Raw.dict ind)
    (hne : KB.Reviewer.indFormula ind ≠ "")
    (hctl : KB.Reviewer.hasControlChar (KB.Reviewer.indFormula ind) = false)
    (hbal : KB.Reviewer.parenBalanced (KB.Reviewer.indFormula ind) = true) :
    (∃ iss ∈ (KB.Reviewer.precheck_formulas inds).1,
        iss.id = "FORM-EQ-" ++ KB.pad3 (i + 1) ∧ iss.severity = "MINOR") ↔
      (KB.Reviewer.hasRatioKeyword (KB.Reviewer.indFormula ind) = true ∧
       (KB.Reviewer.indFormula ind).data.contains '=' = false) := by
  constructor
  · rintro ⟨iss, hmem, hid, -⟩
    have hmem' : iss ∈ (KB.Reviewer.formulasLoop 0 inds).1 := hmem
    obtain ⟨j, hj, hsome⟩ := (KB.Reviewer.formulasLoop_mem inds 0 iss).mp hmem'
    rw [Nat.zero_add] at hsome
    obtain ⟨ind', hdict, hshape⟩ := KB.Reviewer.checkFormulaItem_cases j _ iss hsome
    rcases hshape with hs | hs | hs
    · rw [hid] at hs
      exact absurd hs (KB.Reviewer.formEq_id_ne_form_id _ _)
    · rw [hid] at hs
      exact absurd hs (KB.Reviewer.formEq_id_ne_paren_id _ _)
    · have hij : j = i := by
        have heq : "FORM-EQ-" ++ KB.pad3 (j + 1) = "FORM-EQ-" ++ KB.pad3 (i + 1) :=
          hs.1.symm.trans hid
        have := KB.pad3_injective (KB.Compiler.string_append_cancel_left heq)
        omega
      subst hij
      have hsame : KB.Compiler.Raw.dict ind' = KB.Compiler.Raw.dict ind := by
        rw [← hdict, hget]
      injection hsame with hinj
      rw [← hinj]
      exact ⟨hs.2.2.1, hs.2.2.2⟩
  · rintro ⟨hkw, heqf⟩
    have hsome : ∃ r : KB.Reviewer.Issue,
        (KB.Reviewer.checkFormulaItem i (inds.get ⟨i, h⟩)).1 = some r ∧
        r.id = "FORM-EQ-" ++ KB.pad3 (i + 1) ∧ r.severity = "MINOR" := by
      rw [hget]
      unfold KB.Reviewer.checkFormulaItem
      dsimp only
      rw [if_neg hne, if_neg (by simp [hctl]), if_neg (by simp [hbal]),
        if_pos ⟨hkw, by simpa using heqf⟩]
      exact ⟨_, rfl, rfl, rfl⟩
    obtain ⟨r, hr, hrid, hrsev⟩ := hsome
    refine ⟨r, ?_, hrid, hrsev⟩
    exact (KB.Reviewer.formulasLoop_mem inds 0 r).mpr
      ⟨i, h, by rw [Nat.zero_add]; exact hr⟩

/-- Witness for C8 at a concrete indicator: formula
`"Gross margin over sales"` (keyword `margin`, no `=`): the MINOR issue is
reported. -/
theorem C8_formula_keyword_minor_witness :
    KB.Reviewer.indFormula KB.Reviewer.demoInd ≠ "" ∧
    KB.Reviewer.hasControlChar (KB.Reviewer.indFormula KB.Reviewer.demoInd) = false ∧
    KB.Reviewer.parenBalanced (KB.Reviewer.indFormula KB.Reviewer.demoInd) = true ∧
    (∃ iss ∈ (KB.Reviewer.precheck_formulas
        [KB.Compiler.Raw.dict KB.Reviewer.demoInd]).1,
      iss.id = "FORM-EQ-" ++ KB.pad3 1 ∧ iss.severity = "MINOR") := by
  refine ⟨by decide, by decide, by decide, ?_⟩
  exact (C8_formula_keyword_minor [KB.Compiler.Raw.dict KB.Reviewer.demoInd] 0
    (by decide) KB.Reviewer.demoInd rfl (by decide) (by decide) (by decide)).mpr
    ⟨by decide, by decide⟩

/-- Counterexample for C8 as stated: an indicator named `"Profit Margin"`
(ratio-like name) with formula `"Revenue / Cost"` (non-empty, no control
characters, balanced, no `=`): the claim predicts a MINOR issue, but
`precheck_formulas` reports none — the keyword heuristic inspects the
formula text, not the name. -/
theorem C8_name_heuristic_counterexample :
    KB.Reviewer.nameLooksRatioLike "Profit Margin" = true ∧
    KB.Reviewer.indFormula KB.Reviewer.demoNameInd = "Revenue / Cost" ∧
    ("Revenue / Cost").data.contains '=' = false ∧
    KB.Reviewer.hasControlChar "Revenue / Cost" = false ∧
    KB.Reviewer.parenBalanced "Revenue / Cost" = true ∧
    (KB.Reviewer.precheck_formulas
      [KB.Compiler.Raw.dict KB.Reviewer.demoNameInd]).1 = [] := by
  exact ⟨by decide, by decide, by decide, by decide, by decide, rfl⟩

/-- C3: when every step before Gate succeeds, the Gate subprocess exits
0 or 2, its report is readable with status other than PASS, and
`require_gate_pass` holds, the run records the Gate step itself as `ok`,
appends a `skipped` StepRecord (with the skip reason) for exactly the
remaining requested steps among G and E in order, stores the gate status in
the manifest, writes `final.json` with reason `"Gate FAIL"`, returns exit
code 2, and executes no step after Gate. -/
theorem C3_gate_fail_skip_path (cfg : KB.Runner.Config) (env : KB.Runner.StepEnv)
    (pre post : List KB.Runner.StepName) (rep : List (String × PV))
    (hreq : cfg.require_gate_pass = true)
    (hng : ∀ s ∈ pre, s ≠ KB.Runner.StepName.Gate)
    (hok : ∀ s ∈ pre, ∃ arts, KB.Runner.processStep env s = .ok arts)
    (hexit : env.gateExit = 0 ∨ env.gateExit = 2)
    (hrep : env.gateReport = some rep)
    (hstatus : KB.Runner.pvIsStr (KB.Runner.pyGet rep "status") "PASS" = false) :
    (KB.Runner.run cfg env (pre ++ KB.Runner.StepName.Gate :: post)).1 = 2 ∧
    (KB.Runner.run cfg env (pre ++ KB.Runner.StepName.Gate :: post)).2.finalReason =
      some "Gate FAIL" ∧
    (KB.Runner.run cfg env (pre ++ KB.Runner.StepName.Gate :: post)).2.steps =
      pre.map (KB.Runner.okRecord env) ++
        KB.Runner.okRecord env KB.Runner.StepName.Gate ::
          (post.filter (fun s => s = KB.Runner.StepName.G ∨
            s = KB.Runner.StepName.E)).map KB.Runner.skipRecord ∧
    (KB.Runner.run cfg env (pre ++ KB.Runner.StepName.Gate :: post)).2.executed =
      pre ++ [KB.Runner.StepName.Gate] ∧
    (KB.Runner.run cfg env (pre ++ KB.Runner.StepName.Gate :: post)).2.qa_gate_status =
      KB.Runner.pyGet rep "status" := by
  have hgate : KB.Runner.processStep env KB.Runner.StepName.Gate =
      .ok (if rep.isEmpty then [] else ["b_quality_gate.json"]) := by
    rcases hexit with h | h <;> simp [KB.Runner.processStep, h, hrep]
  have hGnotin : KB.Runner.StepName.Gate ∉ pre := fun hm => (hng _ hm) rfl
  have hidx : (pre ++ KB.Runner.StepName.Gate :: post).indexOf
      KB.Runner.StepName.Gate = pre.length := KB.Runner.indexOf_append_cons hGnotin
  have hrun : KB.Runner.run cfg env (pre ++ KB.Runner.StepName.Gate :: post) =
      (2, ⟨pre.map (KB.Runner.okRecord env) ++
            KB.Runner.okRecord env KB.Runner.StepName.Gate ::
              (post.filter (fun s => s = KB.Runner.StepName.G ∨
                s = KB.Runner.StepName.E)).map KB.Runner.skipRecord,
          KB.Runner.pyGet rep "status", some "Gate FAIL",
          pre ++ [KB.Runner.StepName.Gate]⟩) := by
    unfold KB.Runner.run
    rw [KB.Runner.runLoop_ok_prefix cfg env _ _ pre _ hng hok]
    simp only [KB.Runner.runLoop, hgate, hrep, hreq, hstatus, hidx,
      KB.Runner.drop_append_cons, KB.Runner.updateGateStatus,
      KB.Runner.addSkips, if_true, if_pos rfl, true_and]
    simp [KB.Runner.okRecord, KB.Runner.artsOf_eq hgate]
  exact ⟨by rw [hrun], by rw [hrun], by rw [hrun], by rw [hrun], by rw [hrun]⟩

/-- Witness for C3: steps `[B, Gate, G, E, F]` with a succeeding B and a
FAIL gate report: exit 2, Gate recorded ok, G and E skipped (F is neither
skipped nor executed). -/
theorem C3_gate_fail_skip_path_witness :
    (KB.Runner.run ⟨true⟩ KB.Runner.demoEnv
      [KB.Runner.StepName.B, KB.Runner.StepName.Gate, KB.Runner.StepName.G,
       KB.Runner.StepName.E, KB.Runner.StepName.F]).1 = 2 ∧
    (KB.Runner.run ⟨true⟩ KB.Runner.demoEnv
      [KB.Runner.StepName.B, KB.Runner.StepName.Gate, KB.Runner.StepName.G,
       KB.Runner.StepName.E, KB.Runner.StepName.F]).2.finalReason =
        some "Gate FAIL" ∧
    (KB.Runner.run ⟨true⟩ KB.Runner.demoEnv
      [KB.Runner.StepName.B, KB.Runner.StepName.Gate, KB.Runner.StepName.G,
       KB.Runner.StepName.E, KB.Runner.StepName.F]).2.executed =
        [KB.Runner.StepName.B, KB.Runner.StepName.Gate] := by
  have h := C3_gate_fail_skip_path ⟨true⟩ KB.Runner.demoEnv
    [KB.Runner.StepName.B]
    [KB.Runner.StepName.G, KB.Runner.StepName.E, KB.Runner.StepName.F]
    [("status", PV.s "FAIL")] rfl
    (by intro s hs; rcases List.mem_cons.mp hs with rfl | hs'
        · intro hc; cases hc
        · simp at hs')
    (by intro s hs; rcases List.mem_cons.mp hs with rfl | hs'
        · exact ⟨["outline.yaml"], rfl⟩
        · simp at hs')
    (Or.inr rfl) rfl rfl
  exact ⟨h.1, h.2.1, h.2.2.2.1⟩

/-- C7 (code bug): the reviewer writes the BLOCKER/MAJOR/MINOR counts under
the nested `summary` key of `qa_result.json` and writes no `warnings` key at
all, while the orchestrator's `step_D` copies the *top-level* `blockers` and
`warnings` entries into the manifest.  For a QA run with one BLOCKER, the
reviewer reports `summary.blockers = 1`, yet the manifest's
`qa.blockers`/`qa.warnings` end up `None`; only `approved` is copied. -/
theorem C7_manifest_qa_counts_bug :
    KB.Runner.pyGet
        (KB.Reviewer.build_qa_result "demo-book" [KB.Reviewer.demoBlockerIssue]
          1 1 true false 0 0 "2024-01-01T00:00:00+00:00") "summary" =
      PV.dict [("blockers", PV.i 1), ("majors", PV.i 0), ("minors", PV.i 0)] ∧
    (KB.Runner.stepDQaUpdate {}
        (KB.Reviewer.build_qa_result "demo-book" [KB.Reviewer.demoBlockerIssue]
          1 1 true false 0 0 "2024-01-01T00:00:00+00:00")).approved = PV.b false ∧
    (KB.Runner.stepDQaUpdate {}
        (KB.Reviewer.build_qa_result "demo-book" [KB.Reviewer.demoBlockerIssue]
          1 1 true false 0 0 "2024-01-01T00:00:00+00:00")).blockers = PV.vnone ∧
    (KB.Runner.stepDQaUpdate {}
        (KB.Reviewer.build_qa_result "demo-book" [KB.Reviewer.demoBlockerIssue]
          1 1 true false 0 0 "2024-01-01T00:00:00+00:00")).warnings = PV.vnone :=
  ⟨rfl, rfl, rfl, rfl⟩

/-- C4 (amended): in every normalized sequence, each entity's id is the kind
prefix plus the decimal 1-based position of its item in the outline sequence,
zero-padded to a minimum width of three digits; ids are unique within each
sequence; and whenever the sequence has at most 999 items every id matches
the three-digit regex `^{kind}_\d{3}$` exactly.  (For longer sequences the
position keeps all its digits and the regex no longer matches.) -/
theorem C4_stable_ids :
    KB.Compiler.stableIdSpec KB.Compiler.normalizeStages
      KB.Compiler.CompiledStage.id "stage_" ∧
    KB.Compiler.stableIdSpec KB.Compiler.normalizeTools
      KB.Compiler.CompiledTool.id "tool_" ∧
    KB.Compiler.stableIdSpec KB.Compiler.normalizeInds
      KB.Compiler.CompiledInd.id "ind_" ∧
    KB.Compiler.stableIdSpec KB.Compiler.normalizeRules
      KB.Compiler.CompiledRule.id "rule_" :=
  ⟨KB.Compiler.compileSeq_stableIdSpec _ _ _ (fun _ _ => rfl),
   KB.Compiler.compileSeq_stableIdSpec _ _ _ (fun _ _ => rfl),
   KB.Compiler.compileSeq_stableIdSpec _ _ _ (fun _ _ => rfl),
   KB.Compiler.compileSeq_stableIdSpec _ _ _ (fun _ _ => rfl)⟩

/-- Witness for C4 on a concrete outline: two stage dicts with a skipped
non-dict between them get ids `stage_001` and `stage_003` (position in the
outline sequence), and both match the regex. -/
theorem C4_stable_ids_witness :
    (KB.Compiler.demoStages.length ≤ 999) ∧
    KB.Compiler.normalizeStages KB.Compiler.demoStages =
      [KB.Compiler.compileStage 1 KB.Compiler.demoStage1,
       KB.Compiler.compileStage 3 KB.Compiler.demoStage2] ∧
    KB.Compiler.matchesKindId "stage_"
      (KB.Compiler.compileStage 3 KB.Compiler.demoStage2).id = true := by
  refine ⟨by decide, rfl, ?_⟩
  exact (C4_stable_ids.1 KB.Compiler.demoStages).2.2 (by decide)
    (KB.Compiler.compileStage 3 KB.Compiler.demoStage2)
    (by rw [show KB.Compiler.normalizeStages KB.Compiler.demoStages =
          [KB.Compiler.compileStage 1 KB.Compiler.demoStage1,
           KB.Compiler.compileStage 3 KB.Compiler.demoStage2] from rfl]
        exact List.mem_cons_of_mem _ (List.mem_cons_self _ _))

/-- Counterexample for C4 as stated: for an outline with 1000 stages, the
1000th normalized stage has id `stage_1000` — the position is rendered with
four digits, so the id is not the prefix plus a three-digit number and fails
the regex `^stage_\d{3}$`. -/
theorem C4_thousand_stages_counterexample :
    KB.Compiler.compileStage 1000 KB.Compiler.demoStage1 ∈
      KB.Compiler.normalizeStages
        (List.replicate 1000 (KB.Compiler.Raw.dict KB.Compiler.demoStage1)) ∧
    (KB.Compiler.compileStage 1000 KB.Compiler.demoStage1).id = "stage_1000" ∧
    KB.Compiler.matchesKindId "stage_" "stage_1000" = false := by
  refine ⟨?_, by decide, by decide⟩
  rw [KB.Compiler.normalizeStages, KB.Compiler.compileSeq_replicate]
  refine List.mem_map.mpr ⟨999, List.mem_range.mpr (by norm_num), ?_⟩
  norm_num

/-- C5 (amended): (1) for an edge whose `_to` is the string `t`, the
deterministic key is `md5_hexdigest(_from|_to|rel_type)` truncated to 32
characters — the whole digest, 32 lowercase hex characters; (2) an edge on
the plain path without a preexisting `_key` is inserted under that key and
the stored document's `_key` field holds it; (3) an entity upsert onto an
existing `_key` is a merge update, not an insert, and the stored document
keeps the original `created_at`; (4) publishing a well-formed bundle twice
into an empty database with one timestamp yields identical graph state,
and the second publish reports `inserted = 0`, zero stubs and zero errors
for every collection and emits no warnings.  (For edges the original
`created_at` is NOT preserved on update — see the counterexample.) -/
theorem C5_edge_keys_and_publish :
    (∀ (e : KB.Arango.Doc) (t : String),
      KB.Arango.getField e "_to" = some (KB.PV.s t) →
      KB.Arango.edgeKeyOf e =
        KB.Arango.strTake (KB.md5_hexdigest (KB.Arango.edgeSig e t)) 32 ∧
      (KB.Arango.edgeKeyOf e).data.length = 32 ∧
      (KB.Arango.edgeKeyOf e).data.all KB.isHexLower = true) ∧
    (∀ (now ecn : String) (db : KB.Arango.DBState)
       (stats : KB.Arango.EdgeStats) (w : List KB.Arango.Doc)
       (e : KB.Arango.Doc),
      KB.Arango.edgeOkNonGloss e = true →
      KB.Arango.colHas (KB.Arango.dbGetCol db ecn)
        (KB.Arango.edgeKeyOf e) = false →
      KB.Arango.upsertEdgeDoc now ecn (db, stats, w) e =
        (KB.Arango.dbSetCol db ecn
          (KB.Arango.colInsert (KB.Arango.dbGetCol db ecn)
            (KB.Arango.edgeKeyOf e) (KB.Arango.edgeStored now e)),
         { stats with inserted := stats.inserted + 1,
                      upserted := stats.upserted + 1 }, w) ∧
      KB.Arango.getField (KB.Arango.edgeStored now e) "_key" =
        some (KB.PV.s (KB.Arango.edgeKeyOf e))) ∧
    (∀ (now cn : String) (col : KB.Arango.Collection)
       (stats : KB.Arango.EntityStats) (w : List KB.Arango.Doc)
       (d ex : KB.Arango.Doc) (cs : String),
      KB.Arango.hasStrKey d = true →
      KB.Arango.colGet col (KB.Arango.keyOf d) = some ex →
      KB.Arango.getField ex "created_at" = some (KB.PV.s cs) →
      KB.Arango.wfDoc (KB.Arango.enrichEntity now cn d) = true →
      (KB.Arango.upsertEntityDoc now cn (col, stats, w) d).2.1.inserted =
        stats.inserted ∧
      (KB.Arango.upsertEntityDoc now cn (col, stats, w) d).2.1.updated =
        stats.updated + 1 ∧
      KB.Arango.getField
        ((KB.Arango.colGet
          (KB.Arango.upsertEntityDoc now cn (col, stats, w) d).1
          (KB.Arango.keyOf d)).getD []) "created_at" =
        some (KB.PV.s cs)) ∧
    (∀ (now : String)
       (entities edges : List (String × List KB.Arango.Doc)),
      KB.Arango.BundleOk now entities edges →
      KB.Arango.publishBundle now
        (KB.Arango.publishBundle now [] entities edges).1 entities edges =
        ((KB.Arango.publishBundle now [] entities edges).1,
         (entities.filter (fun p => !p.2.isEmpty)).map
           (fun p => (p.1, KB.Arango.updStats p.2.length)),
         (edges.filter (fun p => !p.2.isEmpty)).map
           (fun p => (p.1, KB.Arango.updEdgeStats p.2.length)),
         [], [])) := by
  refine ⟨?_, ?_, ?_, ?_⟩
  · intro e t hto
    have hk : KB.Arango.edgeKeyOf e =
        KB.md5_hexdigest (KB.Arango.edgeSig e t) := by
      unfold KB.Arango.edgeKeyOf
      rw [hto]
      exact KB.Arango.strTake_of_length_le _ _
        (le_of_eq (KB.Arango.md5_hexdigest_length _))
    refine ⟨?_, ?_, ?_⟩
    · unfold KB.Arango.edgeKeyOf
      rw [hto]
    · rw [hk]
      exact KB.Arango.md5_hexdigest_length _
    · rw [hk]
      exact KB.Arango.md5_hexdigest_hex _
  · intro now ecn db stats w e hok hfresh
    refine ⟨KB.Arango.upsertEdgeDoc_fresh now ecn db stats w e hok hfresh,
      KB.Arango.getField_edgeStored_key now e
        (KB.Arango.edgeOk_parts e hok).2.2⟩
  · intro now cn col stats w d ex cs hk hget hcr hwf
    have hhas : KB.Arango.colHas col (KB.Arango.keyOf d) = true :=
      KB.Arango.colHas_of_get _ _ _ hget
    have hred : KB.Arango.upsertEntityDoc now cn (col, stats, w) d =
        (KB.Arango.colUpdate col (KB.Arango.keyOf d)
          (KB.Arango.setField (KB.Arango.enrichEntity now cn d)
            "created_at" (KB.PV.s cs)),
         { stats with updated := stats.updated + 1,
                      upserted := stats.upserted + 1 }, w) := by
      unfold KB.Arango.upsertEntityDoc
      rw [KB.Arango.hasStrKey_getField d hk]
      dsimp only
      rw [if_pos hhas, hget]
      dsimp only
      rw [hcr]
    refine ⟨by rw [hred], by rw [hred], ?_⟩
    rw [hred]
    dsimp only
    rw [KB.Arango.colGet_colUpdate_of_get _ _ _ ex hget]
    simp only [Option.getD]
    apply KB.Arango.getField_mergeDicts_mem_s
    · rw [KB.Arango.setField_map_fst_of_mem _ _ _ _
        (KB.Arango.getField_enrich_created now cn d)]
      exact KB.Arango.wfDoc_map_fst_nodup _ hwf
    · exact KB.Arango.lookup_mem _ _ _
        (KB.Arango.getField_setField_same
          (KB.Arango.enrichEntity now cn d) "created_at" (KB.PV.s cs))
  · intro now entities edges hb
    exact KB.Arango.publishBundle_idem now entities edges hb

set_option maxRecDepth 1000000 in
/-- Witness for C5 on the demo bundle: the second publish with the same
timestamp returns the first publish's state unchanged and reports one
update, zero inserts, for each of the two collections. -/
theorem C5_edge_keys_and_publish_witness :
    KB.Arango.publishBundle "t0"
      (KB.Arango.publishBundle "t0" [] KB.Arango.demoPubEnts
        KB.Arango.demoPubEdges).1 KB.Arango.demoPubEnts
      KB.Arango.demoPubEdges =
      ((KB.Arango.publishBundle "t0" [] KB.Arango.demoPubEnts
          KB.Arango.demoPubEdges).1,
       [("stages", KB.Arango.updStats 1)],
       [("stage_uses_tool", KB.Arango.updEdgeStats 1)], [], []) := by
  have h := C5_edge_keys_and_publish.2.2.2 "t0" KB.Arango.demoPubEnts
    KB.Arango.demoPubEdges (by decide)
  exact h

set_option maxRecDepth 1000000 in
/-- Counterexample to C5 as stated: publishing the demo bundle at `t1` and
re-publishing it at `t2` overwrites the EDGE document's `created_at` with
`t2` (the publisher restores `created_at` only for entities — the stage
keeps `t1`), so an edge upsert onto an existing `_key` does not preserve
the original `created_at` and the two-publish graph states differ. -/
theorem C5_edge_created_at_counterexample :
    KB.Arango.getField
      ((KB.Arango.colGet (KB.Arango.dbGetCol
        (KB.Arango.publishBundle "t1" [] KB.Arango.demoPubEnts
          KB.Arango.demoPubEdges).1 "stage_uses_tool")
        "7295447d7b6108b0ac2bea6587d54d95").getD []) "created_at" =
      some (KB.PV.s "t1") ∧
    KB.Arango.getField
      ((KB.Arango.colGet (KB.Arango.dbGetCol
        (KB.Arango.publishBundle "t2"
          (KB.Arango.publishBundle "t1" [] KB.Arango.demoPubEnts
            KB.Arango.demoPubEdges).1 KB.Arango.demoPubEnts
          KB.Arango.demoPubEdges).1 "stage_uses_tool")
        "7295447d7b6108b0ac2bea6587d54d95").getD []) "created_at" =
      some (KB.PV.s "t2") ∧
    KB.Arango.getField
      ((KB.Arango.colGet (KB.Arango.dbGetCol
        (KB.Arango.publishBundle "t2"
          (KB.Arango.publishBundle "t1" [] KB.Arango.demoPubEnts
            KB.Arango.demoPubEdges).1 KB.Arango.demoPubEnts
          KB.Arango.demoPubEdges).1 "stages")
        "stage_001").getD []) "created_at" = some (KB.PV.s "t1") :=
  ⟨rfl, rfl, rfl⟩

/-- C6 (amended): when an edge whose `_from` is present, whose `_to` is
`glossary_terms/X` and which carries no `_key` is upserted into an edge
collection other than `glossary_terms`: if no document with key `X` exists
in `glossary_terms`, exactly one stub document is appended under key `X` —
with `_key = X`, `term_id = X`, `definition = ""`, `aliases = []`,
`status = "needs_definition"`, and `name` equal to the edge's `term_name`
only when that field is present AND truthy, falling back to `X` otherwise
(in particular an empty-string `term_name` yields `name = X`, not the
claimed `edge.term_name`) — and exactly one matching warning is appended;
if the target term already exists, the glossary collection and the warning
list are unchanged. -/
theorem C6_glossary_stub_rule (now ecn X : String)
    (db : KB.Arango.DBState) (stats : KB.Arango.EdgeStats)
    (w : List KB.Arango.Doc) (e : KB.Arango.Doc)
    (hfrom : (KB.Arango.getField e "_from").isSome = true)
    (hto : KB.Arango.getField e "_to" =
      some (KB.PV.s ("glossary_terms/" ++ X)))
    (hkey : KB.Arango.getField e "_key" = none)
    (hecn : ecn ≠ "glossary_terms") :
    (KB.Arango.colHas (KB.Arango.dbGetCol db "glossary_terms") X = false →
      KB.Arango.dbGetCol
        (KB.Arango.upsertEdgeDoc now ecn (db, stats, w) e).1
        "glossary_terms" =
        KB.Arango.colInsert (KB.Arango.dbGetCol db "glossary_terms") X
          (KB.Arango.glossaryStub now X
            (KB.Arango.setDefault e "created_at" (KB.PV.s now))) ∧
      ((KB.Arango.dbGetCol
        (KB.Arango.upsertEdgeDoc now ecn (db, stats, w) e).1
        "glossary_terms").filter (fun q => q.1 == X)).length = 1 ∧
      (KB.Arango.upsertEdgeDoc now ecn (db, stats, w) e).2.2 =
        w ++ [KB.Arango.stubWarning now X ecn
          (KB.Arango.setDefault e "created_at" (KB.PV.s now))] ∧
      (KB.Arango.upsertEdgeDoc now ecn
        (db, stats, w) e).2.1.created_glossary_stubs =
        stats.created_glossary_stubs + 1) ∧
    (KB.Arango.colHas (KB.Arango.dbGetCol db "glossary_terms") X = true →
      KB.Arango.dbGetCol
        (KB.Arango.upsertEdgeDoc now ecn (db, stats, w) e).1
        "glossary_terms" = KB.Arango.dbGetCol db "glossary_terms" ∧
      (KB.Arango.upsertEdgeDoc now ecn (db, stats, w) e).2.2 = w ∧
      (KB.Arango.upsertEdgeDoc now ecn
        (db, stats, w) e).2.1.created_glossary_stubs =
        stats.created_glossary_stubs) ∧
    (∀ e1 : KB.Arango.Doc,
      KB.Arango.getField (KB.Arango.glossaryStub now X e1) "_key" =
        some (KB.PV.s X) ∧
      KB.Arango.getField (KB.Arango.glossaryStub now X e1) "term_id" =
        some (KB.PV.s X) ∧
      KB.Arango.getField (KB.Arango.glossaryStub now X e1) "definition" =
        some (KB.PV.s "") ∧
      KB.Arango.getField (KB.Arango.glossaryStub now X e1) "aliases" =
        some (KB.PV.lst []) ∧
      KB.Arango.getField (KB.Arango.glossaryStub now X e1) "status" =
        some (KB.PV.s "needs_definition")) ∧
    (∀ v : KB.PV, KB.Arango.getField e "term_name" = some v →
      (v.truthy = true →
        KB.Arango.getField (KB.Arango.glossaryStub now X
          (KB.Arango.setDefault e "created_at" (KB.PV.s now))) "name" =
          some v) ∧
      (v.truthy = false →
        KB.Arango.getField (KB.Arango.glossaryStub now X
          (KB.Arango.setDefault e "created_at" (KB.PV.s now))) "name" =
          some (KB.PV.s X))) ∧
    (KB.Arango.getField e "term_name" = none →
      KB.Arango.getField (KB.Arango.glossaryStub now X
        (KB.Arango.setDefault e "created_at" (KB.PV.s now))) "name" =
        some (KB.PV.s X)) := by
  obtain ⟨hstub1, hstub2⟩ :=
    KB.Arango.upsertEdgeDoc_stub now ecn X db stats w e hfrom hto hkey hecn
  have htn : KB.Arango.getField
      (KB.Arango.setDefault e "created_at" (KB.PV.s now)) "term_name" =
      KB.Arango.getField e "term_name" :=
    KB.Arango.getField_setDefault_other _ _ _ _ (by decide)
  have hname : KB.Arango.getField (KB.Arango.glossaryStub now X
      (KB.Arango.setDefault e "created_at" (KB.PV.s now))) "name" =
      some (match KB.Arango.getField
          (KB.Arango.setDefault e "created_at" (KB.PV.s now))
          "term_name" with
        | some v => if v.truthy then v else KB.PV.s X
        | none => KB.PV.s X) := rfl
  refine ⟨?_, ?_, ?_, ?_, ?_⟩
  · intro hmiss
    obtain ⟨g1, g2, g3⟩ := hstub1 hmiss
    refine ⟨g1, ?_, g2, g3⟩
    rw [g1]
    exact KB.Arango.colInsert_filter_key _ _ _ hmiss
  · exact hstub2
  · intro e1
    exact ⟨rfl, rfl, rfl, rfl, rfl⟩
  · intro v hv
    constructor
    · intro htr
      rw [hname, htn, hv]
      simp only [htr, if_true]
    · intro hfa
      rw [hname, htn, hv]
      simp only [hfa]
      rfl
  · intro hv
    rw [hname, htn, hv]

set_option maxRecDepth 200000 in
/-- Witness for C6: upserting the demo glossary edge into an empty
database appends exactly one `ebitda` stub with
`status = "needs_definition"` and exactly one stub warning. -/
theorem C6_glossary_stub_rule_witness :
    KB.Arango.dbGetCol
      (KB.Arango.upsertEdgeDoc "t1" "methodology_uses_term"
        (([] : KB.Arango.DBState), ({} : KB.Arango.EdgeStats), [])
        KB.Arango.demoGlossEdge).1 "glossary_terms" =
      KB.Arango.colInsert [] "ebitda"
        (KB.Arango.glossaryStub "t1" "ebitda"
          (KB.Arango.setDefault KB.Arango.demoGlossEdge "created_at"
            (KB.PV.s "t1"))) ∧
    (KB.Arango.upsertEdgeDoc "t1" "methodology_uses_term"
        (([] : KB.Arango.DBState), ({} : KB.Arango.EdgeStats), [])
        KB.Arango.demoGlossEdge).2.2 =
      [KB.Arango.stubWarning "t1" "ebitda" "methodology_uses_term"
        (KB.Arango.setDefault KB.Arango.demoGlossEdge "created_at"
          (KB.PV.s "t1"))] ∧
    KB.Arango.getField
      (KB.Arango.glossaryStub "t1" "ebitda"
        (KB.Arango.setDefault KB.Arango.demoGlossEdge "created_at"
          (KB.PV.s "t1"))) "status" =
      some (KB.PV.s "needs_definition") := by
  have h := C6_glossary_stub_rule "t1" "methodology_uses_term" "ebitda"
    [] {} [] KB.Arango.demoGlossEdge rfl rfl rfl (by decide)
  obtain ⟨g1, _, g3, _⟩ := h.1 rfl
  exact ⟨g1, g3, (h.2.2.1
    (KB.Arango.setDefault KB.Arango.demoGlossEdge "created_at"
      (KB.PV.s "t1"))).2.2.2.2⟩

set_option maxRecDepth 1000000 in
/-- Counterexample to C6 as stated: the demo glossary edge carries
`term_name = ""` (present), yet the created stub's `name` is the key
`ebitda`, not the edge's `term_name` — the code tests Python truthiness,
not presence. -/
theorem C6_falsy_term_name_counterexample :
    KB.Arango.getField KB.Arango.demoGlossEdge "term_name" =
      some (KB.PV.s "") ∧
    KB.Arango.getField
      ((KB.Arango.colGet (KB.Arango.dbGetCol
        (KB.Arango.upsert_edges "t1" []
          [("methodology_uses_term", [KB.Arango.demoGlossEdge])] []).1
        "glossary_terms") "ebitda").getD []) "name" =
      some (KB.PV.s "ebitda") :=
  ⟨rfl, rfl⟩

/-- C9: the Compiler's slug function (the repository wrapper `safe_slug`
over the spec-described external slugifier): empty input yields `"item"`;
the result never exceeds 60 characters and is never empty; a non-empty
input whose slug is empty falls back to `"item"`; a slug of at most 60
characters is returned as is and a longer one is truncated to exactly its
first 60 characters; every slug character is a lowercase ASCII letter, a
digit, or the separator; and the separator is never repeated (collapsed
runs). -/
theorem C9_safe_slug :
    KB.Compiler.safe_slug "" = "item" ∧
    (∀ text, (KB.Compiler.safe_slug text).data.length ≤ 60) ∧
    (∀ text, KB.Compiler.safe_slug text ≠ "") ∧
    (∀ text, text ≠ "" → KB.Compiler.slugify text = "" →
      KB.Compiler.safe_slug text = "item") ∧
    (∀ text, text ≠ "" → KB.Compiler.slugify text ≠ "" →
      (KB.Compiler.slugify text).data.length ≤ 60 →
      KB.Compiler.safe_slug text = KB.Compiler.slugify text) ∧
    (∀ text, text ≠ "" →
      (KB.Compiler.slugify text).data.length > 60 →
      KB.Compiler.safe_slug text =
        (⟨(KB.Compiler.slugify text).data.take 60⟩ : String)) ∧
    (∀ text, ∀ c ∈ (KB.Compiler.slugify text).data,
      KB.Compiler.isSlugChar c = true ∨ c = Char.ofNat 95) ∧
    (∀ text,
      List.Chain' (fun a b => ¬(a = Char.ofNat 95 ∧ b = Char.ofNat 95))
        (KB.Compiler.slugify text).data) := by
  have hmkne : ∀ (l : List Char), l ≠ [] → (⟨l⟩ : String) ≠ "" := by
    intro l hl he
    exact hl (congrArg String.data he)
  refine ⟨by decide, ?_, ?_, ?_, ?_, ?_, ?_, ?_⟩
  · intro text
    unfold KB.Compiler.safe_slug
    by_cases h1 : text = ""
    · rw [if_pos h1]
      decide
    · rw [if_neg h1]
      dsimp only
      by_cases h2 : (KB.Compiler.slugify text).data.length > 60
      · rw [if_pos h2]
        by_cases h3 :
            (⟨(KB.Compiler.slugify text).data.take 60⟩ : String) = ""
        · rw [if_pos h3]
          decide
        · rw [if_neg h3]
          show (List.take 60 (KB.Compiler.slugify text).data).length ≤ 60
          simp only [List.length_take]
          omega
      · rw [if_neg h2]
        by_cases h3 : KB.Compiler.slugify text = ""
        · rw [if_pos h3]
          decide
        · rw [if_neg h3]
          omega
  · intro text
    unfold KB.Compiler.safe_slug
    by_cases h1 : text = ""
    · rw [if_pos h1]
      decide
    · rw [if_neg h1]
      dsimp only
      by_cases h2 : (KB.Compiler.slugify text).data.length > 60
      · rw [if_pos h2]
        by_cases h3 :
            (⟨(KB.Compiler.slugify text).data.take 60⟩ : String) = ""
        · rw [if_pos h3]
          decide
        · rw [if_neg h3]
          exact h3
      · rw [if_neg h2]
        by_cases h3 : KB.Compiler.slugify text = ""
        · rw [if_pos h3]
          decide
        · rw [if_neg h3]
          exact h3
  · intro text hne hsl
    unfold KB.Compiler.safe_slug
    rw [if_neg hne]
    dsimp only
    rw [hsl]
    decide
  · intro text hne hsne hlen
    unfold KB.Compiler.safe_slug
    rw [if_neg hne]
    dsimp only
    rw [if_neg (show ¬((KB.Compiler.slugify text).data.length > 60)
      by omega)]
    rw [if_neg hsne]
  · intro text hne hlen
    unfold KB.Compiler.safe_slug
    rw [if_neg hne]
    dsimp only
    rw [if_pos hlen]
    rw [if_neg (hmkne _ (by
      intro he
      have h2 := congrArg List.length he
      rw [List.length_take] at h2
      simp only [List.length_nil] at h2
      omega))]
  · exact fun text => KB.Compiler.slugify_chars text
  · intro text
    unfold KB.Compiler.slugify
    exact KB.Compiler.collapseSeps_chain _

set_option maxRecDepth 10000 in
/-- Witness for C9: `"Profit  Margin"` (with a doubled space) slugs to
`profit_margin` — lowercased, the spaces replaced by the separator and the
run collapsed. -/
theorem C9_safe_slug_witness :
    "Profit  Margin" ≠ "" ∧
    KB.Compiler.safe_slug "Profit  Margin" = "profit_margin" :=
  ⟨by decide, by
    have h := C9_safe_slug.2.2.2.2.1 "Profit  Margin" (by decide)
      (by decide) (by decide)
    exact h.trans (by decide)⟩
